import Mathlib

/-!
Fetch negotiation (`src/fetch.c`).

A shallow embedding of `maybe_want`, `filter_wants`, `filter_wants_1`,
`git_fetch_negotiate`, `git_get_last` and `git_fetch_download_pack`.

Conventions of the embedding.

* A `git_remote_head *` is an index into the advertisement buffer of the
  transport (`git_remote.heads`); `heads[i]` of the listing is the pointer `i`.
* The want list `remote->refs` is a vector of such pointers.
* The collaborators that live outside `fetch.c` (reference-name validation,
  refspec parsing and matching, the object database, the transport) are the
  fields of `Env`: functions, so that a collaborator gives the same answer to
  the same question throughout a session.  Every call made to one of them is
  recorded, in order, in the ghost field `git_remote.trace`.
* Result codes are C `int`s, modelled as `Int`; only their sign is tested.
  The size `(GIT_OID_HEXSZ + 1) * heads_len` is a `Nat`: it cannot wrap, the
  listing itself holds `heads_len` pointers in memory.
* The diagnostic output (`fprintf`, `print_git_vector`) and the release of
  temporary refspecs (`git_refspec__free`) have no effect on the modelled
  state and are left out.
-/

namespace Fetch

/-- Hexadecimal size of an object id. -/
def GIT_OID_HEXSZ : Nat := 40

/-- Raw size of an object id, in bytes. -/
def GIT_OID_RAWSZ : Nat := 20

/-- Object id: `GIT_OID_RAWSZ` raw bytes. -/
structure git_oid where
  id : List (Fin 256)
  size_eq : id.length = GIT_OID_RAWSZ
deriving DecidableEq

/-- Autotag policy of a remote or of one fetch call. -/
inductive git_remote_autotag_option_t
  | GIT_REMOTE_DOWNLOAD_TAGS_UNSPECIFIED
  | GIT_REMOTE_DOWNLOAD_TAGS_AUTO
  | GIT_REMOTE_DOWNLOAD_TAGS_NONE
  | GIT_REMOTE_DOWNLOAD_TAGS_ALL
deriving DecidableEq, Repr

open git_remote_autotag_option_t

/-- Advertised reference: the fields of `git_remote_head` that `fetch.c` reads
or writes. -/
structure git_remote_head where
  «local» : Int
  oid : git_oid
  name : String
deriving DecidableEq

/-- Parsed refspec. -/
structure git_refspec where
  string : String
  src : String
  dst : String
  force : Bool
deriving DecidableEq, Repr

/-- Per-call fetch options: the one field `filter_wants` reads. -/
structure git_fetch_options where
  download_tags : git_remote_autotag_option_t
deriving DecidableEq, Repr

/-- Transfer counters handed to the transport while a pack is streamed. -/
structure git_transfer_progress where
  received_objects : Nat
  received_bytes : Nat
deriving DecidableEq, Repr

/-- Caller-supplied callbacks: a progress function and a payload, each an
address or `NULL` (`none`). -/
structure git_remote_callbacks where
  transfer_progress : Option Nat
  payload : Option Nat
deriving DecidableEq, Repr

/-- Object database handle: answers existence queries. -/
abbrev git_odb := git_oid → Bool

/-- One call to a collaborator outside `fetch.c`. -/
inductive Event
  | reference_is_valid_name (name : String)
  | refspec_src_matches (spec : git_refspec) (name : String)
  | odb_exists (oid : git_oid)
  | vector_insert (element : Nat)
  | refspec_parse (str : String) (is_fetch : Bool)
  | refspec_dwim_one (spec : git_refspec) (refs : List Nat)
  | repository_odb (repo : Nat)
  | remote_ls
  | remote_connected
  | remote_connect
  | negotiate_fetch (repo : Nat) (refs : List Nat)
  | download_pack (repo : Nat) (stats : git_transfer_progress)
      (progress : Option Nat) (payload : Option Nat)
deriving DecidableEq

/-- State of a remote during one fetch session. -/
structure git_remote where
  repo : Nat
  download_tags : git_remote_autotag_option_t
  active_refspecs : List git_refspec
  refs : List Nat
  need_pack : Nat
  stats : git_transfer_progress
  heads : List git_remote_head
  connected : Bool
  trace : List Event

/-- Collaborators of `fetch.c`. Result codes are C `int`s: negative means
failure. -/
structure Env where
  git_reference_is_valid_name : String → Bool
  git_refspec_src_matches : git_refspec → String → Bool
  git_refspec__parse : String → Bool → Int × git_refspec
  dwim_code : git_refspec → List git_remote_head → Int
  dwim_expand : git_refspec → List git_remote_head → git_refspec
  git_repository_odb__weakptr : Nat → Int × git_odb
  git_remote_ls : Int
  vector_insert_code : List Nat → Nat → Int
  git_remote_connect : Int
  negotiate_fetch : Nat → List Nat → List git_remote_head → Int
  download_pack : Nat → git_transfer_progress → Option Nat → Option Nat →
    Int × git_transfer_progress

/-- Modelled from the spec: the constant `GIT_REFSPEC_TAGS` of `refspec.h`,
the fixed tags refspec whose source pattern is `refs/tags/*`. -/
def GIT_REFSPEC_TAGS : String := "refs/tags/*:refs/tags/*"

/-- Append one collaborator call to the trace. -/
def git_remote.record (remote : git_remote) (e : Event) : git_remote :=
  { remote with trace := remote.trace ++ [e] }

/-- Dereference a vector of head pointers. -/
def git_remote.deref (remote : git_remote) (ptrs : List Nat) : List git_remote_head :=
  ptrs.filterMap (fun p => remote.heads[p]?)

/-- Modelled from the spec: `git_vector_insert` of `vector.c`. The element is
appended at the end of the vector; a failed growth returns a negative code and
leaves the vector as it was. -/
def git_vector_insert (env : Env) (v : List Nat) (element : Nat) : Int × List Nat :=
  let rc := env.vector_insert_code v element
  if rc < 0 then (rc, v) else (rc, v ++ [element])

/-- Modelled from the spec: `git_refspec__dwim_one` of `refspec.c`, the
expansion of one refspec against a vector of references into the collection
`out`. On success a single expanded refspec is added to `out`; on failure
`out` is left as it was. -/
def git_refspec__dwim_one (env : Env) (out : List git_refspec) (spec : git_refspec)
    (refs : List git_remote_head) : Int × List git_refspec :=
  let rc := env.dwim_code spec refs
  if rc < 0 then (rc, out) else (rc, out ++ [env.dwim_expand spec refs])

/-- Modelled from the spec: `git_remote__matching_refspec` of `remote.c`, a
linear scan of the active refspecs where the first match wins. The first
component is the matching refspec (`none` for `NULL`), the second the calls
made to the matcher. -/
def git_remote__matching_refspec (env : Env) (name : String) :
    List git_refspec → Option git_refspec × List Event
  | [] => (none, [])
  | spec :: rest =>
    if env.git_refspec_src_matches spec name then
      (some spec, [Event.refspec_src_matches spec name])
    else
      let r := git_remote__matching_refspec env name rest
      (r.1, Event.refspec_src_matches spec name :: r.2)

/-- Lines 34-54 of `maybe_want`: the flag `match` for a head named `name`, and
the calls made to the matcher to compute it. -/
def maybe_want_match (env : Env) (active_refspecs : List git_refspec) (name : String)
    (tagspec : git_refspec) (tagopt : git_remote_autotag_option_t) : Bool × List Event :=
  let m1 : Bool × List Event :=
    if tagopt = GIT_REMOTE_DOWNLOAD_TAGS_ALL then
      (env.git_refspec_src_matches tagspec name, [Event.refspec_src_matches tagspec name])
    else (false, [])
  if !m1.1 then
    let r := git_remote__matching_refspec env name active_refspecs
    (r.1.isSome, m1.2 ++ r.2)
  else (true, m1.2)

/-- Embedding of `maybe_want` (fetch.c:32-69). `head` is a pointer into the
advertisement buffer; the loop of `filter_wants` only passes pointers inside
the buffer, any other pointer is ignored. When the object exists the head is
marked local, otherwise `need_pack` is set; then the pointer is inserted into
the want list. -/
def maybe_want (env : Env) (remote : git_remote) (head : Nat) (odb : git_odb)
    (tagspec : git_refspec) (tagopt : git_remote_autotag_option_t) : Int × git_remote :=
  match remote.heads[head]? with
  | none => (0, remote)
  | some h =>
    if !env.git_reference_is_valid_name h.name then
      (0, remote.record (Event.reference_is_valid_name h.name))
    else
      let m := maybe_want_match env remote.active_refspecs h.name tagspec tagopt
      if !m.1 then
        (0, { remote with
              trace := remote.trace ++ (Event.reference_is_valid_name h.name :: m.2) })
      else
        let ins := git_vector_insert env remote.refs head
        (ins.1,
          { remote with
            heads :=
              if odb h.oid then remote.heads.set head { h with «local» := 1 } else remote.heads
            need_pack := if odb h.oid then remote.need_pack else 1
            refs := ins.2
            trace := remote.trace ++ (Event.reference_is_valid_name h.name :: m.2) ++
              [Event.odb_exists h.oid, Event.vector_insert head] })

/-- The `for` loop of `filter_wants` (fetch.c:160-166): `maybe_want` on each
listed head in turn, stopping at the first negative result. `error` is the
value the variable holds when the loop is entered. -/
def filter_wants_loop (env : Env) (odb : git_odb) (tagspec : git_refspec)
    (tagopt : git_remote_autotag_option_t) : List Nat → Int → git_remote → Int × git_remote
  | [], error, remote => (error, remote)
  | head :: rest, _, remote =>
    let r := maybe_want env remote head odb tagspec tagopt
    if r.1 < 0 then r else filter_wants_loop env odb tagspec tagopt rest r.1 r.2

/-- Lines 151-171 of `filter_wants`: object database, listing and the loop.
Both `goto cleanup` exits leave `error` as it was. -/
def filter_wants_tail (env : Env) (remote : git_remote) (error : Int)
    (tagspec : git_refspec) (tagopt : git_remote_autotag_option_t) : Int × git_remote :=
  let o := env.git_repository_odb__weakptr remote.repo
  let remote := remote.record (Event.repository_odb remote.repo)
  if o.1 < 0 then (error, remote)
  else
    let remote := remote.record Event.remote_ls
    if env.git_remote_ls < 0 then (error, remote)
    else
      filter_wants_loop env o.2 tagspec tagopt (List.range remote.heads.length) error remote

/-- Embedding of `filter_wants` (fetch.c:111-172). -/
def filter_wants (env : Env) (remote : git_remote) (opts : Option git_fetch_options) :
    Int × git_remote :=
  let tagopt : git_remote_autotag_option_t :=
    match opts with
    | some o =>
      if o.download_tags ≠ GIT_REMOTE_DOWNLOAD_TAGS_UNSPECIFIED then o.download_tags
      else remote.download_tags
    | none => remote.download_tags
  let remote := { remote with refs := [] }
  let t := env.git_refspec__parse GIT_REFSPEC_TAGS true
  let remote := remote.record (Event.refspec_parse GIT_REFSPEC_TAGS true)
  if t.1 < 0 then (t.1, remote)
  else if remote.active_refspecs.length = 0 then
    let hd := env.git_refspec__parse "HEAD" true
    let remote := remote.record (Event.refspec_parse "HEAD" true)
    if hd.1 < 0 then (hd.1, remote)
    else
      let d := git_refspec__dwim_one env remote.active_refspecs hd.2 (remote.deref remote.refs)
      let remote :=
        { (remote.record (Event.refspec_dwim_one hd.2 remote.refs)) with
          active_refspecs := d.2 }
      if d.1 < 0 then (d.1, remote)
      else filter_wants_tail env remote d.1 t.2 tagopt
  else filter_wants_tail env remote t.1 t.2 tagopt

/-- Embedding of `git_fetch_negotiate` (fetch.c:179-211). -/
def git_fetch_negotiate (env : Env) (remote : git_remote) (opts : Option git_fetch_options) :
    Int × git_remote :=
  let remote := { remote with need_pack := 0 }
  let r := filter_wants env remote opts
  if r.1 < 0 then (-1, r.2)
  else if r.2.need_pack = 0 then (0, r.2)
  else
    (env.negotiate_fetch r.2.repo r.2.refs r.2.heads,
      r.2.record (Event.negotiate_fetch r.2.repo r.2.refs))

/-- Embedding of `git_fetch_download_pack` (fetch.c:229-246). -/
def git_fetch_download_pack (env : Env) (remote : git_remote)
    (callbacks : Option git_remote_callbacks) : Int × git_remote :=
  if remote.need_pack = 0 then (0, remote)
  else
    let cb : Option Nat × Option Nat :=
      match callbacks with
      | some c => (c.transfer_progress, c.payload)
      | none => (none, none)
    let r := env.download_pack remote.repo remote.stats cb.1 cb.2
    (r.1, { (remote.record (Event.download_pack remote.repo remote.stats cb.1 cb.2)) with
            stats := r.2 })

/-- Output buffer obtained from `malloc`: a cell is `none` until it is first
written. The ghost flag `oob` records that a store fell outside the buffer. -/
structure Buffer where
  cells : List (Option Char)
  oob : Bool
deriving DecidableEq

/-- Allocation of `size` uninitialised bytes. -/
def malloc (size : Nat) : Buffer :=
  { cells := List.replicate size none, oob := false }

/-- Store of one character, `buff[i] = c`. -/
def Buffer.store (b : Buffer) (i : Nat) (c : Char) : Buffer :=
  if i < b.cells.length then { b with cells := b.cells.set i (some c) }
  else { b with oob := true }

/-- The terminating character of a C string. -/
def NUL : Char := Char.ofNat 0

/-- Embedding of `sprintf (buff + off, "%s", s)`: the characters of `s`, then
the terminator. -/
def sprintf_s (b : Buffer) (off : Nat) : List Char → Buffer
  | [] => b.store off NUL
  | c :: cs => sprintf_s (b.store off c) (off + 1) cs

/-- The C string that starts at the first cell: the characters before the first
terminator. There is none when an uninitialised cell or the end of the
allocation comes first. -/
def c_string : List (Option Char) → Option (List Char)
  | [] => none
  | none :: _ => none
  | some c :: rest => if c = NUL then some [] else (c_string rest).map (fun s => c :: s)

/-- Lower-case hexadecimal digit of a value below sixteen. -/
def to_hex (n : Nat) : Char := "0123456789abcdef".toList.getD n '0'

/-- Two hexadecimal digits of one byte, high nibble first. -/
def fmt_byte (b : Fin 256) : List Char := [to_hex (b.val / 16), to_hex (b.val % 16)]

/-- Modelled from the spec: `git_oid_tostr` of `oid.c`, the hexadecimal form of
an object id cut to the `n - 1` characters that fit a buffer of `n` bytes
(the terminator is added by the caller's copy). -/
def git_oid_tostr (n : Nat) (oid : git_oid) : List Char :=
  (oid.id.flatMap fmt_byte).take (n - 1)

/-- Value of a hexadecimal digit. -/
def from_hex (c : Char) : Option Nat :=
  if c.toNat - 48 < 10 ∧ 48 ≤ c.toNat then some (c.toNat - 48)
  else if c.toNat - 97 < 6 ∧ 97 ≤ c.toNat then some (c.toNat - 87)
  else if c.toNat - 65 < 6 ∧ 65 ≤ c.toNat then some (c.toNat - 55)
  else none

/-- Standard hexadecimal decoding of a string into bytes, two digits a byte. -/
def hex_decode : List Char → Option (List Nat)
  | [] => some []
  | [_] => none
  | a :: b :: rest =>
    (from_hex a).bind fun x =>
      (from_hex b).bind fun y =>
        (hex_decode rest).map fun bs => (16 * x + y) :: bs

/-- The `for` loop of `filter_wants_1` (fetch.c:101-106), from index `i` on;
`heads` are the listed references from index `i`. -/
def filter_wants_1_loop (heads_len : Nat) : Nat → List git_remote_head → Buffer → Buffer
  | _, [], buff => buff
  | i, h :: rest, buff =>
    let oidstr := git_oid_tostr (GIT_OID_HEXSZ + 1) h.oid
    let buff := sprintf_s buff ((GIT_OID_HEXSZ + 1) * i) oidstr
    let buff :=
      if i > 0 ∧ i < heads_len then buff.store ((GIT_OID_HEXSZ + 1) * i - 1) ';' else buff
    filter_wants_1_loop heads_len (i + 1) rest buff

/-- Lines 95-108 of `filter_wants_1`: listing, allocation and the loop. -/
def filter_wants_1_tail (env : Env) (remote : git_remote) : Option Buffer × git_remote :=
  let remote := remote.record Event.remote_ls
  if env.git_remote_ls < 0 then (none, remote)
  else
    let heads_len := remote.heads.length
    let buff := malloc ((GIT_OID_HEXSZ + 1) * heads_len)
    (some (filter_wants_1_loop heads_len 0 remote.heads buff), remote)

/-- Embedding of `filter_wants_1` (fetch.c:71-109). The result is `none` for
`NULL`. -/
def filter_wants_1 (env : Env) (remote : git_remote) : Option Buffer × git_remote :=
  let remote := { remote with refs := [] }
  let remote := remote.record (Event.refspec_parse "HEAD" true)
  if remote.active_refspecs.length = 0 then
    let hd := env.git_refspec__parse "HEAD" true
    let remote := remote.record (Event.refspec_parse "HEAD" true)
    if hd.1 < 0 then (none, remote)
    else
      let d := git_refspec__dwim_one env remote.active_refspecs hd.2 (remote.deref remote.refs)
      let remote :=
        { (remote.record (Event.refspec_dwim_one hd.2 remote.refs)) with
          active_refspecs := d.2 }
      if d.1 < 0 then (none, remote)
      else filter_wants_1_tail env remote
  else filter_wants_1_tail env remote

/-- Embedding of `git_get_last` (fetch.c:214-225). The second component is the
value stored through `out`, `none` when nothing is stored. -/
def git_get_last (env : Env) (remote : git_remote) :
    Int × Option (Option Buffer) × git_remote :=
  let remote := remote.record Event.remote_connected
  if !remote.connected then
    let rc := env.git_remote_connect
    let remote := { (remote.record Event.remote_connect) with connected := decide (0 ≤ rc) }
    if rc < 0 then (-1, none, remote)
    else
      let r := filter_wants_1 env remote
      (0, some r.1, r.2)
  else
    let r := filter_wants_1 env remote
    (0, some r.1, r.2)


/-! ## Specification-level vocabulary -/

/-- Effective autotag policy, as the specification words it: the override when
one is supplied and is not `Unspecified`, the default of the remote otherwise. -/
def effective_autotag (d : git_remote_autotag_option_t) (opts : Option git_fetch_options) :
    git_remote_autotag_option_t :=
  match opts with
  | none => d
  | some o =>
    match o.download_tags with
    | GIT_REMOTE_DOWNLOAD_TAGS_UNSPECIFIED => d
    | GIT_REMOTE_DOWNLOAD_TAGS_AUTO => GIT_REMOTE_DOWNLOAD_TAGS_AUTO
    | GIT_REMOTE_DOWNLOAD_TAGS_NONE => GIT_REMOTE_DOWNLOAD_TAGS_NONE
    | GIT_REMOTE_DOWNLOAD_TAGS_ALL => GIT_REMOTE_DOWNLOAD_TAGS_ALL

/-- A name matches, as the specification words it: the policy is `All` and the
name matches the tags pattern, or the name matches some refspec of `R`. -/
def head_matches (env : Env) (tagspec : git_refspec) (policy : git_remote_autotag_option_t)
    (R : List git_refspec) (name : String) : Bool :=
  (decide (policy = GIT_REMOTE_DOWNLOAD_TAGS_ALL) && env.git_refspec_src_matches tagspec name)
    || R.any (fun spec => env.git_refspec_src_matches spec name)

/-- A head is wanted: its name is valid and it matches. -/
def wanted (env : Env) (tagspec : git_refspec) (policy : git_remote_autotag_option_t)
    (R : List git_refspec) (h : git_remote_head) : Bool :=
  env.git_reference_is_valid_name h.name && head_matches env tagspec policy R h.name

/-- The head behind a pointer is wanted. -/
def wanted_ptr (env : Env) (tagspec : git_refspec) (policy : git_remote_autotag_option_t)
    (R : List git_refspec) (heads : List git_remote_head) (p : Nat) : Bool :=
  match heads[p]? with
  | some h => wanted env tagspec policy R h
  | none => false

/-- The object of the head behind a pointer is absent from the store. -/
def absent_ptr (odb : git_odb) (heads : List git_remote_head) (p : Nat) : Bool :=
  match heads[p]? with
  | some h => !odb h.oid
  | none => false

/-- Name and object id of a head: what identifies an advertisement. -/
def head_key (h : git_remote_head) : String × git_oid := (h.name, h.oid)

/-- The event is a call to the negotiate or download operation of the
transport. -/
def is_exchange : Event → Bool
  | Event.negotiate_fetch _ _ => true
  | Event.download_pack _ _ _ _ => true
  | _ => false

/-- Calls made to the negotiate and download operations of the transport. -/
def exchange_calls (remote : git_remote) : List Event := remote.trace.filter is_exchange

/-- What the want-set build leaves alone: the repository handle, the stored
policy, the statistics, the connection, the name and object id of every
advertised head, and the exchange calls made so far. -/
def same_frame (a b : git_remote) : Prop :=
  a.repo = b.repo ∧ a.download_tags = b.download_tags ∧ a.stats = b.stats ∧
    a.connected = b.connected ∧ a.heads.map head_key = b.heads.map head_key ∧
    exchange_calls a = exchange_calls b



/-- The object store and the advertisement listing are both obtained. -/
def listing_ok (env : Env) (repo : Nat) : Bool :=
  decide (0 ≤ (env.git_repository_odb__weakptr repo).1) && decide (0 ≤ env.git_remote_ls)

/-- The pointers of the wanted heads of an advertisement list, in its order. -/
def want_ptrs (env : Env) (tagspec : git_refspec) (policy : git_remote_autotag_option_t)
    (R : List git_refspec) (heads : List git_remote_head) : List Nat :=
  (List.range heads.length).filter (wanted_ptr env tagspec policy R heads)

/-- What a successful build has done to the want list and to `need_pack`,
relative to the state `st` it started from. -/
def build_post (env : Env) (st : git_remote) (opts : Option git_fetch_options)
    (res : Int × git_remote) : Prop :=
  res.2.refs
      = (if listing_ok env st.repo then
          want_ptrs env (env.git_refspec__parse GIT_REFSPEC_TAGS true).2
            (effective_autotag st.download_tags opts) res.2.active_refspecs st.heads
        else []) ∧
    res.2.need_pack
      = (if listing_ok env st.repo
            && (want_ptrs env (env.git_refspec__parse GIT_REFSPEC_TAGS true).2
                (effective_autotag st.download_tags opts) res.2.active_refspecs st.heads).any
                (absent_ptr (env.git_repository_odb__weakptr st.repo).2 st.heads)
          then 1 else st.need_pack)

/-- An object id made of twenty copies of one byte. -/
def oid_of (b : Fin 256) : git_oid :=
  { id := List.replicate 20 b, size_eq := by simp [GIT_OID_RAWSZ] }

/-- A fetch refspec for one branch. -/
def demo_refspec : git_refspec :=
  { string := "refs/heads/main:refs/remotes/origin/main", src := "refs/heads/main",
    dst := "refs/remotes/origin/main", force := false }

/-- The tags refspec in parsed form. -/
def demo_tagspec : git_refspec :=
  { string := GIT_REFSPEC_TAGS, src := "refs/tags/*", dst := "refs/tags/*", force := false }

/-- Collaborators that all succeed: a name is valid when it is not empty, a
refspec matches the names equal to its source or, when the source ends in a
star, the names that start with what comes before the star, the store holds the object ids
whose first byte is zero, and the transport answers 0. -/
def demo_env : Env :=
  { git_reference_is_valid_name := fun n => n.length != 0
    git_refspec_src_matches := fun spec name =>
      if spec.src.toList.getLast? = some '*' then
        spec.src.toList.dropLast.isPrefixOf name.toList
      else spec.src == name
    git_refspec__parse := fun _ _ => (0, demo_tagspec)
    dwim_code := fun _ _ => 0
    dwim_expand := fun spec _ => spec
    git_repository_odb__weakptr := fun _ => (0, fun oid => oid.id.head? == some 0)
    git_remote_ls := 0
    vector_insert_code := fun _ _ => 0
    git_remote_connect := 0
    negotiate_fetch := fun _ _ _ => 0
    download_pack := fun _ stats _ _ => (0, stats) }

/-- A connected remote with one active refspec that is advertised a branch
missing from the store, a tag and a reference with an empty name. -/
def demo_remote : git_remote :=
  { repo := 7
    download_tags := GIT_REMOTE_DOWNLOAD_TAGS_AUTO
    active_refspecs := [demo_refspec]
    refs := [2, 2]
    need_pack := 5
    stats := { received_objects := 0, received_bytes := 0 }
    heads :=
      [{ «local» := 0, oid := oid_of 1, name := "refs/heads/main" },
       { «local» := 0, oid := oid_of 0, name := "refs/tags/v1" },
       { «local» := 0, oid := oid_of 2, name := "" }]
    connected := true
    trace := [] }

/-- State after the want list is cleared and the tags refspec parsed
(fetch.c:127-128). -/
def after_tags (st : git_remote) : git_remote :=
  ({ st with refs := [] } : git_remote).record (Event.refspec_parse GIT_REFSPEC_TAGS true)

/-- State after the default refspec is parsed (fetch.c:139). -/
def after_head (st : git_remote) : git_remote :=
  (after_tags st).record (Event.refspec_parse "HEAD" true)

/-- State after the default refspec is expanded into the empty active-refspec
collection (fetch.c:142): the expansion runs against the want list, which has
just been cleared. -/
def after_dwim (env : Env) (st : git_remote) : git_remote :=
  { (after_head st).record (Event.refspec_dwim_one (env.git_refspec__parse "HEAD" true).2 []) with
    active_refspecs :=
      (git_refspec__dwim_one env [] (env.git_refspec__parse "HEAD" true).2 []).2 }

/-- The set-up steps of `filter_wants` (fetch.c:128-147) fail: the tags
refspec does not parse, or the active-refspec collection is empty and the
default refspec does not parse or does not expand. -/
def setup_fails (env : Env) (st : git_remote) : Prop :=
  (env.git_refspec__parse GIT_REFSPEC_TAGS true).1 < 0 ∨
    (st.active_refspecs = [] ∧
      ((env.git_refspec__parse "HEAD" true).1 < 0 ∨
        env.dwim_code (env.git_refspec__parse "HEAD" true).2 [] < 0))

/-- The code of the first set-up step that fails. -/
def setup_error (env : Env) : Int :=
  if (env.git_refspec__parse GIT_REFSPEC_TAGS true).1 < 0 then
    (env.git_refspec__parse GIT_REFSPEC_TAGS true).1
  else if (env.git_refspec__parse "HEAD" true).1 < 0 then (env.git_refspec__parse "HEAD" true).1
  else env.dwim_code (env.git_refspec__parse "HEAD" true).2 []

/-- The calls made by the set-up steps up to the first that fails. -/
def setup_calls (env : Env) : List Event :=
  if (env.git_refspec__parse GIT_REFSPEC_TAGS true).1 < 0 then
    [Event.refspec_parse GIT_REFSPEC_TAGS true]
  else if (env.git_refspec__parse "HEAD" true).1 < 0 then
    [Event.refspec_parse GIT_REFSPEC_TAGS true, Event.refspec_parse "HEAD" true]
  else
    [Event.refspec_parse GIT_REFSPEC_TAGS true, Event.refspec_parse "HEAD" true,
      Event.refspec_dwim_one (env.git_refspec__parse "HEAD" true).2 []]

/-- Collaborators under which the tags refspec does not parse. -/
def parse_down_env : Env :=
  { demo_env with git_refspec__parse := fun _ _ => (-1, demo_tagspec) }

/-- Two states agree on what decides the want list: the want list so far,
the active refspecs, the repository handle, and the name and object id of
every advertised head. -/
def agree (a b : git_remote) : Prop :=
  a.refs = b.refs ∧ a.active_refspecs = b.active_refspecs ∧ a.repo = b.repo ∧
    a.heads.map head_key = b.heads.map head_key

/-- The state with another stored autotag policy. -/
def with_tags (d : git_remote_autotag_option_t) (remote : git_remote) : git_remote :=
  { remote with download_tags := d }

/-- Collaborators under which the object database cannot be obtained. -/
def odb_down_env : Env :=
  { demo_env with git_repository_odb__weakptr := fun _ => (-1, fun _ => false) }

/-- Collaborators under which the advertisement listing fails. -/
def ls_down_env : Env :=
  { demo_env with git_remote_ls := -1 }

/-- A connected remote with one active refspecs to which nothing is
advertised. -/
def empty_remote : git_remote :=
  { demo_remote with heads := [] }

/-- The string `filter_wants_1` builds for a non-empty listing: the
hexadecimal form of the first object id, then a `;` and the hexadecimal form
for each of the others. -/
def quick_list (first : git_remote_head) (others : List git_remote_head) : List Char :=
  git_oid_tostr (GIT_OID_HEXSZ + 1) first.oid ++
    (others.map (fun h => ';' :: git_oid_tostr (GIT_OID_HEXSZ + 1) h.oid)).flatten

/-- The head as `maybe_want` leaves it: marked local when it is wanted and its
object is in the store, as it was otherwise. -/
def marked (env : Env) (tagspec : git_refspec) (policy : git_remote_autotag_option_t)
    (R : List git_refspec) (odb : git_odb) (h : git_remote_head) : git_remote_head :=
  if wanted env tagspec policy R h && odb h.oid then { h with «local» := 1 } else h

/-- The event is a call made while one advertised head is looked at. -/
def is_head_call : Event → Bool
  | Event.reference_is_valid_name _ => true
  | Event.refspec_src_matches _ _ => true
  | Event.odb_exists _ => true
  | Event.vector_insert _ => true
  | _ => false

/-- The event is an expansion of a refspec. -/
def is_dwim : Event → Bool
  | Event.refspec_dwim_one _ _ => true
  | _ => false

/-- The event is a query to the matcher or to the object store. -/
def is_consult : Event → Bool
  | Event.refspec_src_matches _ _ => true
  | Event.odb_exists _ => true
  | _ => false

/-- A connected remote that is advertised one branch, matched by its active
refspec, whose object is in the store. -/
def present_remote : git_remote :=
  { demo_remote with
    heads := [{ «local» := 0, oid := oid_of 0, name := "refs/heads/main" }] }

/-- A connected remote that is advertised one branch, matched by its active
refspec, whose object is missing from the store and which already carries a
local mark. -/
def stale_remote : git_remote :=
  { demo_remote with
    heads := [{ «local» := 1, oid := oid_of 1, name := "refs/heads/main" }] }

/-- Collaborators under which the want list holds one element at most: an
insertion into a vector that is not empty fails. -/
def tight_env : Env :=
  { demo_env with vector_insert_code := fun v _ => if v.length = 0 then 0 else -1 }

/-- A connected remote that is advertised a tag, whose object is in the store,
then the branch its active refspec matches. -/
def tag_first_remote : git_remote :=
  { demo_remote with
    heads :=
      [{ «local» := 0, oid := oid_of 0, name := "refs/tags/v1" },
       { «local» := 0, oid := oid_of 1, name := "refs/heads/main" }] }

/-- Options that ask for every tag. -/
def all_tags : Option git_fetch_options :=
  some { download_tags := GIT_REMOTE_DOWNLOAD_TAGS_ALL }

/-- Collaborators whose parser gives the default refspec the source it is
written with, and whose expansion replaces a short source by the name of the
advertised branch it abbreviates, when there is one in the vector it is
given. -/
def head_env : Env :=
  { demo_env with
    git_refspec__parse := fun str _ =>
      if str = GIT_REFSPEC_TAGS then (0, demo_tagspec)
      else (0, { string := str, src := str, dst := "", force := false })
    dwim_expand := fun spec refs =>
      if refs.any (fun h => h.name == "refs/heads/" ++ spec.src) then
        { spec with src := "refs/heads/" ++ spec.src }
      else spec }

/-- A connected remote without active refspecs that is advertised a branch
named `HEAD`. -/
def head_remote : git_remote :=
  { demo_remote with
    active_refspecs := []
    heads := [{ «local» := 0, oid := oid_of 1, name := "refs/heads/HEAD" }] }

/-- No connection is open and connecting fails. -/
def connect_fails (env : Env) (st : git_remote) : Prop :=
  st.connected = false ∧ env.git_remote_connect < 0

/-- The quick list cannot be built: the active-refspec collection is empty and
the default refspec does not parse or does not expand, or the advertisement
listing fails. -/
def quick_list_fails (env : Env) (st : git_remote) : Prop :=
  (st.active_refspecs = [] ∧
      ((env.git_refspec__parse "HEAD" true).1 < 0 ∨
        env.dwim_code (env.git_refspec__parse "HEAD" true).2 [] < 0)) ∨
    env.git_remote_ls < 0

/-- The event is a listing of the advertised references. -/
def is_ls : Event → Bool
  | Event.remote_ls => true
  | _ => false

/-- Collaborators under which connecting fails. -/
def connect_down_env : Env :=
  { demo_env with git_remote_connect := -1 }

/-- The remote of the examples before any connection is open. -/
def offline_remote : git_remote :=
  { demo_remote with connected := false }

/-- The pointer, in the advertisement buffer that holds one more head at
position `k`, of the head that has pointer `q` in the buffer without it. -/
def shift (k q : Nat) : Nat := if q < k then q else q + 1

/-- The collaborators as they answer about the advertisement buffer from
which the head at position `k` has been taken out. A pointer is a position in
the buffer, so the heads after position `k` are renumbered: the insertion is
asked about the same heads through `shift`. -/
def Env.without (env : Env) (k : Nat) : Env :=
  { env with
    vector_insert_code := fun v q => env.vector_insert_code (v.map (shift k)) (shift k q) }

/-- The state `b` on the buffer without the head at position `k` stands for
the state `a` on the buffer with it: same want list and same heads up to the
renumbering, same active refspecs, `need_pack` and repository, same queries
made to the matcher and to the store. -/
def sim (k : Nat) (b a : git_remote) : Prop :=
  a.refs = b.refs.map (shift k) ∧ a.active_refspecs = b.active_refspecs ∧
    a.need_pack = b.need_pack ∧ a.repo = b.repo ∧
    (∀ q : Nat, b.heads[q]? = a.heads[shift k q]?) ∧
    a.trace.filter is_consult = b.trace.filter is_consult

/-- The queries `maybe_want` makes to the matcher and to the store for one
head. -/
def consults (env : Env) (tagspec : git_refspec) (tagopt : git_remote_autotag_option_t)
    (R : List git_refspec) : Option git_remote_head → List Event
  | none => []
  | some h =>
    if !env.git_reference_is_valid_name h.name then []
    else if !(maybe_want_match env R h.name tagspec tagopt).1 then
      (maybe_want_match env R h.name tagspec tagopt).2
    else (maybe_want_match env R h.name tagspec tagopt).2 ++ [Event.odb_exists h.oid]

/-- The collaborators answer 0 when they succeed, as those of the library
do. -/
def zero_on_success (env : Env) : Prop :=
  (∀ (str : String) (b : Bool), (env.git_refspec__parse str b).1 ≤ 0) ∧
    (∀ (spec : git_refspec) (refs : List git_remote_head), env.dwim_code spec refs ≤ 0) ∧
    (∀ (v : List Nat) (p : Nat), env.vector_insert_code v p ≤ 0)

/-- What a build, successful or not, has done, in terms of the pointers `done`
it has looked at, a prefix of the listing: the heads behind them are marked,
`need_pack` is set when a wanted one among them is absent from the store, and
the wanted ones among them are the want list, but for the last one when its
insertion failed. No head is looked at when the store or the listing is not
obtained. -/
def build_trail (env : Env) (st : git_remote) (opts : Option git_fetch_options)
    (res : Int × git_remote) (done : List Nat) : Prop :=
  done <+: List.range st.heads.length ∧
    (∀ q : Nat, res.2.heads[q]?
      = (st.heads[q]?).map (fun h =>
          if q ∈ done then
            marked env (env.git_refspec__parse GIT_REFSPEC_TAGS true).2
              (effective_autotag st.download_tags opts) res.2.active_refspecs
              (env.git_repository_odb__weakptr st.repo).2 h
          else h)) ∧
    res.2.need_pack
      = (if (done.filter (wanted_ptr env (env.git_refspec__parse GIT_REFSPEC_TAGS true).2
              (effective_autotag st.download_tags opts) res.2.active_refspecs st.heads)).any
            (absent_ptr (env.git_repository_odb__weakptr st.repo).2 st.heads)
          then 1 else st.need_pack) ∧
    (done.filter (wanted_ptr env (env.git_refspec__parse GIT_REFSPEC_TAGS true).2
          (effective_autotag st.download_tags opts) res.2.active_refspecs st.heads) = res.2.refs ∨
      ∃ q, done.filter (wanted_ptr env (env.git_refspec__parse GIT_REFSPEC_TAGS true).2
          (effective_autotag st.download_tags opts) res.2.active_refspecs st.heads)
        = res.2.refs ++ [q]) ∧
    (res.1 < 0 → ¬ setup_fails env st →
      ∃ q, done.filter (wanted_ptr env (env.git_refspec__parse GIT_REFSPEC_TAGS true).2
          (effective_autotag st.download_tags opts) res.2.active_refspecs st.heads)
        = res.2.refs ++ [q]) ∧
    (listing_ok env st.repo = false → done = [])

theorem same_frame_refl (a : git_remote) : same_frame a a :=
  ⟨rfl, rfl, rfl, rfl, rfl, rfl⟩

theorem same_frame_trans {a b c : git_remote} (h1 : same_frame a b) (h2 : same_frame b c) :
    same_frame a c := by
  obtain ⟨a1, a2, a3, a4, a5, a6⟩ := h1
  obtain ⟨b1, b2, b3, b4, b5, b6⟩ := h2
  exact ⟨a1.trans b1, a2.trans b2, a3.trans b3, a4.trans b4, a5.trans b5, a6.trans b6⟩

theorem getElem?_key_of_map_eq {hs1 hs2 : List git_remote_head}
    (h : hs1.map head_key = hs2.map head_key) (p : Nat) :
    (hs1[p]?).map head_key = (hs2[p]?).map head_key := by
  have := congrArg (fun l => l[p]?) h
  simpa [List.getElem?_map] using this

theorem wanted_ptr_congr (env : Env) (tagspec : git_refspec)
    (policy : git_remote_autotag_option_t) (R : List git_refspec)
    {hs1 hs2 : List git_remote_head} (h : hs1.map head_key = hs2.map head_key) (p : Nat) :
    wanted_ptr env tagspec policy R hs1 p = wanted_ptr env tagspec policy R hs2 p := by
  have hk := getElem?_key_of_map_eq h p
  unfold wanted_ptr
  cases h1 : hs1[p]? <;> cases h2 : hs2[p]? <;> simp [h1, h2, head_key] at hk ⊢
  simp [wanted, hk.1]

theorem absent_ptr_congr (odb : git_odb) {hs1 hs2 : List git_remote_head}
    (h : hs1.map head_key = hs2.map head_key) (p : Nat) :
    absent_ptr odb hs1 p = absent_ptr odb hs2 p := by
  have hk := getElem?_key_of_map_eq h p
  unfold absent_ptr
  cases h1 : hs1[p]? <;> cases h2 : hs2[p]? <;> simp [h1, h2, head_key] at hk ⊢
  simp [hk.2]

theorem matching_isSome (env : Env) (name : String) (R : List git_refspec) :
    (git_remote__matching_refspec env name R).1.isSome
      = R.any (fun spec => env.git_refspec_src_matches spec name) := by
  induction R with
  | nil => rfl
  | cons spec rest ih =>
    by_cases hm : env.git_refspec_src_matches spec name = true
    · simp [git_remote__matching_refspec, hm]
    · simp [git_remote__matching_refspec, hm, ih]

theorem matching_no_exchange (env : Env) (name : String) (R : List git_refspec) :
    (git_remote__matching_refspec env name R).2.filter is_exchange = [] := by
  induction R with
  | nil => rfl
  | cons spec rest ih =>
    by_cases hm : env.git_refspec_src_matches spec name = true
    · simp [git_remote__matching_refspec, hm, is_exchange]
    · simp [git_remote__matching_refspec, hm, is_exchange, ih]

/-- The flag computed by `maybe_want` is the match of the specification. -/
theorem maybe_want_match_eq (env : Env) (R : List git_refspec) (name : String)
    (tagspec : git_refspec) (tagopt : git_remote_autotag_option_t) :
    (maybe_want_match env R name tagspec tagopt).1 = head_matches env tagspec tagopt R name := by
  unfold maybe_want_match head_matches
  by_cases ht : tagopt = GIT_REMOTE_DOWNLOAD_TAGS_ALL
  · by_cases hm : env.git_refspec_src_matches tagspec name = true
    · simp [ht, hm]
    · simp [ht, hm, matching_isSome]
  · simp [ht, matching_isSome]

theorem maybe_want_match_no_exchange (env : Env) (R : List git_refspec) (name : String)
    (tagspec : git_refspec) (tagopt : git_remote_autotag_option_t) :
    (maybe_want_match env R name tagspec tagopt).2.filter is_exchange = [] := by
  unfold maybe_want_match
  by_cases ht : tagopt = GIT_REMOTE_DOWNLOAD_TAGS_ALL
  · by_cases hm : env.git_refspec_src_matches tagspec name = true
    · simp [ht, hm, is_exchange]
    · simp [ht, hm, is_exchange, matching_no_exchange]
  · simp [ht, is_exchange, matching_no_exchange]

theorem map_key_set_local (hs : List git_remote_head) (p : Nat) (h : git_remote_head)
    (hg : hs[p]? = some h) (v : Int) :
    (hs.set p { h with «local» := v }).map head_key = hs.map head_key := by
  apply List.ext_getElem?
  intro n
  by_cases hn : p = n
  · subst hn
    have hlt : p < hs.length := by
      rcases Nat.lt_or_ge p hs.length with h1 | h1
      · exact h1
      · rw [List.getElem?_eq_none h1] at hg
        cases hg
    have he : hs[p] = h := by
      rw [List.getElem?_eq_getElem hlt] at hg
      exact Option.some.inj hg
    simp [List.getElem?_map, List.getElem?_set, hg, head_key, hlt, he]
  · simp [List.getElem?_map, List.getElem?_set, hn]

/-- A head that is not wanted is skipped: result 0, nothing but the trace
changes. -/
theorem maybe_want_skip (env : Env) (remote : git_remote) (p : Nat) (odb : git_odb)
    (tagspec : git_refspec) (tagopt : git_remote_autotag_option_t)
    (hw : wanted_ptr env tagspec tagopt remote.active_refspecs remote.heads p = false) :
    (maybe_want env remote p odb tagspec tagopt).1 = 0 ∧
    (maybe_want env remote p odb tagspec tagopt).2.refs = remote.refs ∧
    (maybe_want env remote p odb tagspec tagopt).2.need_pack = remote.need_pack ∧
    (maybe_want env remote p odb tagspec tagopt).2.heads = remote.heads ∧
    (maybe_want env remote p odb tagspec tagopt).2.active_refspecs = remote.active_refspecs ∧
    same_frame (maybe_want env remote p odb tagspec tagopt).2 remote := by
  unfold maybe_want
  cases hg : remote.heads[p]? with
  | none => simp [same_frame_refl]
  | some h =>
    simp only [wanted_ptr, hg, wanted, ← maybe_want_match_eq] at hw
    by_cases hv : env.git_reference_is_valid_name h.name = true
    · simp only [hv, Bool.true_and] at hw
      simp [hv, hw, same_frame, exchange_calls, is_exchange, maybe_want_match_no_exchange]
    · simp [hv, git_remote.record, same_frame, exchange_calls, is_exchange]

/-- A wanted head is marked or counted as missing, then inserted. -/
theorem maybe_want_take (env : Env) (remote : git_remote) (p : Nat) (odb : git_odb)
    (tagspec : git_refspec) (tagopt : git_remote_autotag_option_t)
    (hw : wanted_ptr env tagspec tagopt remote.active_refspecs remote.heads p = true) :
    (maybe_want env remote p odb tagspec tagopt).1 = env.vector_insert_code remote.refs p ∧
    (maybe_want env remote p odb tagspec tagopt).2.refs
      = (if env.vector_insert_code remote.refs p < 0 then remote.refs else remote.refs ++ [p]) ∧
    (maybe_want env remote p odb tagspec tagopt).2.need_pack
      = (if absent_ptr odb remote.heads p then 1 else remote.need_pack) ∧
    (maybe_want env remote p odb tagspec tagopt).2.active_refspecs = remote.active_refspecs ∧
    same_frame (maybe_want env remote p odb tagspec tagopt).2 remote := by
  unfold maybe_want
  cases hg : remote.heads[p]? with
  | none => simp [wanted_ptr, hg] at hw
  | some h =>
    simp only [wanted_ptr, hg, wanted, ← maybe_want_match_eq, Bool.and_eq_true] at hw
    by_cases ho : odb h.oid = true
    · by_cases hc : env.vector_insert_code remote.refs p < 0
      · simp [hw.1, hw.2, git_vector_insert, hc, absent_ptr, hg, ho, same_frame, exchange_calls,
          is_exchange, maybe_want_match_no_exchange, map_key_set_local _ _ _ hg]
      · simp [hw.1, hw.2, git_vector_insert, hc, absent_ptr, hg, ho, same_frame, exchange_calls,
          is_exchange, maybe_want_match_no_exchange, map_key_set_local _ _ _ hg]
    · by_cases hc : env.vector_insert_code remote.refs p < 0
      · simp [hw.1, hw.2, git_vector_insert, hc, absent_ptr, hg, ho, same_frame, exchange_calls,
          is_exchange, maybe_want_match_no_exchange]
      · simp [hw.1, hw.2, git_vector_insert, hc, absent_ptr, hg, ho, same_frame, exchange_calls,
          is_exchange, maybe_want_match_no_exchange]


/-- One step of the loop, for a wanted or an unwanted head alike. -/
theorem maybe_want_step (env : Env) (remote : git_remote) (p : Nat) (odb : git_odb)
    (tagspec : git_refspec) (tagopt : git_remote_autotag_option_t) :
    (maybe_want env remote p odb tagspec tagopt).2.active_refspecs = remote.active_refspecs ∧
    same_frame (maybe_want env remote p odb tagspec tagopt).2 remote ∧
    (0 ≤ (maybe_want env remote p odb tagspec tagopt).1 →
      (maybe_want env remote p odb tagspec tagopt).2.refs
        = remote.refs ++
          [p].filter (wanted_ptr env tagspec tagopt remote.active_refspecs remote.heads) ∧
      (maybe_want env remote p odb tagspec tagopt).2.need_pack
        = (if ([p].filter (wanted_ptr env tagspec tagopt remote.active_refspecs
              remote.heads)).any (absent_ptr odb remote.heads) then 1 else remote.need_pack)) := by
  cases hw : wanted_ptr env tagspec tagopt remote.active_refspecs remote.heads p with
  | false =>
    obtain ⟨_, h2, h3, _, h5, h6⟩ := maybe_want_skip env remote p odb tagspec tagopt hw
    refine ⟨h5, h6, fun _ => ?_⟩
    simp [List.filter, hw, h2, h3]
  | true =>
    obtain ⟨h1, h2, h3, h4, h5⟩ := maybe_want_take env remote p odb tagspec tagopt hw
    refine ⟨h4, h5, fun h0 => ?_⟩
    rw [h1] at h0
    have hc : ¬ env.vector_insert_code remote.refs p < 0 := not_lt.mpr h0
    simp [List.filter, hw, h2, h3, hc]

/-- The loop leaves the frame and the active refspecs alone, whatever its
result. -/
theorem filter_wants_loop_frame (env : Env) (odb : git_odb) (tagspec : git_refspec)
    (tagopt : git_remote_autotag_option_t) (ps : List Nat) :
    ∀ (e : Int) (remote : git_remote),
      (filter_wants_loop env odb tagspec tagopt ps e remote).2.active_refspecs
          = remote.active_refspecs ∧
        same_frame (filter_wants_loop env odb tagspec tagopt ps e remote).2 remote := by
  induction ps with
  | nil => intro e remote; exact ⟨rfl, same_frame_refl _⟩
  | cons p rest ih =>
    intro e remote
    obtain ⟨h1, h2, _⟩ := maybe_want_step env remote p odb tagspec tagopt
    unfold filter_wants_loop
    by_cases hc : (maybe_want env remote p odb tagspec tagopt).1 < 0
    · simp only [hc, if_true]
      exact ⟨h1, h2⟩
    · simp only [hc, if_false]
      obtain ⟨i1, i2⟩ := ih (maybe_want env remote p odb tagspec tagopt).1
        (maybe_want env remote p odb tagspec tagopt).2
      exact ⟨i1.trans h1, same_frame_trans i2 h2⟩

/-- A loop that ends with a non-negative result has appended exactly the
wanted pointers, in order, and has set `need_pack` when one of them is absent
from the store. -/
theorem filter_wants_loop_ok (env : Env) (odb : git_odb) (tagspec : git_refspec)
    (tagopt : git_remote_autotag_option_t) (ps : List Nat) :
    ∀ (e : Int) (remote : git_remote),
      0 ≤ (filter_wants_loop env odb tagspec tagopt ps e remote).1 →
      (filter_wants_loop env odb tagspec tagopt ps e remote).2.refs
        = remote.refs ++
          ps.filter (wanted_ptr env tagspec tagopt remote.active_refspecs remote.heads) ∧
      (filter_wants_loop env odb tagspec tagopt ps e remote).2.need_pack
        = (if (ps.filter (wanted_ptr env tagspec tagopt remote.active_refspecs
              remote.heads)).any (absent_ptr odb remote.heads) then 1 else remote.need_pack) := by
  induction ps with
  | nil => intro e remote _; simp [filter_wants_loop]
  | cons p rest ih =>
    intro e remote h0
    obtain ⟨h1, h2, h3⟩ := maybe_want_step env remote p odb tagspec tagopt
    unfold filter_wants_loop at h0 ⊢
    by_cases hc : (maybe_want env remote p odb tagspec tagopt).1 < 0
    · simp only [hc, if_true] at h0
      exact absurd h0 (not_le.mpr hc)
    · simp only [hc, if_false] at h0 ⊢
      obtain ⟨i1, i2⟩ := ih _ _ h0
      obtain ⟨s1, s2⟩ := h3 (not_lt.mp hc)
      have hk := h2.2.2.2.2.1
      have hwp : wanted_ptr env tagspec tagopt
          (maybe_want env remote p odb tagspec tagopt).2.active_refspecs
          (maybe_want env remote p odb tagspec tagopt).2.heads
            = wanted_ptr env tagspec tagopt remote.active_refspecs remote.heads := by
        funext q
        rw [h1]
        exact wanted_ptr_congr env tagspec tagopt _ hk q
      have hap : absent_ptr odb (maybe_want env remote p odb tagspec tagopt).2.heads
            = absent_ptr odb remote.heads := by
        funext q
        exact absent_ptr_congr odb hk q
      rw [hwp] at i1 i2
      rw [hap] at i2
      rw [i1, i2, s1, s2]
      constructor
      · simp [List.filter_cons]
        split <;> simp
      · simp only [List.filter_cons]
        cases hw : wanted_ptr env tagspec tagopt remote.active_refspecs remote.heads p
        · simp
        · simp only [List.filter_cons, hw, if_true, List.filter_nil, List.any_cons,
            List.any_nil, Bool.or_false]
          cases hab : absent_ptr odb remote.heads p <;> simp

/-- When no insertion can fail, the loop entered with a non-negative `error`
returns a non-negative result. -/
theorem filter_wants_loop_nonneg (env : Env) (odb : git_odb) (tagspec : git_refspec)
    (tagopt : git_remote_autotag_option_t)
    (hins : ∀ (v : List Nat) (p : Nat), 0 ≤ env.vector_insert_code v p) (ps : List Nat) :
    ∀ (e : Int) (remote : git_remote), 0 ≤ e →
      0 ≤ (filter_wants_loop env odb tagspec tagopt ps e remote).1 := by
  induction ps with
  | nil => intro e remote he; simpa [filter_wants_loop] using he
  | cons p rest ih =>
    intro e remote _
    have hm : 0 ≤ (maybe_want env remote p odb tagspec tagopt).1 := by
      cases hw : wanted_ptr env tagspec tagopt remote.active_refspecs remote.heads p with
      | false => rw [(maybe_want_skip env remote p odb tagspec tagopt hw).1]
      | true =>
        rw [(maybe_want_take env remote p odb tagspec tagopt hw).1]
        exact hins _ _
    unfold filter_wants_loop
    simp only [not_lt.mpr hm, if_false]
    exact ih _ _ hm


theorem record_frame (remote : git_remote) (e : Event) (he : is_exchange e = false) :
    same_frame (remote.record e) remote := by
  simp [same_frame, git_remote.record, exchange_calls, he]

/-- The tail of `filter_wants` leaves the frame and the active refspecs
alone. -/
theorem filter_wants_tail_frame (env : Env) (remote : git_remote) (error : Int)
    (tagspec : git_refspec) (tagopt : git_remote_autotag_option_t) :
    (filter_wants_tail env remote error tagspec tagopt).2.active_refspecs
        = remote.active_refspecs ∧
      same_frame (filter_wants_tail env remote error tagspec tagopt).2 remote := by
  unfold filter_wants_tail
  by_cases ho : (env.git_repository_odb__weakptr remote.repo).1 < 0
  · simp only [ho, if_true]
    exact ⟨rfl, record_frame _ _ rfl⟩
  · by_cases hl : env.git_remote_ls < 0
    · simp only [ho, hl, if_true, if_false]
      exact ⟨rfl, same_frame_trans (record_frame _ _ rfl) (record_frame _ _ rfl)⟩
    · simp only [ho, hl, if_false]
      obtain ⟨h1, h2⟩ := filter_wants_loop_frame env (env.git_repository_odb__weakptr
        remote.repo).2 tagspec tagopt
        (List.range ((remote.record (Event.repository_odb remote.repo)).record
          Event.remote_ls).heads.length) error
        ((remote.record (Event.repository_odb remote.repo)).record Event.remote_ls)
      exact ⟨h1, same_frame_trans h2
        (same_frame_trans (record_frame _ _ rfl) (record_frame _ _ rfl))⟩

/-- A tail that ends with a non-negative result has appended the wanted
pointers when the store and the listing were obtained, and nothing otherwise. -/
theorem filter_wants_tail_ok (env : Env) (remote : git_remote) (error : Int)
    (tagspec : git_refspec) (tagopt : git_remote_autotag_option_t)
    (h0 : 0 ≤ (filter_wants_tail env remote error tagspec tagopt).1) :
    (filter_wants_tail env remote error tagspec tagopt).2.refs
      = remote.refs ++
        (if listing_ok env remote.repo then
          want_ptrs env tagspec tagopt remote.active_refspecs remote.heads else []) ∧
    (filter_wants_tail env remote error tagspec tagopt).2.need_pack
      = (if listing_ok env remote.repo
            && (want_ptrs env tagspec tagopt remote.active_refspecs remote.heads).any
                (absent_ptr (env.git_repository_odb__weakptr remote.repo).2 remote.heads)
          then 1 else remote.need_pack) := by
  unfold filter_wants_tail at h0 ⊢
  by_cases ho : (env.git_repository_odb__weakptr remote.repo).1 < 0
  · have hno : listing_ok env remote.repo = false := by
      simp [listing_ok, ho]
    simp [ho, hno, git_remote.record]
  · by_cases hl : env.git_remote_ls < 0
    · have hno : listing_ok env remote.repo = false := by
        simp [listing_ok, hl]
      simp [ho, hl, hno, git_remote.record]
    · simp only [ho, hl, if_false] at h0 ⊢
      obtain ⟨h1, h2⟩ := filter_wants_loop_ok env _ tagspec tagopt _ _ _ h0
      rw [h1, h2]
      have hok : listing_ok env remote.repo = true := by
        simp [listing_ok, not_lt.mp ho, not_lt.mp hl]
      simp [hok, want_ptrs, git_remote.record]


/-- The policy computed at fetch.c:118-123 is the effective policy of the
specification. -/
theorem tagopt_eq_effective (d : git_remote_autotag_option_t) (opts : Option git_fetch_options) :
    (match opts with
      | some o =>
        if o.download_tags ≠ GIT_REMOTE_DOWNLOAD_TAGS_UNSPECIFIED then o.download_tags else d
      | none => d) = effective_autotag d opts := by
  cases opts with
  | none => rfl
  | some o =>
    obtain ⟨t⟩ := o
    cases t <;> simp [effective_autotag]

theorem filter_wants_tail_post (env : Env) (st r0 : git_remote)
    (opts : Option git_fetch_options) (error : Int)
    (hrepo : r0.repo = st.repo) (hheads : r0.heads = st.heads) (hrefs : r0.refs = [])
    (hneed : r0.need_pack = st.need_pack)
    (h0 : 0 ≤ (filter_wants_tail env r0 error (env.git_refspec__parse GIT_REFSPEC_TAGS true).2
      (effective_autotag st.download_tags opts)).1) :
    build_post env st opts
      (filter_wants_tail env r0 error (env.git_refspec__parse GIT_REFSPEC_TAGS true).2
        (effective_autotag st.download_tags opts)) := by
  obtain ⟨h1, h2⟩ := filter_wants_tail_ok env r0 error _ _ h0
  obtain ⟨h3, _⟩ := filter_wants_tail_frame env r0 error
    (env.git_refspec__parse GIT_REFSPEC_TAGS true).2 (effective_autotag st.download_tags opts)
  unfold build_post
  rw [h1, h2, h3, hrepo, hheads, hrefs, hneed]
  simp

/-- The build leaves the frame alone, and the active refspecs too when there
were some on entry. -/
theorem filter_wants_frame (env : Env) (st : git_remote) (opts : Option git_fetch_options) :
    same_frame (filter_wants env st opts).2 st ∧
      (st.active_refspecs ≠ [] →
        (filter_wants env st opts).2.active_refspecs = st.active_refspecs) := by
  unfold filter_wants
  simp only [tagopt_eq_effective]
  have hclear : same_frame ({ st with refs := [] } : git_remote) st :=
    ⟨rfl, rfl, rfl, rfl, rfl, rfl⟩
  have hrec := same_frame_trans
    (record_frame ({ st with refs := [] } : git_remote)
      (Event.refspec_parse GIT_REFSPEC_TAGS true) rfl) hclear
  by_cases ht : (env.git_refspec__parse GIT_REFSPEC_TAGS true).1 < 0
  · simp only [ht, if_true]
    exact ⟨hrec, fun _ => rfl⟩
  · simp only [ht, if_false]
    by_cases hlen : st.active_refspecs = []
    · simp only [git_remote.record, hlen, List.length_nil, if_true]
      by_cases hh : (env.git_refspec__parse "HEAD" true).1 < 0
      · simp only [hh, if_true]
        exact ⟨by simp [same_frame, exchange_calls, is_exchange], fun h => absurd rfl h⟩
      · simp only [hh, if_false]
        split
        · exact ⟨by simp [same_frame, exchange_calls, is_exchange], fun h => absurd rfl h⟩
        · refine ⟨same_frame_trans (filter_wants_tail_frame env _ _ _ _).2 ?_,
            fun h => absurd rfl h⟩
          simp [same_frame, exchange_calls, is_exchange]
    · have hlen2 : ¬ (st.active_refspecs.length = 0) := by
        simpa [List.length_eq_zero] using hlen
      simp only [git_remote.record, hlen2, if_false]
      obtain ⟨h1, h2⟩ := filter_wants_tail_frame env
        ({ st with refs := [], trace := st.trace ++ [Event.refspec_parse GIT_REFSPEC_TAGS true] })
        (env.git_refspec__parse GIT_REFSPEC_TAGS true).1
        (env.git_refspec__parse GIT_REFSPEC_TAGS true).2
        (effective_autotag st.download_tags opts)
      exact ⟨same_frame_trans h2 hrec, fun _ => h1⟩

/-- A build that ends with a non-negative result leaves the want list and
`need_pack` described by `build_post`. -/
theorem filter_wants_ok (env : Env) (st : git_remote) (opts : Option git_fetch_options)
    (h0 : 0 ≤ (filter_wants env st opts).1) :
    build_post env st opts (filter_wants env st opts) := by
  unfold filter_wants at h0 ⊢
  simp only [tagopt_eq_effective] at h0 ⊢
  by_cases ht : (env.git_refspec__parse GIT_REFSPEC_TAGS true).1 < 0
  · simp only [ht, if_true] at h0
    exact absurd h0 (not_le.mpr ht)
  · simp only [ht, if_false] at h0 ⊢
    by_cases hlen : st.active_refspecs.length = 0
    · simp only [git_remote.record, hlen, if_true] at h0 ⊢
      by_cases hh : (env.git_refspec__parse "HEAD" true).1 < 0
      · simp only [hh, if_true] at h0
        exact absurd h0 (not_le.mpr hh)
      · simp only [hh, if_false] at h0 ⊢
        split at h0
        · rename_i hd
          exact absurd h0 (not_le.mpr hd)
        · rename_i hd
          simp only [hd, if_false]
          exact filter_wants_tail_post env st _ opts _ rfl rfl rfl rfl h0
    · simp only [git_remote.record, hlen, if_false] at h0 ⊢
      exact filter_wants_tail_post env st _ opts _ rfl rfl rfl rfl h0


theorem filter_wants_tail_nonneg (env : Env) (remote : git_remote) (error : Int)
    (tagspec : git_refspec) (tagopt : git_remote_autotag_option_t)
    (hins : ∀ (v : List Nat) (p : Nat), 0 ≤ env.vector_insert_code v p) (he : 0 ≤ error) :
    0 ≤ (filter_wants_tail env remote error tagspec tagopt).1 := by
  unfold filter_wants_tail
  by_cases ho : (env.git_repository_odb__weakptr remote.repo).1 < 0
  · simpa [ho] using he
  · by_cases hl : env.git_remote_ls < 0
    · simpa [ho, hl] using he
    · simp only [ho, hl, if_false]
      exact filter_wants_loop_nonneg env _ tagspec tagopt hins _ _ _ he

/-- With active refspecs on entry, a tags refspec that parses and insertions
that cannot fail, the build ends with a non-negative result. -/
theorem filter_wants_nonneg (env : Env) (st : git_remote) (opts : Option git_fetch_options)
    (hR : st.active_refspecs ≠ [])
    (hparse : 0 ≤ (env.git_refspec__parse GIT_REFSPEC_TAGS true).1)
    (hins : ∀ (v : List Nat) (p : Nat), 0 ≤ env.vector_insert_code v p) :
    0 ≤ (filter_wants env st opts).1 := by
  unfold filter_wants
  have hlen : ¬ (st.active_refspecs.length = 0) := by
    simpa [List.length_eq_zero] using hR
  simp only [not_lt.mpr hparse, git_remote.record, hlen, if_false]
  exact filter_wants_tail_nonneg env _ _ _ _ hins hparse

/-- Reading a list through the indices of its positions, in order, visits
each element once. -/
theorem filterMap_range_getElem? {α β : Type} (g : α → Option β) (l : List α) :
    (List.range l.length).filterMap (fun p => (l[p]?).bind g) = l.filterMap g := by
  induction l using List.reverseRecOn with
  | nil => rfl
  | append_singleton l a ih =>
    rw [List.length_append, List.length_singleton, List.range_succ, List.filterMap_append,
      List.filterMap_append]
    congr 1
    · rw [← ih]
      apply List.filterMap_congr
      intro p hp
      rw [List.getElem?_append_left (List.mem_range.mp hp)]
    · have hlast : (l ++ [a])[l.length]? = some a := by
        rw [List.getElem?_append_right (le_refl _)]
        simp
      rw [List.filterMap_cons, List.filterMap_cons, hlast]
      rfl

theorem map_key_filter_wanted (env : Env) (tagspec : git_refspec)
    (policy : git_remote_autotag_option_t) (R : List git_refspec)
    (heads : List git_remote_head) :
    (heads.filter (wanted env tagspec policy R)).map head_key
      = heads.filterMap
          (fun h => if wanted env tagspec policy R h then some (head_key h) else none) := by
  induction heads with
  | nil => rfl
  | cons a t ih =>
    simp only [List.filter_cons, List.filterMap_cons]
    cases hw : wanted env tagspec policy R a <;> simp [ih]

/-- The heads behind the wanted pointers are the wanted heads, in order. -/
theorem deref_want_ptrs (env : Env) (tagspec : git_refspec)
    (policy : git_remote_autotag_option_t) (R : List git_refspec)
    (heads heads2 : List git_remote_head) (hk : heads2.map head_key = heads.map head_key) :
    ((want_ptrs env tagspec policy R heads).filterMap (fun p => heads2[p]?)).map head_key
      = (heads.filter (wanted env tagspec policy R)).map head_key := by
  rw [map_key_filter_wanted,
    ← filterMap_range_getElem?
      (fun h => if wanted env tagspec policy R h then some (head_key h) else none) heads,
    want_ptrs, List.map_filterMap, List.filterMap_filter]
  apply List.filterMap_congr
  intro p _
  have hp := getElem?_key_of_map_eq hk p
  cases h1 : heads[p]? with
  | none => simp [wanted_ptr, h1]
  | some h =>
    rw [h1] at hp
    cases hw : wanted env tagspec policy R h <;> simp [wanted_ptr, h1, hw, hp]

theorem absent_ptr_iff (odb : git_odb) (hs : List git_remote_head) (p : Nat) :
    absent_ptr odb hs p = true ↔ ∃ h, hs[p]? = some h ∧ odb h.oid = false := by
  cases hg : hs[p]? with
  | none => simp [absent_ptr, hg]
  | some h => simp [absent_ptr, hg]

theorem wanted_ptr_iff (env : Env) (tagspec : git_refspec)
    (policy : git_remote_autotag_option_t) (R : List git_refspec)
    (hs : List git_remote_head) (p : Nat) :
    wanted_ptr env tagspec policy R hs p = true
      ↔ ∃ h, hs[p]? = some h ∧ wanted env tagspec policy R h = true := by
  cases hg : hs[p]? with
  | none => simp [wanted_ptr, hg]
  | some h => simp [wanted_ptr, hg]

/-- The state `git_fetch_negotiate` leaves is the state the build leaves, up
to the trace. -/
theorem negotiate_state (env : Env) (st : git_remote) (opts : Option git_fetch_options) :
    (git_fetch_negotiate env st opts).2.refs
        = (filter_wants env { st with need_pack := 0 } opts).2.refs ∧
      (git_fetch_negotiate env st opts).2.need_pack
        = (filter_wants env { st with need_pack := 0 } opts).2.need_pack ∧
      (git_fetch_negotiate env st opts).2.heads
        = (filter_wants env { st with need_pack := 0 } opts).2.heads ∧
      (git_fetch_negotiate env st opts).2.active_refspecs
        = (filter_wants env { st with need_pack := 0 } opts).2.active_refspecs := by
  unfold git_fetch_negotiate
  simp only []
  split
  · exact ⟨rfl, rfl, rfl, rfl⟩
  · split
    · exact ⟨rfl, rfl, rfl, rfl⟩
    · exact ⟨rfl, rfl, rfl, rfl⟩

/-- C1. With a non-empty active-refspec collection, a tags refspec that
parses, an obtainable store, a listing that succeeds and insertions that
succeed, the want list left by `filter_wants`, as run by
`git_fetch_negotiate`, is the list of the pointers of the advertised heads
that have a valid name and match, in advertisement order; the heads behind
them are, by name and object id, the sub-list of the advertisement list made
of those heads. A head matches when the effective policy is `All` and its name
matches the tags pattern, or its name matches one of the active refspecs. -/
theorem want_list_is_filtered_advertisement (env : Env) (st : git_remote)
    (opts : Option git_fetch_options)
    (hR : st.active_refspecs ≠ [])
    (hparse : 0 ≤ (env.git_refspec__parse GIT_REFSPEC_TAGS true).1)
    (hodb : 0 ≤ (env.git_repository_odb__weakptr st.repo).1)
    (hls : 0 ≤ env.git_remote_ls)
    (hins : ∀ (v : List Nat) (p : Nat), 0 ≤ env.vector_insert_code v p) :
    (git_fetch_negotiate env st opts).2.refs
        = (List.range st.heads.length).filter
            (wanted_ptr env (env.git_refspec__parse GIT_REFSPEC_TAGS true).2
              (effective_autotag st.download_tags opts) st.active_refspecs st.heads) ∧
      ((git_fetch_negotiate env st opts).2.deref (git_fetch_negotiate env st opts).2.refs).map
          head_key
        = (st.heads.filter
            (wanted env (env.git_refspec__parse GIT_REFSPEC_TAGS true).2
              (effective_autotag st.download_tags opts) st.active_refspecs)).map head_key := by
  obtain ⟨n1, _, n3, _⟩ := negotiate_state env st opts
  have h0 := filter_wants_nonneg env { st with need_pack := 0 } opts hR hparse hins
  obtain ⟨p1, _⟩ := filter_wants_ok env { st with need_pack := 0 } opts h0
  obtain ⟨f1, f2⟩ := filter_wants_frame env { st with need_pack := 0 } opts
  have hok : listing_ok env st.repo = true := by simp [listing_ok, hodb, hls]
  simp only [hok, if_true, f2 hR] at p1
  have hrefs : (git_fetch_negotiate env st opts).2.refs
      = want_ptrs env (env.git_refspec__parse GIT_REFSPEC_TAGS true).2
          (effective_autotag st.download_tags opts) st.active_refspecs st.heads :=
    n1.trans p1
  refine ⟨hrefs, ?_⟩
  rw [git_remote.deref, hrefs, n3]
  exact deref_want_ptrs env _ _ _ st.heads _ f1.2.2.2.2.1

/-- C1, witness: the hypotheses hold for `demo_env` and `demo_remote`. -/
theorem want_list_is_filtered_advertisement_witness :
    (demo_remote.active_refspecs ≠ [] ∧
      0 ≤ (demo_env.git_refspec__parse GIT_REFSPEC_TAGS true).1 ∧
      0 ≤ (demo_env.git_repository_odb__weakptr demo_remote.repo).1 ∧
      0 ≤ demo_env.git_remote_ls) ∧
    ((git_fetch_negotiate demo_env demo_remote none).2.refs
        = (List.range demo_remote.heads.length).filter
            (wanted_ptr demo_env (demo_env.git_refspec__parse GIT_REFSPEC_TAGS true).2
              (effective_autotag demo_remote.download_tags none) demo_remote.active_refspecs
              demo_remote.heads) ∧
      ((git_fetch_negotiate demo_env demo_remote none).2.deref
          (git_fetch_negotiate demo_env demo_remote none).2.refs).map head_key
        = (demo_remote.heads.filter
            (wanted demo_env (demo_env.git_refspec__parse GIT_REFSPEC_TAGS true).2
              (effective_autotag demo_remote.download_tags none)
              demo_remote.active_refspecs)).map head_key) :=
  ⟨⟨by simp [demo_remote], by simp [demo_env], by simp [demo_env], by simp [demo_env]⟩,
    want_list_is_filtered_advertisement demo_env demo_remote none (by simp [demo_remote])
      (by simp [demo_env]) (by simp [demo_env]) (by simp [demo_env])
      (fun _ _ => by simp [demo_env])⟩


/-- C2. Whatever `need_pack` held before the call, after a
`git_fetch_negotiate` whose want-set build succeeds `need_pack` is set exactly
when some entry of the resulting want list points to a head whose object id
is absent from the store. -/
theorem need_pack_iff_want_absent (env : Env) (st : git_remote)
    (opts : Option git_fetch_options)
    (h0 : 0 ≤ (filter_wants env { st with need_pack := 0 } opts).1) :
    (git_fetch_negotiate env st opts).2.need_pack ≠ 0 ↔
      ∃ p ∈ (git_fetch_negotiate env st opts).2.refs,
        ∃ h, (git_fetch_negotiate env st opts).2.heads[p]? = some h ∧
          (env.git_repository_odb__weakptr st.repo).2 h.oid = false := by
  obtain ⟨n1, n2, n3, _⟩ := negotiate_state env st opts
  obtain ⟨p1, p2⟩ := filter_wants_ok env { st with need_pack := 0 } opts h0
  obtain ⟨f1, _⟩ := filter_wants_frame env { st with need_pack := 0 } opts
  have hk : (git_fetch_negotiate env st opts).2.heads.map head_key = st.heads.map head_key := by
    rw [n3]
    exact f1.2.2.2.2.1
  have hab : ∀ p, (∃ h, (git_fetch_negotiate env st opts).2.heads[p]? = some h ∧
      (env.git_repository_odb__weakptr st.repo).2 h.oid = false)
        ↔ absent_ptr (env.git_repository_odb__weakptr st.repo).2 st.heads p = true := by
    intro p
    rw [← absent_ptr_congr _ hk p, absent_ptr_iff]
  simp only [hab]
  rw [n1, n2, p1, p2]
  cases hok : listing_ok env st.repo with
  | false => simp
  | true =>
    simp only [Bool.true_and, if_true]
    by_cases hany : (want_ptrs env (env.git_refspec__parse GIT_REFSPEC_TAGS true).2
        (effective_autotag st.download_tags opts)
        (filter_wants env { st with need_pack := 0 } opts).2.active_refspecs st.heads).any
        (absent_ptr (env.git_repository_odb__weakptr st.repo).2 st.heads) = true
    · simp only [hany, if_true]
      simpa [List.any_eq_true] using hany
    · simp only [hany]
      simpa [List.any_eq_true] using hany

/-- C2, witness: the build on `demo_remote` succeeds. -/
theorem need_pack_iff_want_absent_witness :
    0 ≤ (filter_wants demo_env { demo_remote with need_pack := 0 } none).1 ∧
    ((git_fetch_negotiate demo_env demo_remote none).2.need_pack ≠ 0 ↔
      ∃ p ∈ (git_fetch_negotiate demo_env demo_remote none).2.refs,
        ∃ h, (git_fetch_negotiate demo_env demo_remote none).2.heads[p]? = some h ∧
          (demo_env.git_repository_odb__weakptr demo_remote.repo).2 h.oid = false) :=
  ⟨filter_wants_nonneg demo_env _ none (by simp [demo_remote]) (by simp [demo_env])
      (fun _ _ => by simp [demo_env]),
    need_pack_iff_want_absent demo_env demo_remote none
      (filter_wants_nonneg demo_env _ none (by simp [demo_remote]) (by simp [demo_env])
        (fun _ _ => by simp [demo_env]))⟩


/-- The exchange calls recorded after `git_fetch_negotiate`, from those after
the build. -/
theorem negotiate_result (env : Env) (st : git_remote) (opts : Option git_fetch_options)
    (h0 : 0 ≤ (filter_wants env { st with need_pack := 0 } opts).1) :
    ((filter_wants env { st with need_pack := 0 } opts).2.need_pack = 0 →
      git_fetch_negotiate env st opts
        = (0, (filter_wants env { st with need_pack := 0 } opts).2)) ∧
    ((filter_wants env { st with need_pack := 0 } opts).2.need_pack ≠ 0 →
      (git_fetch_negotiate env st opts).1
        = env.negotiate_fetch st.repo (filter_wants env { st with need_pack := 0 } opts).2.refs
            (filter_wants env { st with need_pack := 0 } opts).2.heads ∧
      exchange_calls (git_fetch_negotiate env st opts).2
        = exchange_calls st ++
          [Event.negotiate_fetch st.repo
            (filter_wants env { st with need_pack := 0 } opts).2.refs]) := by
  obtain ⟨f1, _⟩ := filter_wants_frame env { st with need_pack := 0 } opts
  have hrepo : (filter_wants env { st with need_pack := 0 } opts).2.repo = st.repo := f1.1
  have hex : exchange_calls (filter_wants env { st with need_pack := 0 } opts).2
      = exchange_calls st := f1.2.2.2.2.2
  unfold git_fetch_negotiate
  simp only [not_lt.mpr h0, if_false]
  constructor
  · intro hn
    simp [hn]
  · intro hn
    simp only [hn, if_false, hrepo, true_and]
    rw [← hex]
    simp [exchange_calls, git_remote.record, is_exchange]

/-- C3. When the want-set build succeeds and the object of every matched
reference is present in the store, `git_fetch_negotiate` returns 0 and calls
neither the negotiate nor the download operation of the transport, and a
following `git_fetch_download_pack` returns 0 and leaves the state, its trace
of calls included, as it was. -/
theorem negotiate_short_circuits (env : Env) (st : git_remote)
    (opts : Option git_fetch_options) (callbacks : Option git_remote_callbacks)
    (h0 : 0 ≤ (filter_wants env { st with need_pack := 0 } opts).1)
    (hpresent : ∀ h ∈ st.heads,
      wanted env (env.git_refspec__parse GIT_REFSPEC_TAGS true).2
        (effective_autotag st.download_tags opts)
        (filter_wants env { st with need_pack := 0 } opts).2.active_refspecs h = true →
      (env.git_repository_odb__weakptr st.repo).2 h.oid = true) :
    (git_fetch_negotiate env st opts).1 = 0 ∧
      exchange_calls (git_fetch_negotiate env st opts).2 = exchange_calls st ∧
      git_fetch_download_pack env (git_fetch_negotiate env st opts).2 callbacks
        = (0, (git_fetch_negotiate env st opts).2) := by
  obtain ⟨_, p2⟩ := filter_wants_ok env { st with need_pack := 0 } opts h0
  obtain ⟨f1, _⟩ := filter_wants_frame env { st with need_pack := 0 } opts
  have hnone : (want_ptrs env (env.git_refspec__parse GIT_REFSPEC_TAGS true).2
      (effective_autotag st.download_tags opts)
      (filter_wants env { st with need_pack := 0 } opts).2.active_refspecs st.heads).any
      (absent_ptr (env.git_repository_odb__weakptr st.repo).2 st.heads) = false := by
    rw [Bool.eq_false_iff]
    intro hany
    obtain ⟨p, hp, hab⟩ := List.any_eq_true.mp hany
    obtain ⟨h, hg, hw⟩ := (wanted_ptr_iff _ _ _ _ _ _).mp (List.mem_filter.mp hp).2
    obtain ⟨h2, hg2, hodb⟩ := (absent_ptr_iff _ _ _).mp hab
    rw [hg] at hg2
    cases hg2
    have hmem : h ∈ st.heads := List.getElem?_mem hg
    rw [hpresent h hmem hw] at hodb
    cases hodb
  have hneed : (filter_wants env { st with need_pack := 0 } opts).2.need_pack = 0 := by
    rw [p2]
    simp [hnone]
  have heq := (negotiate_result env st opts h0).1 hneed
  rw [heq]
  refine ⟨rfl, f1.2.2.2.2.2, ?_⟩
  simp [git_fetch_download_pack, hneed]

/-- C3, witness: a remote whose only advertised head is wanted and present. -/
theorem negotiate_short_circuits_witness :
    (git_fetch_negotiate demo_env { demo_remote with heads := demo_remote.heads.drop 1 }
        (some { download_tags := GIT_REMOTE_DOWNLOAD_TAGS_ALL })).1 = 0 ∧
      exchange_calls (git_fetch_negotiate demo_env
          { demo_remote with heads := demo_remote.heads.drop 1 }
          (some { download_tags := GIT_REMOTE_DOWNLOAD_TAGS_ALL })).2
        = exchange_calls { demo_remote with heads := demo_remote.heads.drop 1 } ∧
      git_fetch_download_pack demo_env
          (git_fetch_negotiate demo_env { demo_remote with heads := demo_remote.heads.drop 1 }
            (some { download_tags := GIT_REMOTE_DOWNLOAD_TAGS_ALL })).2 none
        = (0, (git_fetch_negotiate demo_env
            { demo_remote with heads := demo_remote.heads.drop 1 }
            (some { download_tags := GIT_REMOTE_DOWNLOAD_TAGS_ALL })).2) :=
  negotiate_short_circuits demo_env { demo_remote with heads := demo_remote.heads.drop 1 }
    (some { download_tags := GIT_REMOTE_DOWNLOAD_TAGS_ALL }) none
    (filter_wants_nonneg demo_env _ _ (by simp [demo_remote]) (by simp [demo_env])
      (fun _ _ => by simp [demo_env]))
    (by
      intro h hmem _
      simp only [demo_remote, List.drop_succ_cons, List.drop_zero, List.mem_cons,
        List.mem_singleton, List.not_mem_nil, or_false] at hmem
      rcases hmem with rfl | rfl
      · rfl
      · rename_i hw
        simp [wanted, demo_env] at hw)


/-- C4. When the want-set build succeeds and `need_pack` is set afterwards,
`git_fetch_negotiate` calls the negotiate operation of the transport exactly
once, with the repository handle and the whole want list in order (every
wanted pointer, whether its object is present locally or not), and returns
the value of that call. -/
theorem negotiate_calls_transport_once (env : Env) (st : git_remote)
    (opts : Option git_fetch_options)
    (h0 : 0 ≤ (filter_wants env { st with need_pack := 0 } opts).1)
    (hneed : (git_fetch_negotiate env st opts).2.need_pack ≠ 0) :
    (git_fetch_negotiate env st opts).1
        = env.negotiate_fetch st.repo (git_fetch_negotiate env st opts).2.refs
            (git_fetch_negotiate env st opts).2.heads ∧
      exchange_calls (git_fetch_negotiate env st opts).2
        = exchange_calls st ++
          [Event.negotiate_fetch st.repo (git_fetch_negotiate env st opts).2.refs] ∧
      (git_fetch_negotiate env st opts).2.refs
        = (filter_wants env { st with need_pack := 0 } opts).2.refs ∧
      (git_fetch_negotiate env st opts).2.refs
        = want_ptrs env (env.git_refspec__parse GIT_REFSPEC_TAGS true).2
            (effective_autotag st.download_tags opts)
            (git_fetch_negotiate env st opts).2.active_refspecs st.heads := by
  obtain ⟨n1, n2, n3, n4⟩ := negotiate_state env st opts
  rw [n2] at hneed
  obtain ⟨r1, r2⟩ := (negotiate_result env st opts h0).2 hneed
  obtain ⟨p1, p2⟩ := filter_wants_ok env { st with need_pack := 0 } opts h0
  refine ⟨?_, ?_, n1, ?_⟩
  · rw [r1, n1, n3]
  · rw [r2, n1]
  · rw [n1, n4, p1]
    cases hok : listing_ok env st.repo with
    | true => simp
    | false =>
      rw [p2] at hneed
      simp [hok] at hneed

/-- C4, witness: on `demo_remote` the wanted branch is missing from the
store. -/
theorem negotiate_calls_transport_once_witness :
    (git_fetch_negotiate demo_env demo_remote none).1
        = demo_env.negotiate_fetch demo_remote.repo
            (git_fetch_negotiate demo_env demo_remote none).2.refs
            (git_fetch_negotiate demo_env demo_remote none).2.heads ∧
      exchange_calls (git_fetch_negotiate demo_env demo_remote none).2
        = exchange_calls demo_remote ++
          [Event.negotiate_fetch demo_remote.repo
            (git_fetch_negotiate demo_env demo_remote none).2.refs] ∧
      (git_fetch_negotiate demo_env demo_remote none).2.refs
        = (filter_wants demo_env { demo_remote with need_pack := 0 } none).2.refs ∧
      (git_fetch_negotiate demo_env demo_remote none).2.refs
        = want_ptrs demo_env (demo_env.git_refspec__parse GIT_REFSPEC_TAGS true).2
            (effective_autotag demo_remote.download_tags none)
            (git_fetch_negotiate demo_env demo_remote none).2.active_refspecs
            demo_remote.heads :=
  negotiate_calls_transport_once demo_env demo_remote none
    (filter_wants_nonneg demo_env _ none (by simp [demo_remote]) (by simp [demo_env])
      (fun _ _ => by simp [demo_env]))
    (by decide)

/-- C5. `git_fetch_download_pack` returns 0 and makes no call when `need_pack`
is not set. When it is set, the download operation of the transport is called
once, with the repository handle, the statistics of the session and the
progress function and payload of the callbacks (both `NULL` without
callbacks), its result is returned and the statistics it leaves are stored. -/
theorem download_pack_contract (env : Env) (st : git_remote)
    (callbacks : Option git_remote_callbacks) :
    (git_fetch_download_pack env st callbacks).1
        = (if st.need_pack = 0 then 0
          else (env.download_pack st.repo st.stats
            (callbacks.bind fun c => c.transfer_progress)
            (callbacks.bind fun c => c.payload)).1) ∧
      (git_fetch_download_pack env st callbacks).2.trace
        = (if st.need_pack = 0 then st.trace
          else st.trace ++
            [Event.download_pack st.repo st.stats
              (callbacks.bind fun c => c.transfer_progress)
              (callbacks.bind fun c => c.payload)]) ∧
      (git_fetch_download_pack env st callbacks).2.stats
        = (if st.need_pack = 0 then st.stats
          else (env.download_pack st.repo st.stats
            (callbacks.bind fun c => c.transfer_progress)
            (callbacks.bind fun c => c.payload)).2) ∧
      (git_fetch_download_pack env st callbacks).2.refs = st.refs ∧
      (git_fetch_download_pack env st callbacks).2.need_pack = st.need_pack ∧
      (git_fetch_download_pack env st callbacks).2.heads = st.heads ∧
      (git_fetch_download_pack env st callbacks).2.active_refspecs = st.active_refspecs := by
  unfold git_fetch_download_pack
  by_cases hn : st.need_pack = 0
  · simp [hn]
  · cases callbacks <;> simp [hn, git_remote.record]


/-! ## The paths through `filter_wants` -/

theorem filter_wants_tags_fail (env : Env) (st : git_remote) (opts : Option git_fetch_options)
    (ht : (env.git_refspec__parse GIT_REFSPEC_TAGS true).1 < 0) :
    filter_wants env st opts = ((env.git_refspec__parse GIT_REFSPEC_TAGS true).1, after_tags st) := by
  unfold filter_wants
  simp only [ht, if_true, after_tags]

theorem filter_wants_active (env : Env) (st : git_remote) (opts : Option git_fetch_options)
    (ht : 0 ≤ (env.git_refspec__parse GIT_REFSPEC_TAGS true).1) (hR : st.active_refspecs ≠ []) :
    filter_wants env st opts
      = filter_wants_tail env (after_tags st) (env.git_refspec__parse GIT_REFSPEC_TAGS true).1
          (env.git_refspec__parse GIT_REFSPEC_TAGS true).2
          (effective_autotag st.download_tags opts) := by
  unfold filter_wants
  have hlen : ¬ (st.active_refspecs.length = 0) := by
    simpa [List.length_eq_zero] using hR
  simp only [tagopt_eq_effective, not_lt.mpr ht, git_remote.record, hlen, if_false, after_tags]

theorem filter_wants_head_fail (env : Env) (st : git_remote) (opts : Option git_fetch_options)
    (ht : 0 ≤ (env.git_refspec__parse GIT_REFSPEC_TAGS true).1) (hR : st.active_refspecs = [])
    (hh : (env.git_refspec__parse "HEAD" true).1 < 0) :
    filter_wants env st opts = ((env.git_refspec__parse "HEAD" true).1, after_head st) := by
  unfold filter_wants
  simp only [not_lt.mpr ht, git_remote.record, hR, List.length_nil, hh, if_true, if_false,
    after_head, after_tags]

theorem filter_wants_dwim_fail (env : Env) (st : git_remote) (opts : Option git_fetch_options)
    (ht : 0 ≤ (env.git_refspec__parse GIT_REFSPEC_TAGS true).1) (hR : st.active_refspecs = [])
    (hh : 0 ≤ (env.git_refspec__parse "HEAD" true).1)
    (hd : env.dwim_code (env.git_refspec__parse "HEAD" true).2 [] < 0) :
    filter_wants env st opts
      = (env.dwim_code (env.git_refspec__parse "HEAD" true).2 [], after_dwim env st) := by
  unfold filter_wants
  simp only [not_lt.mpr ht, not_lt.mpr hh, git_remote.record, hR, List.length_nil, if_true,
    if_false, after_dwim, after_head, after_tags, git_refspec__dwim_one, git_remote.deref,
    List.filterMap_nil, hd]

theorem filter_wants_dwim_ok (env : Env) (st : git_remote) (opts : Option git_fetch_options)
    (ht : 0 ≤ (env.git_refspec__parse GIT_REFSPEC_TAGS true).1) (hR : st.active_refspecs = [])
    (hh : 0 ≤ (env.git_refspec__parse "HEAD" true).1)
    (hd : 0 ≤ env.dwim_code (env.git_refspec__parse "HEAD" true).2 []) :
    filter_wants env st opts
      = filter_wants_tail env (after_dwim env st)
          (env.dwim_code (env.git_refspec__parse "HEAD" true).2 [])
          (env.git_refspec__parse GIT_REFSPEC_TAGS true).2
          (effective_autotag st.download_tags opts) := by
  unfold filter_wants
  simp only [tagopt_eq_effective, not_lt.mpr ht, not_lt.mpr hh, git_remote.record, hR,
    List.length_nil, if_true, if_false, after_dwim, after_head, after_tags,
    git_refspec__dwim_one, git_remote.deref, List.filterMap_nil, not_lt.mpr hd]

/-- A failed set-up step ends the build with its code, before any head is
looked at. -/
theorem filter_wants_setup_fails (env : Env) (st : git_remote)
    (opts : Option git_fetch_options) (hfail : setup_fails env st) :
    (filter_wants env st opts).1 = setup_error env ∧ setup_error env < 0 ∧
      (filter_wants env st opts).2.refs = [] ∧
      (filter_wants env st opts).2.heads = st.heads ∧
      (filter_wants env st opts).2.need_pack = st.need_pack ∧
      (filter_wants env st opts).2.trace = st.trace ++ setup_calls env := by
  by_cases ht : (env.git_refspec__parse GIT_REFSPEC_TAGS true).1 < 0
  · rw [filter_wants_tags_fail env st opts ht]
    simp [setup_error, setup_calls, ht, after_tags, git_remote.record]
  · rcases hfail with h | ⟨hR, h⟩
    · exact absurd h ht
    · by_cases hh : (env.git_refspec__parse "HEAD" true).1 < 0
      · rw [filter_wants_head_fail env st opts (not_lt.mp ht) hR hh]
        simp [setup_error, setup_calls, ht, hh, after_head, after_tags, git_remote.record]
      · have hd : env.dwim_code (env.git_refspec__parse "HEAD" true).2 [] < 0 := by
          rcases h with h | h
          · exact absurd h hh
          · exact h
        rw [filter_wants_dwim_fail env st opts (not_lt.mp ht) hR (not_lt.mp hh) hd]
        simp [setup_error, setup_calls, ht, hh, hd, after_dwim, after_head, after_tags,
          git_remote.record]

/-- C8. If the tags refspec does not parse, or the active-refspec collection
is empty and the default refspec `HEAD` does not parse or does not expand,
`filter_wants` returns that negative code; the want list is left empty, no
head is modified, and the only calls made are those of the set-up steps (no
listing, no validation, no match, no store query, no insertion);
`git_fetch_negotiate` returns -1 and calls neither the negotiate nor the
download operation of the transport. -/
theorem setup_failure_aborts (env : Env) (st : git_remote) (opts : Option git_fetch_options)
    (hfail : setup_fails env st) :
    ((filter_wants env st opts).1 = setup_error env ∧ setup_error env < 0 ∧
      (filter_wants env st opts).2.refs = [] ∧
      (filter_wants env st opts).2.heads = st.heads ∧
      (filter_wants env st opts).2.trace = st.trace ++ setup_calls env) ∧
    ((git_fetch_negotiate env st opts).1 = -1 ∧
      (git_fetch_negotiate env st opts).2.refs = [] ∧
      (git_fetch_negotiate env st opts).2.heads = st.heads ∧
      (git_fetch_negotiate env st opts).2.need_pack = 0 ∧
      (git_fetch_negotiate env st opts).2.trace = st.trace ++ setup_calls env ∧
      exchange_calls (git_fetch_negotiate env st opts).2 = exchange_calls st) := by
  obtain ⟨a1, a2, a3, a4, _, a6⟩ := filter_wants_setup_fails env st opts hfail
  have hfail0 : setup_fails env { st with need_pack := 0 } := hfail
  obtain ⟨b1, b2, b3, b4, b5, b6⟩ :=
    filter_wants_setup_fails env { st with need_pack := 0 } opts hfail0
  obtain ⟨f1, _⟩ := filter_wants_frame env { st with need_pack := 0 } opts
  refine ⟨⟨a1, a2, a3, a4, a6⟩, ?_⟩
  have hneg : (filter_wants env { st with need_pack := 0 } opts).1 < 0 := by
    rw [b1]
    exact b2
  have heq : git_fetch_negotiate env st opts
      = (-1, (filter_wants env { st with need_pack := 0 } opts).2) := by
    unfold git_fetch_negotiate
    simp only [hneg, if_true]
  rw [heq]
  exact ⟨rfl, b3, b4, b5, b6, f1.2.2.2.2.2⟩

/-- C8, witness: under `parse_down_env` the tags refspec does not parse. -/
theorem setup_failure_aborts_witness :
    setup_fails parse_down_env demo_remote ∧
    ((filter_wants parse_down_env demo_remote none).1 = setup_error parse_down_env ∧
      setup_error parse_down_env < 0 ∧
      (filter_wants parse_down_env demo_remote none).2.refs = [] ∧
      (filter_wants parse_down_env demo_remote none).2.heads = demo_remote.heads ∧
      (filter_wants parse_down_env demo_remote none).2.trace
        = demo_remote.trace ++ setup_calls parse_down_env) ∧
    ((git_fetch_negotiate parse_down_env demo_remote none).1 = -1 ∧
      (git_fetch_negotiate parse_down_env demo_remote none).2.refs = [] ∧
      (git_fetch_negotiate parse_down_env demo_remote none).2.heads = demo_remote.heads ∧
      (git_fetch_negotiate parse_down_env demo_remote none).2.need_pack = 0 ∧
      (git_fetch_negotiate parse_down_env demo_remote none).2.trace
        = demo_remote.trace ++ setup_calls parse_down_env ∧
      exchange_calls (git_fetch_negotiate parse_down_env demo_remote none).2
        = exchange_calls demo_remote) :=
  ⟨Or.inl (by decide),
    setup_failure_aborts parse_down_env demo_remote none (Or.inl (by decide))⟩


/-! ## Running the build twice -/

theorem maybe_want_agree (env : Env) (a b : git_remote) (p : Nat) (odb : git_odb)
    (tagspec : git_refspec) (tagopt : git_remote_autotag_option_t) (hab : agree a b) :
    (maybe_want env a p odb tagspec tagopt).1 = (maybe_want env b p odb tagspec tagopt).1 ∧
      agree (maybe_want env a p odb tagspec tagopt).2
        (maybe_want env b p odb tagspec tagopt).2 := by
  obtain ⟨h1, h2, h3, h4⟩ := hab
  have hw : wanted_ptr env tagspec tagopt a.active_refspecs a.heads p
      = wanted_ptr env tagspec tagopt b.active_refspecs b.heads p := by
    rw [h2]
    exact wanted_ptr_congr env tagspec tagopt _ h4 p
  cases hwa : wanted_ptr env tagspec tagopt a.active_refspecs a.heads p with
  | false =>
    obtain ⟨x1, x2, _, _, x5, x6⟩ := maybe_want_skip env a p odb tagspec tagopt hwa
    obtain ⟨y1, y2, _, _, y5, y6⟩ := maybe_want_skip env b p odb tagspec tagopt (hw ▸ hwa)
    refine ⟨x1.trans y1.symm, ?_, ?_, ?_, ?_⟩
    · rw [x2, y2, h1]
    · rw [x5, y5, h2]
    · rw [x6.1, y6.1, h3]
    · rw [x6.2.2.2.2.1, y6.2.2.2.2.1, h4]
  | true =>
    obtain ⟨x1, x2, _, x4, x5⟩ := maybe_want_take env a p odb tagspec tagopt hwa
    obtain ⟨y1, y2, _, y4, y5⟩ := maybe_want_take env b p odb tagspec tagopt (hw ▸ hwa)
    refine ⟨?_, ?_, ?_, ?_, ?_⟩
    · rw [x1, y1, h1]
    · rw [x2, y2, h1]
    · rw [x4, y4, h2]
    · rw [x5.1, y5.1, h3]
    · rw [x5.2.2.2.2.1, y5.2.2.2.2.1, h4]

theorem filter_wants_loop_agree (env : Env) (odb : git_odb) (tagspec : git_refspec)
    (tagopt : git_remote_autotag_option_t) (ps : List Nat) :
    ∀ (e1 e2 : Int) (a b : git_remote), agree a b →
      agree (filter_wants_loop env odb tagspec tagopt ps e1 a).2
        (filter_wants_loop env odb tagspec tagopt ps e2 b).2 := by
  induction ps with
  | nil => intro e1 e2 a b hab; exact hab
  | cons p rest ih =>
    intro e1 e2 a b hab
    obtain ⟨hc, hag⟩ := maybe_want_agree env a b p odb tagspec tagopt hab
    unfold filter_wants_loop
    by_cases hneg : (maybe_want env a p odb tagspec tagopt).1 < 0
    · have hneg2 : (maybe_want env b p odb tagspec tagopt).1 < 0 := hc ▸ hneg
      simp only [hneg, hneg2, if_true]
      exact hag
    · have hneg2 : ¬ (maybe_want env b p odb tagspec tagopt).1 < 0 := hc ▸ hneg
      simp only [hneg, hneg2, if_false]
      exact ih _ _ _ _ hag

theorem filter_wants_tail_agree (env : Env) (a b : git_remote) (e1 e2 : Int)
    (tagspec : git_refspec) (tagopt : git_remote_autotag_option_t) (hab : agree a b) :
    agree (filter_wants_tail env a e1 tagspec tagopt).2
      (filter_wants_tail env b e2 tagspec tagopt).2 := by
  have hrepo : a.repo = b.repo := hab.2.2.1
  have hlen : a.heads.length = b.heads.length := by
    have := congrArg List.length hab.2.2.2
    simpa using this
  unfold filter_wants_tail
  rw [hrepo]
  by_cases ho : (env.git_repository_odb__weakptr b.repo).1 < 0
  · simp only [ho, if_true]
    exact hab
  · by_cases hl : env.git_remote_ls < 0
    · simp only [ho, hl, if_true, if_false]
      exact hab
    · simp only [ho, hl, if_false, git_remote.record, hlen]
      exact filter_wants_loop_agree env _ tagspec tagopt _ _ _ _ _ hab

/-- C9. Running `filter_wants` a second time on the state the first run left,
with the same collaborators (the same advertisement, the same store) and the
same options, leaves the want list the first run left: the same pointers in
the same order, also when the active-refspec collection was empty before the
first run. -/
theorem filter_wants_twice (env : Env) (st : git_remote) (opts : Option git_fetch_options) :
    (filter_wants env (filter_wants env st opts).2 opts).2.refs
      = (filter_wants env st opts).2.refs := by
  obtain ⟨f1, f2⟩ := filter_wants_frame env st opts
  have hpol : effective_autotag (filter_wants env st opts).2.download_tags opts
      = effective_autotag st.download_tags opts := by rw [f1.2.1]
  by_cases ht : (env.git_refspec__parse GIT_REFSPEC_TAGS true).1 < 0
  · rw [filter_wants_tags_fail env _ opts ht, filter_wants_tags_fail env st opts ht]
    rfl
  · have ht0 := not_lt.mp ht
    by_cases hR : st.active_refspecs = []
    · by_cases hh : (env.git_refspec__parse "HEAD" true).1 < 0
      · have h1 := filter_wants_head_fail env st opts ht0 hR hh
        have hR1 : (filter_wants env st opts).2.active_refspecs = [] := by
          rw [h1]
          exact hR
        rw [filter_wants_head_fail env _ opts ht0 hR1 hh, h1]
        rfl
      · have hh0 := not_lt.mp hh
        by_cases hd : env.dwim_code (env.git_refspec__parse "HEAD" true).2 [] < 0
        · have h1 := filter_wants_dwim_fail env st opts ht0 hR hh0 hd
          have hR1 : (filter_wants env st opts).2.active_refspecs = [] := by
            rw [h1]
            simp [after_dwim, git_refspec__dwim_one, hd]
          rw [filter_wants_dwim_fail env _ opts ht0 hR1 hh0 hd, h1]
          rfl
        · have hd0 := not_lt.mp hd
          have h1 := filter_wants_dwim_ok env st opts ht0 hR hh0 hd0
          have hact : (filter_wants env st opts).2.active_refspecs
              = (after_dwim env st).active_refspecs := by
            rw [h1]
            exact (filter_wants_tail_frame env _ _ _ _).1
          have hR1 : (filter_wants env st opts).2.active_refspecs ≠ [] := by
            rw [hact]
            simp [after_dwim, git_refspec__dwim_one, hd]
          rw [filter_wants_active env _ opts ht0 hR1, hpol]
          have hag : agree (after_tags (filter_wants env st opts).2) (after_dwim env st) := by
            refine ⟨rfl, hact, f1.1, f1.2.2.2.2.1⟩
          have := filter_wants_tail_agree env _ _
            (env.git_refspec__parse GIT_REFSPEC_TAGS true).1
            (env.dwim_code (env.git_refspec__parse "HEAD" true).2 [])
            (env.git_refspec__parse GIT_REFSPEC_TAGS true).2
            (effective_autotag st.download_tags opts) hag
          rw [this.1, ← h1]
    · have h1 := filter_wants_active env st opts ht0 hR
      have hR1 : (filter_wants env st opts).2.active_refspecs ≠ [] := by
        rw [f2 hR]
        exact hR
      rw [filter_wants_active env _ opts ht0 hR1, hpol]
      have hag : agree (after_tags (filter_wants env st opts).2) (after_tags st) := by
        refine ⟨rfl, f2 hR, f1.1, f1.2.2.2.2.1⟩
      have := filter_wants_tail_agree env _ _
        (env.git_refspec__parse GIT_REFSPEC_TAGS true).1
        (env.git_refspec__parse GIT_REFSPEC_TAGS true).1
        (env.git_refspec__parse GIT_REFSPEC_TAGS true).2
        (effective_autotag st.download_tags opts) hag
      rw [this.1, ← h1]


/-! ## The autotag policy -/

theorem maybe_want_with_tags (env : Env) (d : git_remote_autotag_option_t) (remote : git_remote)
    (p : Nat) (odb : git_odb) (tagspec : git_refspec) (tagopt : git_remote_autotag_option_t) :
    maybe_want env (with_tags d remote) p odb tagspec tagopt
      = ((maybe_want env remote p odb tagspec tagopt).1,
          with_tags d (maybe_want env remote p odb tagspec tagopt).2) := by
  unfold maybe_want
  simp only [with_tags]
  cases hg : remote.heads[p]? with
  | none => rfl
  | some h =>
    simp only []
    by_cases hv : env.git_reference_is_valid_name h.name = true
    · by_cases hm : (maybe_want_match env remote.active_refspecs h.name tagspec tagopt).1 = true
      · simp [hv, hm]
      · simp [hv, hm]
    · simp [hv, git_remote.record]

theorem filter_wants_loop_with_tags (env : Env) (d : git_remote_autotag_option_t)
    (odb : git_odb) (tagspec : git_refspec) (tagopt : git_remote_autotag_option_t)
    (ps : List Nat) :
    ∀ (e : Int) (remote : git_remote),
      filter_wants_loop env odb tagspec tagopt ps e (with_tags d remote)
        = ((filter_wants_loop env odb tagspec tagopt ps e remote).1,
            with_tags d (filter_wants_loop env odb tagspec tagopt ps e remote).2) := by
  induction ps with
  | nil => intro e remote; rfl
  | cons p rest ih =>
    intro e remote
    unfold filter_wants_loop
    rw [maybe_want_with_tags]
    by_cases hneg : (maybe_want env remote p odb tagspec tagopt).1 < 0
    · simp only [hneg, if_true]
    · simp only [hneg, if_false]
      exact ih _ _

theorem filter_wants_tail_with_tags (env : Env) (d : git_remote_autotag_option_t)
    (remote : git_remote) (error : Int) (tagspec : git_refspec)
    (tagopt : git_remote_autotag_option_t) :
    filter_wants_tail env (with_tags d remote) error tagspec tagopt
      = ((filter_wants_tail env remote error tagspec tagopt).1,
          with_tags d (filter_wants_tail env remote error tagspec tagopt).2) := by
  unfold filter_wants_tail
  by_cases ho : (env.git_repository_odb__weakptr remote.repo).1 < 0
  · simp [ho, with_tags, git_remote.record]
  · by_cases hl : env.git_remote_ls < 0
    · simp [ho, hl, with_tags, git_remote.record]
    · have ho2 : ¬ (env.git_repository_odb__weakptr (with_tags d remote).repo).1 < 0 := ho
      simp only [ho, ho2, hl, if_false]
      exact filter_wants_loop_with_tags env d _ tagspec tagopt _ error
        ((remote.record (Event.repository_odb remote.repo)).record Event.remote_ls)

/-- The build reads the stored policy and the options only through the
effective policy. -/
theorem filter_wants_with_tags (env : Env) (st : git_remote)
    (opts opts2 : Option git_fetch_options) (d : git_remote_autotag_option_t)
    (heff : effective_autotag d opts2 = effective_autotag st.download_tags opts) :
    filter_wants env (with_tags d st) opts2
      = ((filter_wants env st opts).1, with_tags d (filter_wants env st opts).2) := by
  have heff2 : effective_autotag (with_tags d st).download_tags opts2
      = effective_autotag st.download_tags opts := heff
  by_cases ht : (env.git_refspec__parse GIT_REFSPEC_TAGS true).1 < 0
  · rw [filter_wants_tags_fail env _ opts2 ht, filter_wants_tags_fail env st opts ht]
    rfl
  · have ht0 := not_lt.mp ht
    by_cases hR : st.active_refspecs = []
    · have hR2 : (with_tags d st).active_refspecs = [] := hR
      by_cases hh : (env.git_refspec__parse "HEAD" true).1 < 0
      · rw [filter_wants_head_fail env _ opts2 ht0 hR2 hh,
          filter_wants_head_fail env st opts ht0 hR hh]
        rfl
      · have hh0 := not_lt.mp hh
        by_cases hd : env.dwim_code (env.git_refspec__parse "HEAD" true).2 [] < 0
        · rw [filter_wants_dwim_fail env _ opts2 ht0 hR2 hh0 hd,
            filter_wants_dwim_fail env st opts ht0 hR hh0 hd]
          rfl
        · have hd0 := not_lt.mp hd
          rw [filter_wants_dwim_ok env _ opts2 ht0 hR2 hh0 hd0,
            filter_wants_dwim_ok env st opts ht0 hR hh0 hd0, heff2]
          exact filter_wants_tail_with_tags env d (after_dwim env st) _ _ _
    · have hR2 : (with_tags d st).active_refspecs ≠ [] := hR
      rw [filter_wants_active env _ opts2 ht0 hR2, filter_wants_active env st opts ht0 hR, heff2]
      exact filter_wants_tail_with_tags env d (after_tags st) _ _ _

/-- C10. The policy the want-set build uses is the effective one: the build
run with options `opts` on a remote whose stored default is `d` does what the
build run without options does on the same remote with the effective policy
(the override when options are supplied and their value is not `Unspecified`,
`d` otherwise) stored as default; and the stored default is still `d` after
the build and after `git_fetch_negotiate`. -/
theorem autotag_override_is_per_call (env : Env) (st : git_remote)
    (opts : Option git_fetch_options) :
    filter_wants env st opts
        = ((filter_wants env
              (with_tags (effective_autotag st.download_tags opts) st) none).1,
            with_tags st.download_tags
              (filter_wants env
                (with_tags (effective_autotag st.download_tags opts) st) none).2) ∧
      (filter_wants env st opts).2.download_tags = st.download_tags ∧
      (git_fetch_negotiate env st opts).2.download_tags = st.download_tags := by
  have h1 := filter_wants_with_tags env st opts none
    (effective_autotag st.download_tags opts) rfl
  obtain ⟨f1, _⟩ := filter_wants_frame env st opts
  obtain ⟨g1, _⟩ := filter_wants_frame env { st with need_pack := 0 } opts
  refine ⟨?_, f1.2.1, ?_⟩
  · rw [h1]
    simp only [with_tags]
    rw [← f1.2.1]
  · unfold git_fetch_negotiate
    simp only []
    split
    · exact g1.2.1
    · split
      · exact g1.2.1
      · exact g1.2.1


/-! ## Failures of the store and of the listing -/

/-- With active refspecs on entry and a tags refspec that parses, a store
that cannot be obtained or a listing that fails ends the build with the
non-negative code of the tags parse, and `git_fetch_negotiate` returns 0. -/
theorem filter_wants_listing_fails (env : Env) (st : git_remote)
    (opts : Option git_fetch_options)
    (ht : 0 ≤ (env.git_refspec__parse GIT_REFSPEC_TAGS true).1) (hR : st.active_refspecs ≠ [])
    (hfail : listing_ok env st.repo = false) :
    (filter_wants env st opts).1 = (env.git_refspec__parse GIT_REFSPEC_TAGS true).1 ∧
      (git_fetch_negotiate env st opts).1 = 0 := by
  have key : ∀ r : git_remote, r.repo = st.repo → ∀ pol,
      (filter_wants_tail env r (env.git_refspec__parse GIT_REFSPEC_TAGS true).1
        (env.git_refspec__parse GIT_REFSPEC_TAGS true).2 pol).1
        = (env.git_refspec__parse GIT_REFSPEC_TAGS true).1 := by
    intro r hr pol
    unfold filter_wants_tail
    rw [hr]
    by_cases ho : (env.git_repository_odb__weakptr st.repo).1 < 0
    · simp only [ho, if_true]
    · have hl : env.git_remote_ls < 0 := by
        simp only [listing_ok, Bool.and_eq_false_iff, decide_eq_false_iff_not, not_le] at hfail
        rcases hfail with h | h
        · exact absurd h ho
        · exact h
      simp only [ho, hl, if_true, if_false]
  have h1 : (filter_wants env st opts).1 = (env.git_refspec__parse GIT_REFSPEC_TAGS true).1 := by
    rw [filter_wants_active env st opts ht hR]
    exact key (after_tags st) rfl _
  refine ⟨h1, ?_⟩
  have hR0 : ({ st with need_pack := 0 } : git_remote).active_refspecs ≠ [] := hR
  have h2 : (filter_wants env { st with need_pack := 0 } opts).1
      = (env.git_refspec__parse GIT_REFSPEC_TAGS true).1 := by
    rw [filter_wants_active env _ opts ht hR0]
    exact key (after_tags { st with need_pack := 0 }) rfl _
  have h0 : 0 ≤ (filter_wants env { st with need_pack := 0 } opts).1 := by
    rw [h2]
    exact ht
  obtain ⟨_, p2⟩ := filter_wants_ok env { st with need_pack := 0 } opts h0
  have hneed : (filter_wants env { st with need_pack := 0 } opts).2.need_pack = 0 := by
    rw [p2]
    have hfail0 : listing_ok env ({ st with need_pack := 0 } : git_remote).repo = false := hfail
    simp [hfail0]
  rw [(negotiate_result env st opts h0).1 hneed]

/-- C7, evaluation of the code: when the object database cannot be obtained,
and when the listing fails, `filter_wants` returns 0 and `git_fetch_negotiate`
returns 0, the code of success, with an empty want list and no call to the
negotiate operation. -/
theorem store_or_listing_failure_returns_success :
    ((filter_wants odb_down_env { demo_remote with need_pack := 0 } none).1 = 0 ∧
      (git_fetch_negotiate odb_down_env demo_remote none).1 = 0 ∧
      (git_fetch_negotiate odb_down_env demo_remote none).2.refs = [] ∧
      exchange_calls (git_fetch_negotiate odb_down_env demo_remote none).2 = []) ∧
    ((filter_wants ls_down_env { demo_remote with need_pack := 0 } none).1 = 0 ∧
      (git_fetch_negotiate ls_down_env demo_remote none).1 = 0 ∧
      (git_fetch_negotiate ls_down_env demo_remote none).2.refs = [] ∧
      exchange_calls (git_fetch_negotiate ls_down_env demo_remote none).2 = []) := by
  decide

/-! ## The quick list -/

/-- C6, evaluation of the code: for a remote to which nothing is advertised,
`git_get_last` returns 0 and stores through `out` an allocation of zero
bytes, in which no terminated string can be read. -/
theorem quick_list_of_empty_advertisement :
    (git_get_last demo_env empty_remote).1 = 0 ∧
      (git_get_last demo_env empty_remote).2.1 = some (some { cells := [], oob := false }) ∧
      c_string ([] : List (Option Char)) = none := by
  decide


theorem store_spec (b : Buffer) (A C : List (Option Char)) (m : Option Char) (c : Char)
    (hb : b.cells = A ++ m :: C) :
    b.store A.length c = { cells := A ++ some c :: C, oob := b.oob } := by
  unfold Buffer.store
  have hlt : A.length < b.cells.length := by
    rw [hb]
    simp
  simp only [hlt, if_true]
  rw [hb, List.set_append_right _ _ (le_refl _)]
  simp

theorem sprintf_s_spec (s : List Char) :
    ∀ (b : Buffer) (A M C : List (Option Char)), b.cells = A ++ M ++ C →
      M.length = s.length + 1 →
      sprintf_s b A.length s
        = { cells := A ++ (s ++ [NUL]).map some ++ C, oob := b.oob } := by
  induction s with
  | nil =>
    intro b A M C hb hM
    match M, hM with
    | [m], _ =>
      unfold sprintf_s
      rw [store_spec b A C m NUL (by simpa using hb)]
      simp
  | cons c cs ih =>
    intro b A M C hb hM
    match M, hM with
    | m :: M2, hM2 =>
      unfold sprintf_s
      rw [store_spec b A (M2 ++ C) m c (by simpa using hb)]
      have := ih { cells := A ++ some c :: (M2 ++ C), oob := b.oob } (A ++ [some c]) M2 C
        (by simp) (by simpa using hM2)
      simp only [List.length_append, List.length_singleton] at this
      rw [this]
      simp

theorem flatMap_fmt_byte_length (l : List (Fin 256)) :
    (l.flatMap fmt_byte).length = 2 * l.length := by
  induction l with
  | nil => rfl
  | cons a t ih =>
    simp only [List.flatMap_cons, List.length_append, ih, List.length_cons]
    simp [fmt_byte]
    omega

theorem git_oid_tostr_length (oid : git_oid) :
    (git_oid_tostr (GIT_OID_HEXSZ + 1) oid).length = 40 := by
  unfold git_oid_tostr
  rw [List.length_take, flatMap_fmt_byte_length, oid.size_eq]
  rfl

/-- The loop of `filter_wants_1` from an index past the first: each remaining
head overwrites the terminator with `;` and appends its hexadecimal form and
a terminator, inside the buffer. -/
theorem filter_wants_1_loop_spec (n : Nat) (rest : List git_remote_head) :
    ∀ (i : Nat) (B : List Char) (buff : Buffer), 1 ≤ i → i + rest.length = n →
      B.length + 1 = 41 * i →
      buff.cells = (B ++ [NUL]).map some ++ List.replicate (41 * rest.length) none →
      filter_wants_1_loop n i rest buff
        = { cells := (B ++ (rest.map (fun h =>
              ';' :: git_oid_tostr (GIT_OID_HEXSZ + 1) h.oid)).flatten ++ [NUL]).map some,
            oob := buff.oob } := by
  induction rest with
  | nil =>
    intro i B buff _ _ _ hc
    cases buff
    simp at hc
    simp [filter_wants_1_loop, hc]
  | cons h rest ih =>
    intro i B buff hi hn hB hc
    unfold filter_wants_1_loop
    have hoff : (GIT_OID_HEXSZ + 1) * i = ((B ++ [NUL]).map some).length := by
      simp [GIT_OID_HEXSZ, hB]
    have hsplit : buff.cells = (B ++ [NUL]).map some ++ List.replicate 41 none
        ++ List.replicate (41 * rest.length) none := by
      rw [hc, List.append_assoc, ← List.replicate_add]
      congr 2
      simp only [List.length_cons]
      omega
    have h1 := sprintf_s_spec (git_oid_tostr (GIT_OID_HEXSZ + 1) h.oid) buff
      ((B ++ [NUL]).map some) (List.replicate 41 none) (List.replicate (41 * rest.length) none)
      hsplit (by simp [git_oid_tostr_length])
    have hcond : i > 0 ∧ i < n := by
      simp only [List.length_cons] at hn
      omega
    simp only [hoff, h1, hcond, and_self, if_true]
    have hidx : ((B ++ [NUL]).map some).length - 1 = (B.map some).length := by simp
    rw [hidx]
    rw [store_spec _ (B.map some)
      ((git_oid_tostr (GIT_OID_HEXSZ + 1) h.oid ++ [NUL]).map some
        ++ List.replicate (41 * rest.length) none) (some NUL) ';' (by simp)]
    have h2 := ih (i + 1) (B ++ ';' :: git_oid_tostr (GIT_OID_HEXSZ + 1) h.oid)
      { cells := B.map some ++ some ';' ::
          ((git_oid_tostr (GIT_OID_HEXSZ + 1) h.oid ++ [NUL]).map some
            ++ List.replicate (41 * rest.length) none), oob := buff.oob }
      (by omega) (by simp only [List.length_cons] at hn; omega)
      (by simp [git_oid_tostr_length]; omega) (by simp)
    rw [h2]
    simp

/-- The buffer `filter_wants_1` fills for a non-empty listing holds the quick
list and its terminator, and no store falls outside it. -/
theorem filter_wants_1_loop_full (first : git_remote_head) (others : List git_remote_head) :
    filter_wants_1_loop (others.length + 1) 0 (first :: others)
        (malloc ((GIT_OID_HEXSZ + 1) * (others.length + 1)))
      = { cells := (quick_list first others ++ [NUL]).map some, oob := false } := by
  unfold filter_wants_1_loop
  have hsplit : (malloc ((GIT_OID_HEXSZ + 1) * (others.length + 1))).cells
      = [] ++ List.replicate 41 none ++ List.replicate (41 * others.length) none := by
    simp only [malloc, GIT_OID_HEXSZ, List.nil_append, ← List.replicate_add]
    congr 1
    omega
  have h1 := sprintf_s_spec (git_oid_tostr (GIT_OID_HEXSZ + 1) first.oid) _ [] _ _ hsplit
    (by simp [git_oid_tostr_length])
  simp only [List.length_nil] at h1
  simp only [Nat.mul_zero, h1, gt_iff_lt, lt_self_iff_false, false_and, if_false]
  rw [filter_wants_1_loop_spec (others.length + 1) others 1
    (git_oid_tostr (GIT_OID_HEXSZ + 1) first.oid) _ (le_refl _) (by omega)
    (by simp [git_oid_tostr_length]) (by simp)]
  simp [quick_list, malloc]


theorem c_string_terminated (str : List Char) (tail : List (Option Char))
    (hstr : ∀ c ∈ str, c ≠ NUL) :
    c_string ((str ++ [NUL]).map some ++ tail) = some str := by
  induction str with
  | nil => simp [c_string]
  | cons c cs ih =>
    have hc : c ≠ NUL := hstr c (List.mem_cons_self _ _)
    have hcs : ∀ x ∈ cs, x ≠ NUL := fun x hx => hstr x (List.mem_cons_of_mem _ hx)
    show c_string (some c :: ((cs ++ [NUL]).map some ++ tail)) = some (c :: cs)
    rw [c_string]
    simp only [hc, if_false]
    rw [ih hcs]
    rfl

theorem to_hex_digit (n : Nat) : to_hex n ≠ ';' ∧ to_hex n ≠ NUL := by
  rcases Nat.lt_or_ge n 16 with h | h
  · interval_cases n <;> decide
  · have : to_hex n = '0' := by
      unfold to_hex
      rw [List.getD_eq_default]
      simpa using h
    rw [this]
    decide

theorem from_hex_to_hex (n : Nat) (h : n < 16) : from_hex (to_hex n) = some n := by
  have key : ∀ k : Fin 16, from_hex (to_hex k.val) = some k.val := by decide
  exact key ⟨n, h⟩

theorem git_oid_tostr_chars (oid : git_oid) :
    ∀ c ∈ git_oid_tostr (GIT_OID_HEXSZ + 1) oid, c ≠ ';' ∧ c ≠ NUL := by
  intro c hc
  have hc2 := List.mem_of_mem_take hc
  simp only [List.mem_flatMap, fmt_byte, List.mem_cons, List.mem_singleton, List.not_mem_nil,
    or_false] at hc2
  obtain ⟨b, _, rfl | rfl⟩ := hc2
  · exact to_hex_digit _
  · exact to_hex_digit _

theorem hex_decode_fmt (l : List (Fin 256)) :
    hex_decode (l.flatMap fmt_byte) = some (l.map (fun b => b.val)) := by
  induction l with
  | nil => rfl
  | cons b t ih =>
    have h1 : b.val / 16 < 16 := by omega
    have h2 : b.val % 16 < 16 := by omega
    have hstep : hex_decode (to_hex (b.val / 16) :: to_hex (b.val % 16) :: t.flatMap fmt_byte)
        = (from_hex (to_hex (b.val / 16))).bind fun x =>
            (from_hex (to_hex (b.val % 16))).bind fun y =>
              (hex_decode (t.flatMap fmt_byte)).map fun bs => (16 * x + y) :: bs := rfl
    show hex_decode (to_hex (b.val / 16) :: to_hex (b.val % 16) :: t.flatMap fmt_byte) = _
    rw [hstep, from_hex_to_hex _ h1, from_hex_to_hex _ h2, ih]
    simp only [List.map_cons, Option.some_bind, Option.map_some']
    congr 2
    omega

/-- Hexadecimal decoding of the hexadecimal form of an object id gives back
its bytes. -/
theorem hex_decode_tostr (oid : git_oid) :
    hex_decode (git_oid_tostr (GIT_OID_HEXSZ + 1) oid) = some (oid.id.map (fun b => b.val)) := by
  have hlen : (oid.id.flatMap fmt_byte).length = 40 := by
    rw [flatMap_fmt_byte_length, oid.size_eq]
    rfl
  have : git_oid_tostr (GIT_OID_HEXSZ + 1) oid = oid.id.flatMap fmt_byte := by
    unfold git_oid_tostr
    apply List.take_of_length_le
    simp [GIT_OID_HEXSZ, hlen]
  rw [this]
  exact hex_decode_fmt oid.id

theorem quick_list_length (first : git_remote_head) (others : List git_remote_head) :
    (quick_list first others).length + 1 = 41 * (others.length + 1) := by
  unfold quick_list
  induction others with
  | nil => simp [git_oid_tostr_length]
  | cons h t ih =>
    simp only [List.map_cons, List.flatten_cons, List.length_append, List.length_cons,
      git_oid_tostr_length] at ih ⊢
    omega

theorem quick_list_eq_intercalate (first : git_remote_head) (others : List git_remote_head) :
    quick_list first others
      = [';'].intercalate
          ((first :: others).map (fun h => git_oid_tostr (GIT_OID_HEXSZ + 1) h.oid)) := by
  unfold quick_list
  induction others generalizing first with
  | nil => simp [List.intercalate]
  | cons h t ih =>
    have := ih h
    simp only [List.intercalate, List.map_cons, List.intersperse, List.flatten_cons] at this ⊢
    rw [← this]
    simp

/-- For a non-empty advertisement list, with a connection, the default
refspec synthesis (when needed) and the listing succeeding, `git_get_last`
returns 0 and stores a buffer, written within its bounds, that holds a
terminated string; split on `;` the string has one token for each advertised
reference, in order, each token being the 40-character hexadecimal form of
the object id, which hexadecimal decoding turns back into its bytes. -/
theorem quick_list_roundtrip (env : Env) (st : git_remote)
    (hconn : st.connected = true ∨ 0 ≤ env.git_remote_connect)
    (hsetup : st.active_refspecs ≠ [] ∨
      (0 ≤ (env.git_refspec__parse "HEAD" true).1 ∧
        0 ≤ env.dwim_code (env.git_refspec__parse "HEAD" true).2 []))
    (hls : 0 ≤ env.git_remote_ls) (hne : st.heads ≠ []) :
    ∃ buff str, (git_get_last env st).1 = 0 ∧
      (git_get_last env st).2.1 = some (some buff) ∧
      buff.oob = false ∧ buff.cells.length = 41 * st.heads.length ∧
      c_string buff.cells = some str ∧
      str.splitOn ';' = st.heads.map (fun h => git_oid_tostr (GIT_OID_HEXSZ + 1) h.oid) ∧
      ∀ h ∈ st.heads, (git_oid_tostr (GIT_OID_HEXSZ + 1) h.oid).length = 40 ∧
        hex_decode (git_oid_tostr (GIT_OID_HEXSZ + 1) h.oid)
          = some (h.oid.id.map (fun b => b.val)) := by
  obtain ⟨first, others, hheads⟩ : ∃ first others, st.heads = first :: others := by
    cases hh : st.heads with
    | nil => exact absurd hh hne
    | cons a t => exact ⟨a, t, rfl⟩
  have htail : ∀ r : git_remote, r.heads = st.heads →
      (filter_wants_1_tail env r).1
        = some { cells := (quick_list first others ++ [NUL]).map some, oob := false } := by
    intro r hr
    unfold filter_wants_1_tail
    simp only [not_lt.mpr hls, if_false, git_remote.record, hr, hheads, List.length_cons]
    rw [filter_wants_1_loop_full]
  have hfw : ∀ r : git_remote, r.heads = st.heads → r.active_refspecs = st.active_refspecs →
      (filter_wants_1 env r).1
        = some { cells := (quick_list first others ++ [NUL]).map some, oob := false } := by
    intro r hr ha
    unfold filter_wants_1
    by_cases hR : st.active_refspecs = []
    · have h2 : 0 ≤ (env.git_refspec__parse "HEAD" true).1 ∧
          0 ≤ env.dwim_code (env.git_refspec__parse "HEAD" true).2 [] := by
        rcases hsetup with h | h
        · exact absurd hR h
        · exact h
      simp only [git_remote.record, ha, hR, List.length_nil, if_true, not_lt.mpr h2.1, if_false,
        git_refspec__dwim_one, git_remote.deref, List.filterMap_nil, not_lt.mpr h2.2]
      exact htail _ hr
    · have hlen : ¬ (st.active_refspecs.length = 0) := by
        simpa [List.length_eq_zero] using hR
      simp only [git_remote.record, ha, hlen, if_false]
      exact htail _ hr
  have hrun : ∃ r : git_remote, r.heads = st.heads ∧ r.active_refspecs = st.active_refspecs ∧
      git_get_last env st = (0, some (filter_wants_1 env r).1, (filter_wants_1 env r).2) := by
    unfold git_get_last
    by_cases hc : st.connected = true
    · simp only [git_remote.record, hc, Bool.not_true, Bool.false_eq_true, if_false]
      exact ⟨_, by rfl, by rfl, rfl⟩
    · have hc2 : 0 ≤ env.git_remote_connect := by
        rcases hconn with h | h
        · exact absurd h hc
        · exact h
      simp only [Bool.not_eq_true] at hc
      simp only [git_remote.record, hc, Bool.not_false, if_true, not_lt.mpr hc2, if_false]
      exact ⟨_, by rfl, by rfl, rfl⟩
  have hget : (git_get_last env st).1 = 0 ∧ (git_get_last env st).2.1
      = some (some { cells := (quick_list first others ++ [NUL]).map some, oob := false }) := by
    obtain ⟨r, hr, ha, heq⟩ := hrun
    rw [heq]
    exact ⟨rfl, congrArg some (hfw r hr ha)⟩
  have hchars : ∀ c ∈ quick_list first others, c ≠ NUL := by
    intro c hc
    simp only [quick_list, List.mem_append, List.mem_flatten, List.mem_map] at hc
    rcases hc with hc | ⟨l, ⟨h, _, rfl⟩, hc⟩
    · exact (git_oid_tostr_chars _ c hc).2
    · rcases List.mem_cons.mp hc with rfl | hc
      · decide
      · exact (git_oid_tostr_chars _ c hc).2
  refine ⟨_, quick_list first others, hget.1, hget.2, rfl, ?_, ?_, ?_, ?_⟩
  · rw [hheads]
    simp only [List.length_map, List.length_append, List.length_singleton, List.length_cons]
    exact quick_list_length first others
  · simpa using c_string_terminated (quick_list first others) [] hchars
  · rw [quick_list_eq_intercalate, hheads]
    apply List.splitOn_intercalate
    · intro l hl
      simp only [List.mem_map] at hl
      obtain ⟨h, _, rfl⟩ := hl
      intro hmem
      exact (git_oid_tostr_chars _ _ hmem).1 rfl
    · simp
  · intro h _
    exact ⟨git_oid_tostr_length _, hex_decode_tostr _⟩

/-! ## Builds that fail part-way -/

/-- Whatever its result, the loop has appended a prefix of the wanted
pointers, in order; a loop entered with a non-negative `error` that returns a
negative result stopped at a wanted pointer it did not append. -/
theorem filter_wants_loop_initial (env : Env) (odb : git_odb) (tagspec : git_refspec)
    (tagopt : git_remote_autotag_option_t) (ps : List Nat) :
    ∀ (e : Int) (remote : git_remote),
      ∃ s : List Nat,
        (filter_wants_loop env odb tagspec tagopt ps e remote).2.refs = remote.refs ++ s ∧
        s <+: ps.filter (wanted_ptr env tagspec tagopt remote.active_refspecs remote.heads) ∧
        (0 ≤ e → (filter_wants_loop env odb tagspec tagopt ps e remote).1 < 0 →
          s.length < (ps.filter
            (wanted_ptr env tagspec tagopt remote.active_refspecs remote.heads)).length) := by
  induction ps with
  | nil =>
    intro e remote
    refine ⟨[], by simp [filter_wants_loop], List.prefix_refl _, ?_⟩
    intro he hneg
    simp only [filter_wants_loop] at hneg
    exact absurd hneg (not_lt.mpr he)
  | cons p rest ih =>
    intro e remote
    obtain ⟨h1, h2, _⟩ := maybe_want_step env remote p odb tagspec tagopt
    have hwp : wanted_ptr env tagspec tagopt
        (maybe_want env remote p odb tagspec tagopt).2.active_refspecs
        (maybe_want env remote p odb tagspec tagopt).2.heads
          = wanted_ptr env tagspec tagopt remote.active_refspecs remote.heads := by
      funext q
      rw [h1]
      exact wanted_ptr_congr env tagspec tagopt _ h2.2.2.2.2.1 q
    unfold filter_wants_loop
    cases hw : wanted_ptr env tagspec tagopt remote.active_refspecs remote.heads p with
    | false =>
      obtain ⟨x1, x2, _, _, _, _⟩ := maybe_want_skip env remote p odb tagspec tagopt hw
      have hc : ¬ (maybe_want env remote p odb tagspec tagopt).1 < 0 := by
        rw [x1]
        decide
      simp only [hc, if_false]
      obtain ⟨s, i1, i2, i3⟩ := ih (maybe_want env remote p odb tagspec tagopt).1
        (maybe_want env remote p odb tagspec tagopt).2
      rw [hwp] at i2 i3
      refine ⟨s, by rw [i1, x2], ?_, ?_⟩
      · simpa [List.filter_cons, hw] using i2
      · intro _ hneg
        have := i3 (by rw [x1]) hneg
        simpa [List.filter_cons, hw] using this
    | true =>
      obtain ⟨x1, x2, _, _, _⟩ := maybe_want_take env remote p odb tagspec tagopt hw
      by_cases hc : (maybe_want env remote p odb tagspec tagopt).1 < 0
      · simp only [hc, if_true]
        have hc2 : env.vector_insert_code remote.refs p < 0 := x1 ▸ hc
        refine ⟨[], by rw [x2]; simp [hc2], List.nil_prefix, ?_⟩
        intro _ _
        simp [List.filter_cons, hw]
      · simp only [hc, if_false]
        have hc2 : ¬ env.vector_insert_code remote.refs p < 0 := x1 ▸ hc
        obtain ⟨s, i1, i2, i3⟩ := ih (maybe_want env remote p odb tagspec tagopt).1
          (maybe_want env remote p odb tagspec tagopt).2
        rw [hwp] at i2 i3
        refine ⟨p :: s, ?_, ?_, ?_⟩
        · rw [i1, x2]
          simp [hc2]
        · simp only [List.filter_cons, hw, if_true]
          exact (List.prefix_cons_inj p).mpr i2
        · intro _ hneg
          have := i3 (not_lt.mp hc) hneg
          simpa [List.filter_cons, hw] using this

theorem filter_wants_tail_initial (env : Env) (remote : git_remote) (error : Int)
    (tagspec : git_refspec) (tagopt : git_remote_autotag_option_t) :
    ∃ s : List Nat,
      (filter_wants_tail env remote error tagspec tagopt).2.refs = remote.refs ++ s ∧
      s <+: want_ptrs env tagspec tagopt remote.active_refspecs remote.heads ∧
      (0 ≤ error → (filter_wants_tail env remote error tagspec tagopt).1 < 0 →
        s.length < (want_ptrs env tagspec tagopt remote.active_refspecs remote.heads).length) := by
  unfold filter_wants_tail
  by_cases ho : (env.git_repository_odb__weakptr remote.repo).1 < 0
  · refine ⟨[], by simp [ho, git_remote.record], List.nil_prefix, ?_⟩
    intro he hneg
    simp only [ho, if_true] at hneg
    exact absurd hneg (not_lt.mpr he)
  · by_cases hl : env.git_remote_ls < 0
    · refine ⟨[], by simp [ho, hl, git_remote.record], List.nil_prefix, ?_⟩
      intro he hneg
      simp only [ho, hl, if_true, if_false] at hneg
      exact absurd hneg (not_lt.mpr he)
    · simp only [ho, hl, if_false]
      exact filter_wants_loop_initial env _ tagspec tagopt _ error
        ((remote.record (Event.repository_odb remote.repo)).record Event.remote_ls)

/-- The active refspecs after the build: the expansion of the default refspec
against the empty vector when the collection was empty and the set-up steps
succeeded, the collection as it was otherwise. -/
theorem filter_wants_active_refspecs (env : Env) (st : git_remote)
    (opts : Option git_fetch_options) :
    (filter_wants env st opts).2.active_refspecs
      = (if st.active_refspecs = [] ∧ 0 ≤ (env.git_refspec__parse GIT_REFSPEC_TAGS true).1 ∧
            0 ≤ (env.git_refspec__parse "HEAD" true).1 ∧
            0 ≤ env.dwim_code (env.git_refspec__parse "HEAD" true).2 [] then
          [env.dwim_expand (env.git_refspec__parse "HEAD" true).2 []]
        else st.active_refspecs) := by
  by_cases ht : (env.git_refspec__parse GIT_REFSPEC_TAGS true).1 < 0
  · rw [filter_wants_tags_fail env st opts ht]
    simp [not_le.mpr ht, after_tags, git_remote.record]
  · have ht0 := not_lt.mp ht
    by_cases hR : st.active_refspecs = []
    · by_cases hh : (env.git_refspec__parse "HEAD" true).1 < 0
      · rw [filter_wants_head_fail env st opts ht0 hR hh]
        simp [not_le.mpr hh, after_head, after_tags, git_remote.record]
      · have hh0 := not_lt.mp hh
        by_cases hd : env.dwim_code (env.git_refspec__parse "HEAD" true).2 [] < 0
        · rw [filter_wants_dwim_fail env st opts ht0 hR hh0 hd]
          simp [not_le.mpr hd, after_dwim, git_refspec__dwim_one, hd, hR]
        · have hd0 := not_lt.mp hd
          rw [filter_wants_dwim_ok env st opts ht0 hR hh0 hd0,
            (filter_wants_tail_frame env _ _ _ _).1]
          simp [hR, ht0, hh0, hd0, after_dwim, git_refspec__dwim_one, hd]
    · rw [(filter_wants_frame env st opts).2 hR]
      simp [hR]

/-- Whatever its result, the build leaves a prefix of the full want list; a
build that fails after the set-up steps leaves a proper prefix. -/
theorem filter_wants_initial (env : Env) (st : git_remote) (opts : Option git_fetch_options) :
    (filter_wants env st opts).2.refs
        <+: want_ptrs env (env.git_refspec__parse GIT_REFSPEC_TAGS true).2
          (effective_autotag st.download_tags opts)
          (filter_wants env st opts).2.active_refspecs st.heads ∧
      ((filter_wants env st opts).1 < 0 → ¬ setup_fails env st →
        (filter_wants env st opts).2.refs.length
          < (want_ptrs env (env.git_refspec__parse GIT_REFSPEC_TAGS true).2
              (effective_autotag st.download_tags opts)
              (filter_wants env st opts).2.active_refspecs st.heads).length) := by
  have key : ∀ (r0 : git_remote) (e : Int), r0.refs = [] → r0.heads = st.heads → 0 ≤ e →
      (filter_wants_tail env r0 e (env.git_refspec__parse GIT_REFSPEC_TAGS true).2
          (effective_autotag st.download_tags opts)).2.refs
        <+: want_ptrs env (env.git_refspec__parse GIT_REFSPEC_TAGS true).2
          (effective_autotag st.download_tags opts)
          (filter_wants_tail env r0 e (env.git_refspec__parse GIT_REFSPEC_TAGS true).2
            (effective_autotag st.download_tags opts)).2.active_refspecs st.heads ∧
      ((filter_wants_tail env r0 e (env.git_refspec__parse GIT_REFSPEC_TAGS true).2
          (effective_autotag st.download_tags opts)).1 < 0 →
        (filter_wants_tail env r0 e (env.git_refspec__parse GIT_REFSPEC_TAGS true).2
            (effective_autotag st.download_tags opts)).2.refs.length
          < (want_ptrs env (env.git_refspec__parse GIT_REFSPEC_TAGS true).2
              (effective_autotag st.download_tags opts)
              (filter_wants_tail env r0 e (env.git_refspec__parse GIT_REFSPEC_TAGS true).2
                (effective_autotag st.download_tags opts)).2.active_refspecs st.heads).length) := by
    intro r0 e hrefs hheads he
    obtain ⟨s, s1, s2, s3⟩ := filter_wants_tail_initial env r0 e
      (env.git_refspec__parse GIT_REFSPEC_TAGS true).2 (effective_autotag st.download_tags opts)
    rw [(filter_wants_tail_frame env r0 e _ _).1, s1, hrefs, ← hheads]
    exact ⟨by simpa using s2, fun hneg => by simpa using s3 he hneg⟩
  by_cases ht : (env.git_refspec__parse GIT_REFSPEC_TAGS true).1 < 0
  · rw [filter_wants_tags_fail env st opts ht]
    exact ⟨ List.nil_prefix, fun _ hns => absurd (Or.inl ht) hns⟩
  · have ht0 := not_lt.mp ht
    by_cases hR : st.active_refspecs = []
    · by_cases hh : (env.git_refspec__parse "HEAD" true).1 < 0
      · rw [filter_wants_head_fail env st opts ht0 hR hh]
        exact ⟨ List.nil_prefix, fun _ hns => absurd (Or.inr ⟨hR, Or.inl hh⟩) hns⟩
      · have hh0 := not_lt.mp hh
        by_cases hd : env.dwim_code (env.git_refspec__parse "HEAD" true).2 [] < 0
        · rw [filter_wants_dwim_fail env st opts ht0 hR hh0 hd]
          exact ⟨ List.nil_prefix, fun _ hns => absurd (Or.inr ⟨hR, Or.inr hd⟩) hns⟩
        · have hd0 := not_lt.mp hd
          rw [filter_wants_dwim_ok env st opts ht0 hR hh0 hd0]
          obtain ⟨k1, k2⟩ := key (after_dwim env st) _ rfl rfl hd0
          exact ⟨k1, fun hneg _ => k2 hneg⟩
    · rw [filter_wants_active env st opts ht0 hR]
      obtain ⟨k1, k2⟩ := key (after_tags st) _ rfl rfl ht0
      exact ⟨k1, fun hneg _ => k2 hneg⟩

theorem want_ptrs_nodup (env : Env) (tagspec : git_refspec)
    (policy : git_remote_autotag_option_t) (R : List git_refspec)
    (heads : List git_remote_head) : (want_ptrs env tagspec policy R heads).Nodup :=
  (List.nodup_range _).filter _

/-- C14. The want list a build leaves, successful or not, holds no pointer
twice: no advertisement occurs in it more than once. The same holds for the
want list `git_fetch_negotiate` leaves. -/
theorem want_list_has_no_duplicates (env : Env) (st : git_remote)
    (opts : Option git_fetch_options) :
    (filter_wants env st opts).2.refs.Nodup ∧
      (git_fetch_negotiate env st opts).2.refs.Nodup := by
  have h1 : ∀ s : git_remote, (filter_wants env s opts).2.refs.Nodup := fun s =>
    ((filter_wants_initial env s opts).1.sublist).nodup (want_ptrs_nodup _ _ _ _ _)
  refine ⟨h1 st, ?_⟩
  rw [(negotiate_state env st opts).1]
  exact h1 _

/-! ## The layout of the quick-list buffer -/

/-- With the default refspec synthesis (when needed) and the listing
succeeding, `filter_wants_1` returns, for a non-empty listing, the buffer that
holds the quick list and its terminator, every store having fallen inside. -/
theorem filter_wants_1_buffer (env : Env) (st : git_remote) (first : git_remote_head)
    (others : List git_remote_head)
    (hsetup : st.active_refspecs ≠ [] ∨
      (0 ≤ (env.git_refspec__parse "HEAD" true).1 ∧
        0 ≤ env.dwim_code (env.git_refspec__parse "HEAD" true).2 []))
    (hls : 0 ≤ env.git_remote_ls) (hheads : st.heads = first :: others) :
    (filter_wants_1 env st).1
      = some { cells := (quick_list first others ++ [NUL]).map some, oob := false } := by
  have htail : ∀ r : git_remote, r.heads = st.heads →
      (filter_wants_1_tail env r).1
        = some { cells := (quick_list first others ++ [NUL]).map some, oob := false } := by
    intro r hr
    unfold filter_wants_1_tail
    simp only [not_lt.mpr hls, if_false, git_remote.record, hr, hheads, List.length_cons]
    rw [filter_wants_1_loop_full]
  unfold filter_wants_1
  by_cases hR : st.active_refspecs = []
  · have h2 : 0 ≤ (env.git_refspec__parse "HEAD" true).1 ∧
        0 ≤ env.dwim_code (env.git_refspec__parse "HEAD" true).2 [] := by
      rcases hsetup with h | h
      · exact absurd hR h
      · exact h
    simp only [git_remote.record, hR, List.length_nil, if_true, not_lt.mpr h2.1, if_false,
      git_refspec__dwim_one, git_remote.deref, List.filterMap_nil, not_lt.mpr h2.2]
    exact htail _ rfl
  · have hlen : ¬ (st.active_refspecs.length = 0) := by
      simpa [List.length_eq_zero] using hR
    simp only [git_remote.record, hlen, if_false]
    exact htail _ rfl

theorem quick_list_cons (first h : git_remote_head) (t : List git_remote_head) :
    quick_list first (h :: t)
      = git_oid_tostr (GIT_OID_HEXSZ + 1) first.oid ++ ';' :: quick_list h t := by
  simp [quick_list]

theorem git_oid_tostr_count (oid : git_oid) :
    (git_oid_tostr (GIT_OID_HEXSZ + 1) oid).count ';' = 0 :=
  List.count_eq_zero_of_not_mem (fun hmem => (git_oid_tostr_chars oid _ hmem).1 rfl)

theorem quick_list_count (first : git_remote_head) (others : List git_remote_head) :
    (quick_list first others).count ';' = others.length := by
  induction others generalizing first with
  | nil => simp [quick_list, git_oid_tostr_count]
  | cons h t ih =>
    rw [quick_list_cons, List.count_append, git_oid_tostr_count, List.count_cons_self, ih]
    simp

theorem quick_list_separator (others : List git_remote_head) :
    ∀ (first : git_remote_head) (i : Nat), 0 < i → i ≤ others.length →
      (quick_list first others)[41 * i - 1]? = some ';' := by
  induction others with
  | nil =>
    intro first i h1 h2
    simp only [List.length_nil] at h2
    omega
  | cons h t ih =>
    intro first i h1 h2
    rw [quick_list_cons]
    have hlen := git_oid_tostr_length first.oid
    rw [List.getElem?_append_right (by rw [hlen]; omega), hlen]
    rcases Nat.eq_or_lt_of_le h1 with hi0 | hi0
    · subst hi0
      simp
    · have hi : 41 * i - 1 - 40 = (41 * (i - 1) - 1) + 1 := by omega
      rw [hi, List.getElem?_cons_succ]
      exact ih h (i - 1) (by omega) (by simp only [List.length_cons] at h2; omega)

/-- C19. For a listing of `n >= 1` references (the default refspec synthesis,
when needed, and the listing succeeding), `filter_wants_1` returns a buffer of
`41 * n` bytes into which no store fell outside; the buffer holds a
terminated string of length `41 * n - 1` with exactly `n - 1` characters `;`,
one at each index `41 * i - 1` for `0 < i < n`. -/
theorem quick_list_buffer_layout (env : Env) (st : git_remote)
    (hsetup : st.active_refspecs ≠ [] ∨
      (0 ≤ (env.git_refspec__parse "HEAD" true).1 ∧
        0 ≤ env.dwim_code (env.git_refspec__parse "HEAD" true).2 []))
    (hls : 0 ≤ env.git_remote_ls) (hne : 1 ≤ st.heads.length) :
    ∃ buff str, (filter_wants_1 env st).1 = some buff ∧
      buff.cells.length = 41 * st.heads.length ∧ buff.oob = false ∧
      c_string buff.cells = some str ∧ str.length = 41 * st.heads.length - 1 ∧
      str.count ';' = st.heads.length - 1 ∧
      ∀ i, 0 < i → i < st.heads.length → str[41 * i - 1]? = some ';' := by
  obtain ⟨first, others, hheads⟩ : ∃ first others, st.heads = first :: others := by
    cases hh : st.heads with
    | nil => rw [hh] at hne; simp at hne
    | cons a t => exact ⟨a, t, rfl⟩
  have hchars : ∀ c ∈ quick_list first others, c ≠ NUL := by
    intro c hc
    simp only [quick_list, List.mem_append, List.mem_flatten, List.mem_map] at hc
    rcases hc with hc | ⟨l, ⟨h, _, rfl⟩, hc⟩
    · exact (git_oid_tostr_chars _ c hc).2
    · rcases List.mem_cons.mp hc with rfl | hc
      · decide
      · exact (git_oid_tostr_chars _ c hc).2
  have hlen := quick_list_length first others
  refine ⟨_, quick_list first others, filter_wants_1_buffer env st first others hsetup hls hheads,
    ?_, rfl, ?_, ?_, ?_, ?_⟩
  · rw [hheads]
    simp only [List.length_map, List.length_append, List.length_singleton, List.length_cons]
    exact hlen
  · simpa using c_string_terminated (quick_list first others) [] hchars
  · rw [hheads, List.length_cons]
    omega
  · rw [hheads, List.length_cons, quick_list_count]
    simp
  · intro i h1 h2
    rw [hheads, List.length_cons] at h2
    exact quick_list_separator others first i h1 (by omega)

/-- C19, witness: `demo_remote` is advertised three references. -/
theorem quick_list_buffer_layout_witness :
    ((demo_remote.active_refspecs ≠ [] ∨
        (0 ≤ (demo_env.git_refspec__parse "HEAD" true).1 ∧
          0 ≤ demo_env.dwim_code (demo_env.git_refspec__parse "HEAD" true).2 [])) ∧
      0 ≤ demo_env.git_remote_ls ∧ 1 ≤ demo_remote.heads.length) ∧
    ∃ buff str, (filter_wants_1 demo_env demo_remote).1 = some buff ∧
      buff.cells.length = 41 * demo_remote.heads.length ∧ buff.oob = false ∧
      c_string buff.cells = some str ∧ str.length = 41 * demo_remote.heads.length - 1 ∧
      str.count ';' = demo_remote.heads.length - 1 ∧
      ∀ i, 0 < i → i < demo_remote.heads.length → str[41 * i - 1]? = some ';' :=
  ⟨⟨Or.inl (by simp [demo_remote]), by simp [demo_env], by decide⟩,
    quick_list_buffer_layout demo_env demo_remote (Or.inl (by simp [demo_remote]))
      (by simp [demo_env]) (by decide)⟩

/-! ## The marks left on the advertised heads -/

theorem marked_idem (env : Env) (tagspec : git_refspec) (policy : git_remote_autotag_option_t)
    (R : List git_refspec) (odb : git_odb) (h : git_remote_head) :
    marked env tagspec policy R odb (marked env tagspec policy R odb h)
      = marked env tagspec policy R odb h := by
  unfold marked
  by_cases hw : (wanted env tagspec policy R h && odb h.oid) = true
  · simp only [hw, if_true]
    have : (wanted env tagspec policy R { h with «local» := 1 } && odb h.oid) = true := hw
    simp only [this, if_true]
  · rw [Bool.not_eq_true] at hw
    simp [hw]

/-- One step of the loop marks at most the head it looks at. -/
theorem maybe_want_heads (env : Env) (remote : git_remote) (p : Nat) (odb : git_odb)
    (tagspec : git_refspec) (tagopt : git_remote_autotag_option_t) (q : Nat) :
    (maybe_want env remote p odb tagspec tagopt).2.heads[q]?
      = (remote.heads[q]?).map (fun h =>
          if q = p then marked env tagspec tagopt remote.active_refspecs odb h else h) := by
  unfold maybe_want
  cases hg : remote.heads[p]? with
  | none =>
    by_cases hq : q = p
    · subst hq
      simp [hg]
    · simp [hq]
  | some h =>
    by_cases hv : env.git_reference_is_valid_name h.name = true
    · by_cases hm : (maybe_want_match env remote.active_refspecs h.name tagspec tagopt).1 = true
      · by_cases ho : odb h.oid = true
        · simp only [hv, hm, ho, Bool.not_true, Bool.false_eq_true, if_false, if_true]
          rw [List.getElem?_set]
          by_cases hq : p = q
          · subst hq
            have hlt : p < remote.heads.length := by
              rcases Nat.lt_or_ge p remote.heads.length with h1 | h1
              · exact h1
              · rw [List.getElem?_eq_none h1] at hg
                cases hg
            simp [hlt, hg, marked, wanted, hv, ← maybe_want_match_eq, hm, ho]
          · have hq2 : ¬ q = p := fun h => hq h.symm
            simp [hq, hq2]
        · simp only [hv, hm, ho, Bool.not_true, Bool.false_eq_true, if_false]
          by_cases hq : q = p
          · subst hq
            simp [hg, marked, ho]
          · simp [hq]
      · have hm2 : (maybe_want_match env remote.active_refspecs h.name tagspec tagopt).1
            = false := by simpa using hm
        simp only [hv, hm2, Bool.not_true, Bool.false_eq_true, if_false, Bool.not_false, if_true]
        by_cases hq : q = p
        · subst hq
          simp [hg, marked, wanted, ← maybe_want_match_eq, hm2]
        · simp [hq]
    · simp only [Bool.not_eq_true] at hv
      simp only [hv, Bool.not_false, if_true, git_remote.record]
      by_cases hq : q = p
      · subst hq
        simp [hg, marked, wanted, hv]
      · simp [hq]

/-- The loop marks the heads it has looked at, a prefix of the listing that is
the whole listing when the result is not negative. -/
theorem filter_wants_loop_heads (env : Env) (odb : git_odb) (tagspec : git_refspec)
    (tagopt : git_remote_autotag_option_t) (ps : List Nat) :
    ∀ (e : Int) (remote : git_remote),
      ∃ done : List Nat, done <+: ps ∧
        (0 ≤ (filter_wants_loop env odb tagspec tagopt ps e remote).1 → done = ps) ∧
        ∀ q, (filter_wants_loop env odb tagspec tagopt ps e remote).2.heads[q]?
          = (remote.heads[q]?).map (fun h =>
              if q ∈ done then marked env tagspec tagopt remote.active_refspecs odb h else h) := by
  induction ps with
  | nil =>
    intro e remote
    refine ⟨[], List.prefix_refl _, fun _ => rfl, fun q => ?_⟩
    simp [filter_wants_loop]
  | cons p rest ih =>
    intro e remote
    obtain ⟨h1, _, _⟩ := maybe_want_step env remote p odb tagspec tagopt
    unfold filter_wants_loop
    by_cases hc : (maybe_want env remote p odb tagspec tagopt).1 < 0
    · simp only [hc, if_true]
      refine ⟨[p], by simp, fun h0 => absurd h0 (not_le.mpr hc), fun q => ?_⟩
      rw [maybe_want_heads]
      simp
    · simp only [hc, if_false]
      obtain ⟨done, d1, d2, d3⟩ := ih (maybe_want env remote p odb tagspec tagopt).1
        (maybe_want env remote p odb tagspec tagopt).2
      refine ⟨p :: done, (List.prefix_cons_inj p).mpr d1, fun h0 => by rw [d2 h0], fun q => ?_⟩
      rw [d3 q, h1, maybe_want_heads, Option.map_map]
      congr 1
      funext h
      by_cases hq : q = p
      · subst hq
        by_cases hd : q ∈ done
        · simp [hd, marked_idem]
        · simp [hd]
      · by_cases hd : q ∈ done
        · simp [hq, hd]
        · simp [hq, hd]

/-- Whatever its result, the tail of the build leaves each head as it was or
marked; when the result is not negative every head is marked if the store and
the listing were obtained, and left as it was otherwise. -/
theorem filter_wants_tail_heads (env : Env) (remote : git_remote) (error : Int)
    (tagspec : git_refspec) (tagopt : git_remote_autotag_option_t) :
    (∀ (q : Nat) (h : git_remote_head), remote.heads[q]? = some h →
      (filter_wants_tail env remote error tagspec tagopt).2.heads[q]? = some h ∨
      (filter_wants_tail env remote error tagspec tagopt).2.heads[q]?
        = some (marked env tagspec tagopt remote.active_refspecs
            (env.git_repository_odb__weakptr remote.repo).2 h)) ∧
    (0 ≤ (filter_wants_tail env remote error tagspec tagopt).1 →
      ∀ q : Nat, (filter_wants_tail env remote error tagspec tagopt).2.heads[q]?
        = (remote.heads[q]?).map (fun h =>
            if listing_ok env remote.repo then
              marked env tagspec tagopt remote.active_refspecs
                (env.git_repository_odb__weakptr remote.repo).2 h
            else h)) := by
  unfold filter_wants_tail
  by_cases ho : (env.git_repository_odb__weakptr remote.repo).1 < 0
  · have hno : listing_ok env remote.repo = false := by simp [listing_ok, ho]
    simp only [ho, if_true, git_remote.record, hno]
    constructor
    · intro q h hq
      exact Or.inl hq
    · intro _ q
      cases remote.heads[q]? <;> rfl
  · by_cases hl : env.git_remote_ls < 0
    · have hno : listing_ok env remote.repo = false := by simp [listing_ok, hl]
      simp only [ho, hl, if_true, if_false, git_remote.record, hno]
      constructor
      · intro q h hq
        exact Or.inl hq
      · intro _ q
        cases remote.heads[q]? <;> rfl
    · have hok : listing_ok env remote.repo = true := by
        simp [listing_ok, not_lt.mp ho, not_lt.mp hl]
      simp only [ho, hl, if_false, hok, if_true]
      obtain ⟨done, _, d2, d3⟩ := filter_wants_loop_heads env
        (env.git_repository_odb__weakptr remote.repo).2 tagspec tagopt
        (List.range ((remote.record (Event.repository_odb remote.repo)).record
          Event.remote_ls).heads.length) error
        ((remote.record (Event.repository_odb remote.repo)).record Event.remote_ls)
      constructor
      · intro q h hq
        have := d3 q
        simp only [git_remote.record] at this
        rw [hq] at this
        by_cases hd : q ∈ done
        · right
          simpa [hd, git_remote.record] using this
        · left
          simpa [hd, git_remote.record] using this
      · intro h0 q
        have hd := d2 h0
        rw [d3 q, hd]
        simp only [git_remote.record, List.mem_range]
        cases hg : remote.heads[q]? with
        | none => rfl
        | some h =>
          have hlt : q < remote.heads.length := by
            rcases Nat.lt_or_ge q remote.heads.length with h1 | h1
            · exact h1
            · rw [List.getElem?_eq_none h1] at hg
              cases hg
          simp [hlt]

/-- Whatever its result, the build leaves each head as it was or marked; after
a build whose result is not negative every head is marked if the store and
the listing were obtained, and left as it was otherwise. -/
theorem filter_wants_heads (env : Env) (st : git_remote) (opts : Option git_fetch_options) :
    (∀ (q : Nat) (h : git_remote_head), st.heads[q]? = some h →
      (filter_wants env st opts).2.heads[q]? = some h ∨
      (filter_wants env st opts).2.heads[q]?
        = some (marked env (env.git_refspec__parse GIT_REFSPEC_TAGS true).2
            (effective_autotag st.download_tags opts)
            (filter_wants env st opts).2.active_refspecs
            (env.git_repository_odb__weakptr st.repo).2 h)) ∧
    (0 ≤ (filter_wants env st opts).1 →
      ∀ q : Nat, (filter_wants env st opts).2.heads[q]?
        = (st.heads[q]?).map (fun h =>
            if listing_ok env st.repo then
              marked env (env.git_refspec__parse GIT_REFSPEC_TAGS true).2
                (effective_autotag st.download_tags opts)
                (filter_wants env st opts).2.active_refspecs
                (env.git_repository_odb__weakptr st.repo).2 h
            else h)) := by
  have key : ∀ (r0 : git_remote) (e : Int), r0.repo = st.repo → r0.heads = st.heads →
      filter_wants env st opts
        = filter_wants_tail env r0 e (env.git_refspec__parse GIT_REFSPEC_TAGS true).2
            (effective_autotag st.download_tags opts) →
      (∀ (q : Nat) (h : git_remote_head), st.heads[q]? = some h →
        (filter_wants env st opts).2.heads[q]? = some h ∨
        (filter_wants env st opts).2.heads[q]?
          = some (marked env (env.git_refspec__parse GIT_REFSPEC_TAGS true).2
              (effective_autotag st.download_tags opts)
              (filter_wants env st opts).2.active_refspecs
              (env.git_repository_odb__weakptr st.repo).2 h)) ∧
      (0 ≤ (filter_wants env st opts).1 →
        ∀ q : Nat, (filter_wants env st opts).2.heads[q]?
          = (st.heads[q]?).map (fun h =>
              if listing_ok env st.repo then
                marked env (env.git_refspec__parse GIT_REFSPEC_TAGS true).2
                  (effective_autotag st.download_tags opts)
                  (filter_wants env st opts).2.active_refspecs
                  (env.git_repository_odb__weakptr st.repo).2 h
              else h)) := by
    intro r0 e hrepo hheads heq
    obtain ⟨t1, t2⟩ := filter_wants_tail_heads env r0 e
      (env.git_refspec__parse GIT_REFSPEC_TAGS true).2 (effective_autotag st.download_tags opts)
    have hact := (filter_wants_tail_frame env r0 e
      (env.git_refspec__parse GIT_REFSPEC_TAGS true).2
      (effective_autotag st.download_tags opts)).1
    rw [heq, hact]
    rw [hrepo, hheads] at t1 t2
    exact ⟨t1, t2⟩
  have early : ∀ (c : Int) (r0 : git_remote), c < 0 → r0.heads = st.heads →
      filter_wants env st opts = (c, r0) →
      (∀ (q : Nat) (h : git_remote_head), st.heads[q]? = some h →
        (filter_wants env st opts).2.heads[q]? = some h ∨
        (filter_wants env st opts).2.heads[q]?
          = some (marked env (env.git_refspec__parse GIT_REFSPEC_TAGS true).2
              (effective_autotag st.download_tags opts)
              (filter_wants env st opts).2.active_refspecs
              (env.git_repository_odb__weakptr st.repo).2 h)) ∧
      (0 ≤ (filter_wants env st opts).1 →
        ∀ q : Nat, (filter_wants env st opts).2.heads[q]?
          = (st.heads[q]?).map (fun h =>
              if listing_ok env st.repo then
                marked env (env.git_refspec__parse GIT_REFSPEC_TAGS true).2
                  (effective_autotag st.download_tags opts)
                  (filter_wants env st opts).2.active_refspecs
                  (env.git_repository_odb__weakptr st.repo).2 h
              else h)) := by
    intro c r0 hc hheads heq
    rw [heq]
    constructor
    · intro q h hq
      left
      show r0.heads[q]? = some h
      rw [hheads]
      exact hq
    · intro h0
      exact absurd h0 (not_le.mpr hc)
  by_cases ht : (env.git_refspec__parse GIT_REFSPEC_TAGS true).1 < 0
  · exact early _ (after_tags st) ht rfl (filter_wants_tags_fail env st opts ht)
  · have ht0 := not_lt.mp ht
    by_cases hR : st.active_refspecs = []
    · by_cases hh : (env.git_refspec__parse "HEAD" true).1 < 0
      · exact early _ (after_head st) hh rfl (filter_wants_head_fail env st opts ht0 hR hh)
      · have hh0 := not_lt.mp hh
        by_cases hd : env.dwim_code (env.git_refspec__parse "HEAD" true).2 [] < 0
        · exact early _ (after_dwim env st) hd rfl (filter_wants_dwim_fail env st opts ht0 hR hh0 hd)
        · exact key (after_dwim env st) _ rfl rfl
            (filter_wants_dwim_ok env st opts ht0 hR hh0 (not_lt.mp hd))
    · exact key (after_tags st) _ rfl rfl (filter_wants_active env st opts ht0 hR)

theorem mem_want_ptrs_iff (env : Env) (tagspec : git_refspec)
    (policy : git_remote_autotag_option_t) (R : List git_refspec)
    (heads : List git_remote_head) (p : Nat) (h : git_remote_head) (hp : heads[p]? = some h) :
    p ∈ want_ptrs env tagspec policy R heads ↔ wanted env tagspec policy R h = true := by
  have hlt : p < heads.length := by
    rcases Nat.lt_or_ge p heads.length with h1 | h1
    · exact h1
    · rw [List.getElem?_eq_none h1] at hp
      cases hp
  simp [want_ptrs, List.mem_filter, hlt, wanted_ptr, hp]

/-- C13, counter-example: the one head of `stale_remote` carries a local mark
before the call and its object is missing from the store. After a successful
build it is in the want list with its mark still set, and `need_pack` is set
although no entry of the want list has a cleared mark. -/
theorem stale_mark_survives :
    0 ≤ (filter_wants demo_env { stale_remote with need_pack := 0 } none).1 ∧
    ¬ (∀ p ∈ (git_fetch_negotiate demo_env stale_remote none).2.refs,
        ∀ h : git_remote_head,
          (git_fetch_negotiate demo_env stale_remote none).2.heads[p]? = some h →
          (h.«local» ≠ 0 ↔
            (demo_env.git_repository_odb__weakptr stale_remote.repo).2 h.oid = true)) ∧
    ¬ ((git_fetch_negotiate demo_env stale_remote none).2.need_pack ≠ 0 ↔
        ∃ p ∈ (git_fetch_negotiate demo_env stale_remote none).2.refs,
          ∃ h : git_remote_head,
            (git_fetch_negotiate demo_env stale_remote none).2.heads[p]? = some h ∧
              h.«local» = 0) := by
  have hrefs : (git_fetch_negotiate demo_env stale_remote none).2.refs = [0] := by decide
  have hh : (git_fetch_negotiate demo_env stale_remote none).2.heads[0]?
      = some { «local» := 1, oid := oid_of 1, name := "refs/heads/main" } := by decide
  have hneed : (git_fetch_negotiate demo_env stale_remote none).2.need_pack = 1 := by decide
  refine ⟨by decide, ?_, ?_⟩
  · intro H
    have := (H 0 (by rw [hrefs]; simp) _ hh).mp (by decide)
    revert this
    decide
  · intro H
    obtain ⟨p, hp, h, e1, e2⟩ := H.mp (by rw [hneed]; decide)
    rw [hrefs] at hp
    simp only [List.mem_singleton] at hp
    subst hp
    rw [hh] at e1
    have := Option.some.inj e1
    subst this
    revert e2
    decide

/-- C13, as amended. When no matched head whose object is missing from the
store carries a local mark before the call (as when every mark is cleared),
after a successful build run by `git_fetch_negotiate` each entry of the want
list carries a local mark exactly when the store holds its object, and
`need_pack` is set exactly when some entry of the want list carries no local
mark. -/
theorem local_marks_after_fresh_build (env : Env) (st : git_remote)
    (opts : Option git_fetch_options)
    (h0 : 0 ≤ (filter_wants env { st with need_pack := 0 } opts).1)
    (hfresh : ∀ h ∈ st.heads,
      wanted env (env.git_refspec__parse GIT_REFSPEC_TAGS true).2
        (effective_autotag st.download_tags opts)
        (filter_wants env { st with need_pack := 0 } opts).2.active_refspecs h = true →
      (env.git_repository_odb__weakptr st.repo).2 h.oid = false → h.«local» = 0) :
    (∀ p ∈ (git_fetch_negotiate env st opts).2.refs, ∀ h : git_remote_head,
      (git_fetch_negotiate env st opts).2.heads[p]? = some h →
      (h.«local» ≠ 0 ↔ (env.git_repository_odb__weakptr st.repo).2 h.oid = true)) ∧
    ((git_fetch_negotiate env st opts).2.need_pack ≠ 0 ↔
      ∃ p ∈ (git_fetch_negotiate env st opts).2.refs, ∃ h : git_remote_head,
        (git_fetch_negotiate env st opts).2.heads[p]? = some h ∧ h.«local» = 0) := by
  obtain ⟨n1, n2, n3, _⟩ := negotiate_state env st opts
  obtain ⟨p1, p2⟩ := filter_wants_ok env { st with need_pack := 0 } opts h0
  have hh := (filter_wants_heads env { st with need_pack := 0 } opts).2 h0
  rw [n1, n2, n3]
  have hrepo : ({ st with need_pack := 0 } : git_remote).repo = st.repo := rfl
  have hheads : ({ st with need_pack := 0 } : git_remote).heads = st.heads := rfl
  have htags : ({ st with need_pack := 0 } : git_remote).download_tags = st.download_tags := rfl
  rw [hrepo, hheads, htags] at p1 p2 hh
  have entry : ∀ p ∈ (filter_wants env { st with need_pack := 0 } opts).2.refs,
      ∀ h2 : git_remote_head,
      (filter_wants env { st with need_pack := 0 } opts).2.heads[p]? = some h2 →
      (h2.«local» ≠ 0 ↔ (env.git_repository_odb__weakptr st.repo).2 h2.oid = true) ∧
      (absent_ptr (env.git_repository_odb__weakptr st.repo).2 st.heads p = true
        ↔ h2.«local» = 0) := by
    intro p hp h2 hg
    rw [p1] at hp
    cases hok : listing_ok env st.repo with
    | false => simp [hok] at hp
    | true =>
      simp only [hok, if_true] at hp
      rw [hh p] at hg
      simp only [hok, if_true] at hg
      cases hs : st.heads[p]? with
      | none => simp [hs] at hg
      | some h =>
        rw [hs] at hg
        have hw := (mem_want_ptrs_iff env _ _ _ st.heads p h hs).mp hp
        have hm : h2 = marked env (env.git_refspec__parse GIT_REFSPEC_TAGS true).2
            (effective_autotag st.download_tags opts)
            (filter_wants env { st with need_pack := 0 } opts).2.active_refspecs
            (env.git_repository_odb__weakptr st.repo).2 h := by
          simpa using hg.symm
        have hmem : h ∈ st.heads := List.getElem?_mem hs
        subst hm
        cases ho : (env.git_repository_odb__weakptr st.repo).2 h.oid with
        | true => simp [marked, hw, ho, absent_ptr, hs]
        | false =>
          have hl := hfresh h hmem hw ho
          simp [marked, hw, ho, absent_ptr, hs, hl]
  refine ⟨fun p hp h2 hg => (entry p hp h2 hg).1, ?_⟩
  have hnp : (filter_wants env { st with need_pack := 0 } opts).2.need_pack ≠ 0 ↔
      ∃ p ∈ (filter_wants env { st with need_pack := 0 } opts).2.refs,
        absent_ptr (env.git_repository_odb__weakptr st.repo).2 st.heads p = true := by
    rw [p1, p2]
    cases hok : listing_ok env st.repo with
    | false => simp
    | true =>
      simp only [Bool.true_and, if_true]
      by_cases hany : (want_ptrs env (env.git_refspec__parse GIT_REFSPEC_TAGS true).2
          (effective_autotag st.download_tags opts)
          (filter_wants env { st with need_pack := 0 } opts).2.active_refspecs st.heads).any
          (absent_ptr (env.git_repository_odb__weakptr st.repo).2 st.heads) = true
      · simp only [hany, if_true]
        simpa [List.any_eq_true] using hany
      · simp only [hany]
        simpa [List.any_eq_true] using hany
  rw [hnp]
  constructor
  · rintro ⟨p, hp, hab⟩
    obtain ⟨h, hs, _⟩ := (absent_ptr_iff _ _ _).mp hab
    have hk := getElem?_key_of_map_eq
      (filter_wants_frame env { st with need_pack := 0 } opts).1.2.2.2.2.1 p
    rw [hheads, hs] at hk
    cases hg : (filter_wants env { st with need_pack := 0 } opts).2.heads[p]? with
    | none => simp [hg] at hk
    | some h2 => exact ⟨p, hp, h2, hg, ((entry p hp h2 hg).2).mp hab⟩
  · rintro ⟨p, hp, h2, hg, hl⟩
    exact ⟨p, hp, ((entry p hp h2 hg).2).mpr hl⟩

/-- C13, witness: the build on `demo_remote` succeeds and none of its heads
carries a mark. -/
theorem local_marks_after_fresh_build_witness :
    0 ≤ (filter_wants demo_env { demo_remote with need_pack := 0 } none).1 ∧
    ((∀ p ∈ (git_fetch_negotiate demo_env demo_remote none).2.refs, ∀ h : git_remote_head,
      (git_fetch_negotiate demo_env demo_remote none).2.heads[p]? = some h →
      (h.«local» ≠ 0 ↔
        (demo_env.git_repository_odb__weakptr demo_remote.repo).2 h.oid = true)) ∧
    ((git_fetch_negotiate demo_env demo_remote none).2.need_pack ≠ 0 ↔
      ∃ p ∈ (git_fetch_negotiate demo_env demo_remote none).2.refs, ∃ h : git_remote_head,
        (git_fetch_negotiate demo_env demo_remote none).2.heads[p]? = some h ∧
          h.«local» = 0)) :=
  ⟨by decide,
    local_marks_after_fresh_build demo_env demo_remote none (by decide)
      (by
        intro h hmem _ _
        simp only [demo_remote, List.mem_cons, List.mem_singleton, List.not_mem_nil,
          or_false] at hmem
        rcases hmem with rfl | rfl | rfl <;> rfl)⟩

/-! ## The state a failed build leaves -/

/-- C15, counter-example: under `tight_env` and the policy `All` the branch of
`demo_remote`, missing from the store, is inserted and the insertion of the
tag then fails. `git_fetch_negotiate` returns -1 and leaves a want list of one
entry with `need_pack` set: neither the rebuilt list of two entries nor the
reset state. -/
theorem failed_insertion_leaves_partial_state :
    (filter_wants tight_env { demo_remote with need_pack := 0 } all_tags).1 < 0 ∧
    (git_fetch_negotiate tight_env demo_remote all_tags).1 = -1 ∧
    (git_fetch_negotiate tight_env demo_remote all_tags).2.refs = [0] ∧
    (git_fetch_negotiate tight_env demo_remote all_tags).2.need_pack = 1 ∧
    want_ptrs tight_env (tight_env.git_refspec__parse GIT_REFSPEC_TAGS true).2
      (effective_autotag demo_remote.download_tags all_tags)
      (git_fetch_negotiate tight_env demo_remote all_tags).2.active_refspecs
      demo_remote.heads = [0, 1] ∧
    ¬ ((git_fetch_negotiate tight_env demo_remote all_tags).2.refs
          = want_ptrs tight_env (tight_env.git_refspec__parse GIT_REFSPEC_TAGS true).2
              (effective_autotag demo_remote.download_tags all_tags)
              (git_fetch_negotiate tight_env demo_remote all_tags).2.active_refspecs
              demo_remote.heads ∨
        ((git_fetch_negotiate tight_env demo_remote all_tags).2.refs = [] ∧
          (git_fetch_negotiate tight_env demo_remote all_tags).2.need_pack = 0)) := by
  decide

/-! ## The policy `All` against the others -/

theorem wanted_all_of_wanted (env : Env) (tagspec : git_refspec)
    (policy : git_remote_autotag_option_t) (R : List git_refspec) (h : git_remote_head)
    (hw : wanted env tagspec policy R h = true) :
    wanted env tagspec GIT_REMOTE_DOWNLOAD_TAGS_ALL R h = true := by
  simp only [wanted, head_matches, Bool.and_eq_true, Bool.or_eq_true, decide_eq_true_eq] at hw ⊢
  rcases hw with ⟨hv, ⟨_, ht⟩ | hr⟩
  · exact ⟨hv, Or.inl ⟨trivial, ht⟩⟩
  · exact ⟨hv, Or.inr hr⟩

/-- C17, counter-example: under `tight_env`, for `tag_first_remote`, the build
under the stored policy succeeds with the branch as want list, while under
`All` the tag is inserted and the insertion of the branch fails: the want list
under `All` does not contain the other one. -/
theorem all_policy_may_hold_less :
    (git_fetch_negotiate tight_env tag_first_remote none).2.refs = [1] ∧
    (git_fetch_negotiate tight_env tag_first_remote all_tags).2.refs = [0] ∧
    ¬ List.Sublist (git_fetch_negotiate tight_env tag_first_remote none).2.refs
        (git_fetch_negotiate tight_env tag_first_remote all_tags).2.refs := by
  decide

/-! ## The synthesis of the default refspec -/

theorem matching_head_calls (env : Env) (name : String) (R : List git_refspec) :
    ∀ e ∈ (git_remote__matching_refspec env name R).2, is_head_call e = true := by
  induction R with
  | nil => intro e he; simp [git_remote__matching_refspec] at he
  | cons spec rest ih =>
    intro e he
    by_cases hm : env.git_refspec_src_matches spec name = true
    · simp only [git_remote__matching_refspec, hm, if_true, List.mem_singleton] at he
      subst he
      rfl
    · have hm2 : env.git_refspec_src_matches spec name = false := by simpa using hm
      have hcons : (git_remote__matching_refspec env name (spec :: rest)).2
          = Event.refspec_src_matches spec name ::
            (git_remote__matching_refspec env name rest).2 := by
        simp [git_remote__matching_refspec, hm2]
      rw [hcons] at he
      rcases List.mem_cons.mp he with he | he
      · rw [he]
        rfl
      · exact ih e he

theorem maybe_want_match_head_calls (env : Env) (R : List git_refspec) (name : String)
    (tagspec : git_refspec) (tagopt : git_remote_autotag_option_t) :
    ∀ e ∈ (maybe_want_match env R name tagspec tagopt).2, is_head_call e = true := by
  intro e he
  unfold maybe_want_match at he
  by_cases ht : tagopt = GIT_REMOTE_DOWNLOAD_TAGS_ALL
  · by_cases hm : env.git_refspec_src_matches tagspec name = true
    · simp only [ht, hm, if_true, Bool.not_true, Bool.false_eq_true, if_false,
        List.mem_singleton] at he
      subst he
      rfl
    · simp only [ht, if_true, Bool.not_eq_true] at hm he
      simp only [hm, Bool.not_false, if_true, List.singleton_append, List.mem_cons] at he
      rcases he with rfl | he
      · rfl
      · exact matching_head_calls env name R e he
  · simp only [ht, if_false, Bool.not_false, if_true, List.nil_append] at he
    exact matching_head_calls env name R e he

/-- One step of the loop adds to the trace only calls made for the head it
looks at. -/
theorem maybe_want_trace (env : Env) (remote : git_remote) (p : Nat) (odb : git_odb)
    (tagspec : git_refspec) (tagopt : git_remote_autotag_option_t) :
    ∃ evs, (maybe_want env remote p odb tagspec tagopt).2.trace = remote.trace ++ evs ∧
      ∀ e ∈ evs, is_head_call e = true := by
  unfold maybe_want
  cases hg : remote.heads[p]? with
  | none => exact ⟨[], by simp, by simp⟩
  | some h =>
    by_cases hv : env.git_reference_is_valid_name h.name = true
    · by_cases hm : (maybe_want_match env remote.active_refspecs h.name tagspec tagopt).1 = true
      · simp only [hv, hm, Bool.not_true, Bool.false_eq_true, if_false]
        refine ⟨(Event.reference_is_valid_name h.name ::
          (maybe_want_match env remote.active_refspecs h.name tagspec tagopt).2) ++
          [Event.odb_exists h.oid, Event.vector_insert p], by simp, ?_⟩
        intro e he
        simp only [List.cons_append, List.mem_cons, List.mem_append, List.mem_singleton,
          List.not_mem_nil, or_false] at he
        rcases he with rfl | he | rfl | rfl
        · rfl
        · exact maybe_want_match_head_calls _ _ _ _ _ e he
        · rfl
        · rfl
      · have hm2 : (maybe_want_match env remote.active_refspecs h.name tagspec tagopt).1
            = false := by simpa using hm
        simp only [hv, hm2, Bool.not_true, Bool.false_eq_true, if_false, Bool.not_false, if_true]
        refine ⟨Event.reference_is_valid_name h.name ::
          (maybe_want_match env remote.active_refspecs h.name tagspec tagopt).2, rfl, ?_⟩
        intro e he
        rcases List.mem_cons.mp he with rfl | he
        · rfl
        · exact maybe_want_match_head_calls _ _ _ _ _ e he
    · simp only [Bool.not_eq_true] at hv
      simp only [hv, Bool.not_false, if_true, git_remote.record]
      refine ⟨[Event.reference_is_valid_name h.name], rfl, ?_⟩
      intro e he
      rw [List.mem_singleton.mp he]
      rfl

theorem filter_wants_loop_trace (env : Env) (odb : git_odb) (tagspec : git_refspec)
    (tagopt : git_remote_autotag_option_t) (ps : List Nat) :
    ∀ (e : Int) (remote : git_remote),
      ∃ evs, (filter_wants_loop env odb tagspec tagopt ps e remote).2.trace
          = remote.trace ++ evs ∧ ∀ ev ∈ evs, is_head_call ev = true := by
  induction ps with
  | nil => intro e remote; exact ⟨[], by simp [filter_wants_loop], by simp⟩
  | cons p rest ih =>
    intro e remote
    obtain ⟨evs1, t1, c1⟩ := maybe_want_trace env remote p odb tagspec tagopt
    unfold filter_wants_loop
    by_cases hc : (maybe_want env remote p odb tagspec tagopt).1 < 0
    · simp only [hc, if_true]
      exact ⟨evs1, t1, c1⟩
    · simp only [hc, if_false]
      obtain ⟨evs2, t2, c2⟩ := ih (maybe_want env remote p odb tagspec tagopt).1
        (maybe_want env remote p odb tagspec tagopt).2
      refine ⟨evs1 ++ evs2, by rw [t2, t1, List.append_assoc], ?_⟩
      intro ev hev
      rcases List.mem_append.mp hev with h | h
      · exact c1 ev h
      · exact c2 ev h

/-- The tail of the build runs no expansion. -/
theorem filter_wants_tail_no_dwim (env : Env) (remote : git_remote) (error : Int)
    (tagspec : git_refspec) (tagopt : git_remote_autotag_option_t) :
    (filter_wants_tail env remote error tagspec tagopt).2.trace.filter is_dwim
      = remote.trace.filter is_dwim := by
  unfold filter_wants_tail
  by_cases ho : (env.git_repository_odb__weakptr remote.repo).1 < 0
  · simp [ho, git_remote.record, is_dwim]
  · by_cases hl : env.git_remote_ls < 0
    · simp [ho, hl, git_remote.record, is_dwim]
    · simp only [ho, hl, if_false]
      obtain ⟨evs, t1, c1⟩ := filter_wants_loop_trace env
        (env.git_repository_odb__weakptr remote.repo).2 tagspec tagopt
        (List.range ((remote.record (Event.repository_odb remote.repo)).record
          Event.remote_ls).heads.length) error
        ((remote.record (Event.repository_odb remote.repo)).record Event.remote_ls)
      rw [t1]
      have hnil : evs.filter is_dwim = [] := by
        rw [List.filter_eq_nil_iff]
        intro ev hev
        have := c1 ev hev
        cases ev <;> simp [is_head_call, is_dwim] at this ⊢
      simp [git_remote.record, is_dwim, hnil]

/-- C16, counter-example: `head_remote` has no active refspec and is
advertised the branch `refs/heads/HEAD`. Both `filter_wants` and
`filter_wants_1` hand the expansion the want list, which they have just
cleared, so that the refspec added to the active collection is not the
expansion of `HEAD` against the advertisement list. -/
theorem default_refspec_expanded_against_empty_list :
    head_remote.active_refspecs = [] ∧
    (filter_wants head_env head_remote none).2.active_refspecs
      ≠ (git_refspec__dwim_one head_env [] (head_env.git_refspec__parse "HEAD" true).2
          head_remote.heads).2 ∧
    (filter_wants_1 head_env head_remote).2.active_refspecs
      ≠ (git_refspec__dwim_one head_env [] (head_env.git_refspec__parse "HEAD" true).2
          head_remote.heads).2 ∧
    Event.refspec_dwim_one (head_env.git_refspec__parse "HEAD" true).2 []
      ∈ (filter_wants head_env head_remote none).2.trace ∧
    Event.refspec_dwim_one (head_env.git_refspec__parse "HEAD" true).2 []
      ∈ (filter_wants_1 head_env head_remote).2.trace := by
  decide

theorem filter_wants_no_dwim (env : Env) (st : git_remote) (opts : Option git_fetch_options) :
    (filter_wants env st opts).2.trace.filter is_dwim
      = st.trace.filter is_dwim ++
        (if st.active_refspecs = [] ∧ 0 ≤ (env.git_refspec__parse GIT_REFSPEC_TAGS true).1 ∧
            0 ≤ (env.git_refspec__parse "HEAD" true).1 then
          [Event.refspec_dwim_one (env.git_refspec__parse "HEAD" true).2 []]
        else []) := by
  by_cases ht : (env.git_refspec__parse GIT_REFSPEC_TAGS true).1 < 0
  · rw [filter_wants_tags_fail env st opts ht]
    simp [not_le.mpr ht, after_tags, git_remote.record, is_dwim]
  · have ht0 := not_lt.mp ht
    by_cases hR : st.active_refspecs = []
    · by_cases hh : (env.git_refspec__parse "HEAD" true).1 < 0
      · rw [filter_wants_head_fail env st opts ht0 hR hh]
        simp [not_le.mpr hh, after_head, after_tags, git_remote.record, is_dwim]
      · have hh0 := not_lt.mp hh
        by_cases hd : env.dwim_code (env.git_refspec__parse "HEAD" true).2 [] < 0
        · rw [filter_wants_dwim_fail env st opts ht0 hR hh0 hd]
          simp [hR, ht0, hh0, after_dwim, after_head, after_tags, git_remote.record, is_dwim]
        · rw [filter_wants_dwim_ok env st opts ht0 hR hh0 (not_lt.mp hd),
            filter_wants_tail_no_dwim]
          simp [hR, ht0, hh0, after_dwim, after_head, after_tags, git_remote.record, is_dwim]
    · rw [filter_wants_active env st opts ht0 hR, filter_wants_tail_no_dwim]
      simp [hR, after_tags, git_remote.record, is_dwim]

theorem filter_wants_1_synthesis (env : Env) (st : git_remote) :
    (filter_wants_1 env st).2.active_refspecs
        = (if st.active_refspecs = [] ∧ 0 ≤ (env.git_refspec__parse "HEAD" true).1 ∧
              0 ≤ env.dwim_code (env.git_refspec__parse "HEAD" true).2 [] then
            [env.dwim_expand (env.git_refspec__parse "HEAD" true).2 []]
          else st.active_refspecs) ∧
      (filter_wants_1 env st).2.trace.filter is_dwim
        = st.trace.filter is_dwim ++
          (if st.active_refspecs = [] ∧ 0 ≤ (env.git_refspec__parse "HEAD" true).1 then
            [Event.refspec_dwim_one (env.git_refspec__parse "HEAD" true).2 []]
          else []) := by
  have htail : ∀ r : git_remote, (filter_wants_1_tail env r).2.active_refspecs
      = r.active_refspecs ∧
      (filter_wants_1_tail env r).2.trace.filter is_dwim = r.trace.filter is_dwim := by
    intro r
    unfold filter_wants_1_tail
    by_cases hl : env.git_remote_ls < 0
    · simp [hl, git_remote.record, is_dwim]
    · simp [hl, git_remote.record, is_dwim]
  unfold filter_wants_1
  by_cases hR : st.active_refspecs = []
  · by_cases hh : (env.git_refspec__parse "HEAD" true).1 < 0
    · simp [git_remote.record, hR, hh, not_le.mpr hh, is_dwim]
    · have hh0 := not_lt.mp hh
      by_cases hd : env.dwim_code (env.git_refspec__parse "HEAD" true).2 [] < 0
      · simp [git_remote.record, hR, hh, hh0, hd, not_le.mpr hd, is_dwim,
          git_refspec__dwim_one, git_remote.deref]
      · have hd0 := not_lt.mp hd
        simp only [git_remote.record, hR, List.length_nil, if_true, hh, if_false,
          git_refspec__dwim_one, git_remote.deref, List.filterMap_nil, hd]
        rw [(htail _).1, (htail _).2]
        simp [hh0, hd0, is_dwim]
  · have hlen : ¬ (st.active_refspecs.length = 0) := by
      simpa [List.length_eq_zero] using hR
    simp only [git_remote.record, hlen, if_false]
    rw [(htail _).1, (htail _).2]
    simp [hR, is_dwim]

/-- C16, as amended. In `filter_wants` and in `filter_wants_1`, when the
active-refspec collection is empty on entry (and the steps before it
succeed), the default refspec `HEAD` is expanded against the want list the
function has just cleared, an empty vector, and the result of that expansion
is what is added to the active collection; when the collection is not empty
on entry no expansion is run and the collection is left as it was. -/
theorem default_refspec_synthesis (env : Env) (st : git_remote)
    (opts : Option git_fetch_options) :
    ((filter_wants env st opts).2.active_refspecs
        = (if st.active_refspecs = [] ∧ 0 ≤ (env.git_refspec__parse GIT_REFSPEC_TAGS true).1 ∧
              0 ≤ (env.git_refspec__parse "HEAD" true).1 ∧
              0 ≤ env.dwim_code (env.git_refspec__parse "HEAD" true).2 [] then
            [env.dwim_expand (env.git_refspec__parse "HEAD" true).2 []]
          else st.active_refspecs) ∧
      (filter_wants env st opts).2.trace.filter is_dwim
        = st.trace.filter is_dwim ++
          (if st.active_refspecs = [] ∧ 0 ≤ (env.git_refspec__parse GIT_REFSPEC_TAGS true).1 ∧
              0 ≤ (env.git_refspec__parse "HEAD" true).1 then
            [Event.refspec_dwim_one (env.git_refspec__parse "HEAD" true).2 []]
          else [])) ∧
    ((filter_wants_1 env st).2.active_refspecs
        = (if st.active_refspecs = [] ∧ 0 ≤ (env.git_refspec__parse "HEAD" true).1 ∧
              0 ≤ env.dwim_code (env.git_refspec__parse "HEAD" true).2 [] then
            [env.dwim_expand (env.git_refspec__parse "HEAD" true).2 []]
          else st.active_refspecs) ∧
      (filter_wants_1 env st).2.trace.filter is_dwim
        = st.trace.filter is_dwim ++
          (if st.active_refspecs = [] ∧ 0 ≤ (env.git_refspec__parse "HEAD" true).1 then
            [Event.refspec_dwim_one (env.git_refspec__parse "HEAD" true).2 []]
          else [])) :=
  ⟨⟨filter_wants_active_refspecs env st opts, filter_wants_no_dwim env st opts⟩,
    filter_wants_1_synthesis env st⟩

/-! ## Failures on the quick-list path -/

/-- C12, counter-example: under `parse_down_env` the default refspec does not
parse, yet for `present_remote`, whose active-refspec collection is not empty,
`git_get_last` returns 0 and the value stored through `out` is a buffer, not
`NULL`: the parse at fetch.c:80 is not checked, and the checked one at line 83
is not reached. -/
theorem unused_default_refspec_is_not_checked :
    (parse_down_env.git_refspec__parse "HEAD" true).1 < 0 ∧
    present_remote.active_refspecs ≠ [] ∧
    (git_get_last parse_down_env present_remote).1 = 0 ∧
    (filter_wants_1 parse_down_env present_remote).1 ≠ none ∧
    (git_get_last parse_down_env present_remote).2.1 ≠ some none := by
  have hb := filter_wants_1_buffer parse_down_env present_remote
    { «local» := 0, oid := oid_of 0, name := "refs/heads/main" } []
    (Or.inl (by decide)) (by decide) rfl
  have hb2 := filter_wants_1_buffer parse_down_env
    (present_remote.record Event.remote_connected)
    { «local» := 0, oid := oid_of 0, name := "refs/heads/main" } []
    (Or.inl (by decide)) (by decide) rfl
  have hg : (git_get_last parse_down_env present_remote).2.1
      = some (filter_wants_1 parse_down_env
          (present_remote.record Event.remote_connected)).1 := rfl
  refine ⟨by decide, by decide, rfl, ?_, ?_⟩
  · rw [hb]
    simp
  · rw [hg, hb2]
    simp

theorem filter_wants_1_fails (env : Env) (st : git_remote) (hfail : quick_list_fails env st) :
    (filter_wants_1 env st).1 = none := by
  have htail : env.git_remote_ls < 0 → ∀ r : git_remote, (filter_wants_1_tail env r).1 = none := by
    intro hl r
    unfold filter_wants_1_tail
    simp [hl]
  unfold filter_wants_1
  by_cases hR : st.active_refspecs = []
  · by_cases hh : (env.git_refspec__parse "HEAD" true).1 < 0
    · simp [git_remote.record, hR, hh]
    · by_cases hd : env.dwim_code (env.git_refspec__parse "HEAD" true).2 [] < 0
      · simp [git_remote.record, hR, hh, hd, git_refspec__dwim_one, git_remote.deref]
      · have hl : env.git_remote_ls < 0 := by
          rcases hfail with ⟨_, h | h⟩ | h
          · exact absurd h hh
          · exact absurd h hd
          · exact h
        simp only [git_remote.record, hR, List.length_nil, if_true, hh, if_false,
          git_refspec__dwim_one, git_remote.deref, List.filterMap_nil, hd]
        exact htail hl _
  · have hl : env.git_remote_ls < 0 := by
      rcases hfail with ⟨h, _⟩ | h
      · exact absurd h hR
      · exact h
    have hlen : ¬ (st.active_refspecs.length = 0) := by
      simpa [List.length_eq_zero] using hR
    simp only [git_remote.record, hlen, if_false]
    exact htail hl _

/-- C12, as amended. If no connection is open and connecting fails,
`git_get_last` returns -1, stores nothing through `out` and performs no
listing: the only calls made are the connection test and the connection
attempt. Otherwise, if the active-refspec collection is empty and the default
refspec does not parse or does not expand, or if the advertisement listing
fails, `git_get_last` returns 0 and the value stored through `out` is `NULL`.
In neither case is a result string produced. -/
theorem quick_list_failures (env : Env) (st : git_remote)
    (hfail : connect_fails env st ∨ quick_list_fails env st) :
    (∀ buff, (git_get_last env st).2.1 ≠ some (some buff)) ∧
    (connect_fails env st →
      (git_get_last env st).1 = -1 ∧ (git_get_last env st).2.1 = none ∧
      (git_get_last env st).2.2.trace
        = st.trace ++ [Event.remote_connected, Event.remote_connect]) ∧
    (¬ connect_fails env st →
      (git_get_last env st).1 = 0 ∧ (git_get_last env st).2.1 = some none) := by
  have hc : connect_fails env st →
      (git_get_last env st).1 = -1 ∧ (git_get_last env st).2.1 = none ∧
      (git_get_last env st).2.2.trace
        = st.trace ++ [Event.remote_connected, Event.remote_connect] := by
    rintro ⟨h1, h2⟩
    unfold git_get_last
    simp [git_remote.record, h1, h2]
  have hn : ¬ connect_fails env st →
      (git_get_last env st).1 = 0 ∧ (git_get_last env st).2.1 = some none := by
    intro hnc
    have hq : quick_list_fails env st := by
      rcases hfail with h | h
      · exact absurd h hnc
      · exact h
    unfold git_get_last
    by_cases hcon : st.connected = true
    · simp only [git_remote.record, hcon, Bool.not_true, Bool.false_eq_true, if_false, true_and]
      exact congrArg some (filter_wants_1_fails env _ hq)
    · have hcon2 : st.connected = false := by simpa using hcon
      have hok : ¬ env.git_remote_connect < 0 := fun h => hnc ⟨hcon2, h⟩
      simp only [git_remote.record, hcon2, Bool.not_false, if_true, hok, if_false, true_and]
      exact congrArg some (filter_wants_1_fails env _ hq)
  refine ⟨?_, hc, hn⟩
  intro buff
  by_cases h : connect_fails env st
  · rw [(hc h).2.1]
    simp
  · rw [(hn h).2]
    simp

/-- C12, witness: under `connect_down_env` the remote cannot be connected. -/
theorem quick_list_failures_witness :
    (connect_fails connect_down_env offline_remote ∨
      quick_list_fails connect_down_env offline_remote) ∧
    ((∀ buff, (git_get_last connect_down_env offline_remote).2.1 ≠ some (some buff)) ∧
    (connect_fails connect_down_env offline_remote →
      (git_get_last connect_down_env offline_remote).1 = -1 ∧
      (git_get_last connect_down_env offline_remote).2.1 = none ∧
      (git_get_last connect_down_env offline_remote).2.2.trace
        = offline_remote.trace ++ [Event.remote_connected, Event.remote_connect]) ∧
    (¬ connect_fails connect_down_env offline_remote →
      (git_get_last connect_down_env offline_remote).1 = 0 ∧
      (git_get_last connect_down_env offline_remote).2.1 = some none)) :=
  ⟨Or.inl ⟨rfl, by decide⟩,
    quick_list_failures connect_down_env offline_remote (Or.inl ⟨rfl, by decide⟩)⟩

/-! ## A head whose name is not valid -/

theorem shift_ne (k q : Nat) : shift k q ≠ k := by
  unfold shift
  split <;> omega

theorem shift_inj (k q1 q2 : Nat) (h : shift k q1 = shift k q2) : q1 = q2 := by
  unfold shift at h
  split at h <;> split at h <;> omega

theorem getElem?_without (pre post : List git_remote_head) (x : git_remote_head) (q : Nat) :
    (pre ++ post)[q]? = (pre ++ x :: post)[shift pre.length q]? := by
  unfold shift
  by_cases hq : q < pre.length
  · simp only [hq, if_true]
    rw [List.getElem?_append_left hq, List.getElem?_append_left hq]
  · simp only [hq, if_false]
    rw [List.getElem?_append_right (not_lt.mp hq),
      List.getElem?_append_right (by omega)]
    have : q + 1 - pre.length = (q - pre.length) + 1 := by omega
    rw [this, List.getElem?_cons_succ]

/-- A head whose name is not valid costs one call, the validity test: the
result is 0 and nothing else changes. -/
theorem maybe_want_invalid (env : Env) (remote : git_remote) (p : Nat) (odb : git_odb)
    (tagspec : git_refspec) (tagopt : git_remote_autotag_option_t) (h : git_remote_head)
    (hp : remote.heads[p]? = some h) (hinv : env.git_reference_is_valid_name h.name = false) :
    maybe_want env remote p odb tagspec tagopt
      = (0, remote.record (Event.reference_is_valid_name h.name)) := by
  unfold maybe_want
  simp [hp, hinv]

theorem filter_is_consult_of_head_calls (env : Env) (R : List git_refspec) (name : String)
    (tagspec : git_refspec) (tagopt : git_remote_autotag_option_t) :
    (maybe_want_match env R name tagspec tagopt).2.filter is_consult
      = (maybe_want_match env R name tagspec tagopt).2 := by
  have hm : ∀ (S : List git_refspec),
      (git_remote__matching_refspec env name S).2.filter is_consult
        = (git_remote__matching_refspec env name S).2 := by
    intro S
    induction S with
    | nil => rfl
    | cons spec rest ih =>
      by_cases hs : env.git_refspec_src_matches spec name = true
      · simp [git_remote__matching_refspec, hs, is_consult]
      · simp [git_remote__matching_refspec, hs, is_consult, ih]
  unfold maybe_want_match
  by_cases ht : tagopt = GIT_REMOTE_DOWNLOAD_TAGS_ALL
  · by_cases hs : env.git_refspec_src_matches tagspec name = true
    · simp [ht, hs, is_consult]
    · simp [ht, hs, is_consult, hm]
  · simp [ht, hm]

/-- The queries one step of the loop adds to those made so far. -/
theorem maybe_want_consults (env : Env) (remote : git_remote) (p : Nat) (odb : git_odb)
    (tagspec : git_refspec) (tagopt : git_remote_autotag_option_t) :
    (maybe_want env remote p odb tagspec tagopt).2.trace.filter is_consult
      = remote.trace.filter is_consult ++
        consults env tagspec tagopt remote.active_refspecs remote.heads[p]? := by
  unfold maybe_want
  cases hg : remote.heads[p]? with
  | none => simp [consults]
  | some h =>
    by_cases hv : env.git_reference_is_valid_name h.name = true
    · by_cases hm : (maybe_want_match env remote.active_refspecs h.name tagspec tagopt).1 = true
      · simp [hv, hm, consults, is_consult, filter_is_consult_of_head_calls]
      · have hm2 : (maybe_want_match env remote.active_refspecs h.name tagspec tagopt).1
            = false := by simpa using hm
        simp [hv, hm2, consults, is_consult, filter_is_consult_of_head_calls]
    · have hv2 : env.git_reference_is_valid_name h.name = false := by simpa using hv
      simp [hv2, consults, is_consult, git_remote.record]

theorem matching_without (env : Env) (k : Nat) (name : String) (R : List git_refspec) :
    git_remote__matching_refspec (env.without k) name R
      = git_remote__matching_refspec env name R := by
  induction R with
  | nil => rfl
  | cons spec rest ih =>
    simp only [git_remote__matching_refspec, ih]
    rfl

theorem maybe_want_match_without (env : Env) (k : Nat) (R : List git_refspec) (name : String)
    (tagspec : git_refspec) (tagopt : git_remote_autotag_option_t) :
    maybe_want_match (env.without k) R name tagspec tagopt
      = maybe_want_match env R name tagspec tagopt := by
  unfold maybe_want_match
  rw [matching_without]
  rfl

theorem consults_without (env : Env) (k : Nat) (tagspec : git_refspec)
    (tagopt : git_remote_autotag_option_t) (R : List git_refspec)
    (h : Option git_remote_head) :
    consults (env.without k) tagspec tagopt R h = consults env tagspec tagopt R h := by
  cases h with
  | none => rfl
  | some h =>
    simp only [consults, maybe_want_match_without]
    rfl

theorem wanted_without (env : Env) (k : Nat) (tagspec : git_refspec)
    (policy : git_remote_autotag_option_t) (R : List git_refspec) (h : git_remote_head) :
    wanted (env.without k) tagspec policy R h = wanted env tagspec policy R h := rfl

/-- One step of the loop on the buffer without the head at position `k` and
the step for the same head on the buffer with it give the same result and keep
the two states in correspondence. -/
theorem maybe_want_sim (env : Env) (k : Nat) (b a : git_remote) (q : Nat) (odb : git_odb)
    (tagspec : git_refspec) (tagopt : git_remote_autotag_option_t) (hs : sim k b a) :
    (maybe_want env a (shift k q) odb tagspec tagopt).1
        = (maybe_want (env.without k) b q odb tagspec tagopt).1 ∧
      sim k (maybe_want (env.without k) b q odb tagspec tagopt).2
        (maybe_want env a (shift k q) odb tagspec tagopt).2 := by
  obtain ⟨s1, s2, s3, s4, s5, s6⟩ := hs
  have hw : wanted_ptr env tagspec tagopt a.active_refspecs a.heads (shift k q)
      = wanted_ptr (env.without k) tagspec tagopt b.active_refspecs b.heads q := by
    unfold wanted_ptr
    rw [← s5 q, s2]
    rfl
  have hab : absent_ptr odb a.heads (shift k q) = absent_ptr odb b.heads q := by
    unfold absent_ptr
    rw [← s5 q]
  have hheads : ∀ q2 : Nat,
      (maybe_want (env.without k) b q odb tagspec tagopt).2.heads[q2]?
        = (maybe_want env a (shift k q) odb tagspec tagopt).2.heads[shift k q2]? := by
    intro q2
    rw [maybe_want_heads, maybe_want_heads, ← s5 q2, s2]
    congr 1
    funext h
    by_cases hq : q2 = q
    · subst hq
      simp only [if_true]
      rfl
    · have hq2 : ¬ shift k q2 = shift k q := fun h => hq (shift_inj k q2 q h)
      simp only [hq, hq2, if_false]
  have htrace : (maybe_want env a (shift k q) odb tagspec tagopt).2.trace.filter is_consult
      = (maybe_want (env.without k) b q odb tagspec tagopt).2.trace.filter is_consult := by
    rw [maybe_want_consults, maybe_want_consults, consults_without, ← s5 q, s2, s6]
  cases hwa : wanted_ptr env tagspec tagopt a.active_refspecs a.heads (shift k q) with
  | false =>
    obtain ⟨x1, x2, x3, _, x5, x6⟩ := maybe_want_skip env a (shift k q) odb tagspec tagopt hwa
    obtain ⟨y1, y2, y3, _, y5, y6⟩ :=
      maybe_want_skip (env.without k) b q odb tagspec tagopt (hw ▸ hwa)
    refine ⟨x1.trans y1.symm, ?_, ?_, ?_, ?_, hheads, htrace⟩
    · rw [x2, y2, s1]
    · rw [x5, y5, s2]
    · rw [x3, y3, s3]
    · rw [x6.1, y6.1, s4]
  | true =>
    obtain ⟨x1, x2, x3, x4, x5⟩ := maybe_want_take env a (shift k q) odb tagspec tagopt hwa
    obtain ⟨y1, y2, y3, y4, y5⟩ :=
      maybe_want_take (env.without k) b q odb tagspec tagopt (hw ▸ hwa)
    have hcode : (env.without k).vector_insert_code b.refs q
        = env.vector_insert_code a.refs (shift k q) := by
      rw [s1]
      rfl
    refine ⟨?_, ?_, ?_, ?_, ?_, hheads, htrace⟩
    · rw [x1, y1, hcode]
    · rw [x2, y2, hcode, s1]
      split <;> simp
    · rw [x4, y4, s2]
    · rw [x3, y3, hab, s3]
    · rw [x5.1, y5.1, s4]

/-- The two results are the same failure, or two successes. -/
theorem filter_wants_loop_sim (env : Env) (k : Nat) (odb : git_odb) (tagspec : git_refspec)
    (tagopt : git_remote_autotag_option_t) (ps : List Nat) :
    ∀ (e1 e2 : Int) (b a : git_remote), sim k b a → 0 ≤ e1 → 0 ≤ e2 →
      ((filter_wants_loop env odb tagspec tagopt (ps.map (shift k)) e1 a).1
          = (filter_wants_loop (env.without k) odb tagspec tagopt ps e2 b).1 ∨
        (0 ≤ (filter_wants_loop env odb tagspec tagopt (ps.map (shift k)) e1 a).1 ∧
          0 ≤ (filter_wants_loop (env.without k) odb tagspec tagopt ps e2 b).1)) ∧
      sim k (filter_wants_loop (env.without k) odb tagspec tagopt ps e2 b).2
        (filter_wants_loop env odb tagspec tagopt (ps.map (shift k)) e1 a).2 := by
  induction ps with
  | nil =>
    intro e1 e2 b a hs h1 h2
    exact ⟨Or.inr ⟨h1, h2⟩, hs⟩
  | cons q rest ih =>
    intro e1 e2 b a hs _ _
    obtain ⟨hc, hs2⟩ := maybe_want_sim env k b a q odb tagspec tagopt hs
    simp only [List.map_cons]
    unfold filter_wants_loop
    by_cases hneg : (maybe_want env a (shift k q) odb tagspec tagopt).1 < 0
    · have hneg2 : (maybe_want (env.without k) b q odb tagspec tagopt).1 < 0 := hc ▸ hneg
      simp only [hneg, hneg2, if_true]
      exact ⟨Or.inl hc, hs2⟩
    · have hneg2 : ¬ (maybe_want (env.without k) b q odb tagspec tagopt).1 < 0 := hc ▸ hneg
      simp only [hneg, hneg2, if_false]
      exact ih _ _ _ _ hs2 (not_lt.mp hneg) (not_lt.mp hneg2)

/-- The loop over two lists of pointers in a row, entered with a non-negative
`error`: the second list is gone through unless the first one failed. -/
theorem filter_wants_loop_append (env : Env) (odb : git_odb) (tagspec : git_refspec)
    (tagopt : git_remote_autotag_option_t) (l1 l2 : List Nat) :
    ∀ (e : Int) (remote : git_remote), 0 ≤ e →
      filter_wants_loop env odb tagspec tagopt (l1 ++ l2) e remote
        = (if (filter_wants_loop env odb tagspec tagopt l1 e remote).1 < 0 then
            filter_wants_loop env odb tagspec tagopt l1 e remote
          else
            filter_wants_loop env odb tagspec tagopt l2
              (filter_wants_loop env odb tagspec tagopt l1 e remote).1
              (filter_wants_loop env odb tagspec tagopt l1 e remote).2) := by
  induction l1 with
  | nil =>
    intro e remote he
    simp [filter_wants_loop, not_lt.mpr he]
  | cons p rest ih =>
    intro e remote _
    simp only [List.cons_append]
    by_cases hneg : (maybe_want env remote p odb tagspec tagopt).1 < 0
    · have h1 : ∀ l : List Nat, filter_wants_loop env odb tagspec tagopt (p :: l) e remote
          = maybe_want env remote p odb tagspec tagopt := by
        intro l
        rw [filter_wants_loop]
        simp only [hneg, if_true]
      rw [h1, h1]
      simp only [hneg, if_true]
    · have h1 : ∀ l : List Nat, filter_wants_loop env odb tagspec tagopt (p :: l) e remote
          = filter_wants_loop env odb tagspec tagopt l
              (maybe_want env remote p odb tagspec tagopt).1
              (maybe_want env remote p odb tagspec tagopt).2 := by
        intro l
        rw [filter_wants_loop]
        simp only [hneg, if_false]
      rw [h1, h1]
      exact ih _ _ (not_lt.mp hneg)

theorem sim_record (k : Nat) (b a : git_remote) (ev1 ev2 : Event) (hs : sim k b a)
    (h1 : is_consult ev1 = false) (h2 : is_consult ev2 = false) :
    sim k (b.record ev2) (a.record ev1) := by
  obtain ⟨s1, s2, s3, s4, s5, s6⟩ := hs
  refine ⟨s1, s2, s3, s4, s5, ?_⟩
  simp [git_remote.record, List.filter_append, h1, h2, s6]

theorem range_with (k m : Nat) :
    List.range (k + 1 + m)
      = (List.range k).map (shift k) ++
        (k :: ((List.range m).map (fun j => k + j)).map (shift k)) := by
  have h1 : (List.range k).map (shift k) = List.range k := by
    conv_rhs => rw [← List.map_id (List.range k)]
    apply List.map_congr_left
    intro q hq
    simp [shift, List.mem_range.mp hq]
  have h2 : ((List.range m).map (fun j => k + j)).map (shift k)
      = (List.range m).map (fun j => k + 1 + j) := by
    rw [List.map_map]
    apply List.map_congr_left
    intro j _
    simp only [Function.comp, shift]
    have : ¬ (k + j < k) := by omega
    simp only [this, if_false]
    omega
  rw [h1, h2, List.range_add, List.range_succ, List.append_assoc]
  rfl

theorem range_without (k m : Nat) :
    List.range (k + m) = List.range k ++ (List.range m).map (fun j => k + j) :=
  List.range_add k m

/-- The loop over the whole listing of a buffer that holds, at position `k`, a
head whose name is not valid, against the loop over the listing of the buffer
without that head. -/
theorem filter_wants_loop_skip_sim (env : Env) (k m : Nat) (odb : git_odb)
    (tagspec : git_refspec) (tagopt : git_remote_autotag_option_t) (x : git_remote_head)
    (hinv : env.git_reference_is_valid_name x.name = false)
    (e1 e2 : Int) (b a : git_remote) (hs : sim k b a) (hx : a.heads[k]? = some x)
    (he1 : 0 ≤ e1) (he2 : 0 ≤ e2) :
    ((filter_wants_loop env odb tagspec tagopt (List.range (k + 1 + m)) e1 a).1
        = (filter_wants_loop (env.without k) odb tagspec tagopt (List.range (k + m)) e2 b).1 ∨
      (0 ≤ (filter_wants_loop env odb tagspec tagopt (List.range (k + 1 + m)) e1 a).1 ∧
        0 ≤ (filter_wants_loop (env.without k) odb tagspec tagopt
          (List.range (k + m)) e2 b).1)) ∧
    sim k (filter_wants_loop (env.without k) odb tagspec tagopt (List.range (k + m)) e2 b).2
      (filter_wants_loop env odb tagspec tagopt (List.range (k + 1 + m)) e1 a).2 := by
  rw [range_with, range_without,
    filter_wants_loop_append env odb tagspec tagopt _ _ e1 a he1,
    filter_wants_loop_append (env.without k) odb tagspec tagopt _ _ e2 b he2]
  obtain ⟨o1, s1⟩ := filter_wants_loop_sim env k odb tagspec tagopt (List.range k)
    e1 e2 b a hs he1 he2
  by_cases hneg : (filter_wants_loop env odb tagspec tagopt
      ((List.range k).map (shift k)) e1 a).1 < 0
  · have heq : (filter_wants_loop env odb tagspec tagopt ((List.range k).map (shift k)) e1 a).1
        = (filter_wants_loop (env.without k) odb tagspec tagopt (List.range k) e2 b).1 := by
      rcases o1 with h | ⟨h, _⟩
      · exact h
      · exact absurd h (not_le.mpr hneg)
    have hneg2 : (filter_wants_loop (env.without k) odb tagspec tagopt
        (List.range k) e2 b).1 < 0 := heq ▸ hneg
    simp only [hneg, hneg2, if_true]
    exact ⟨Or.inl heq, s1⟩
  · have hpos2 : ¬ (filter_wants_loop (env.without k) odb tagspec tagopt
        (List.range k) e2 b).1 < 0 := by
      rcases o1 with h | ⟨_, h⟩
      · rw [← h]
        exact hneg
      · exact not_lt.mpr h
    simp only [hneg, hpos2, if_false]
    have hkey := (filter_wants_loop_frame env odb tagspec tagopt
      ((List.range k).map (shift k)) e1 a).2.2.2.2.2.1
    have hk := getElem?_key_of_map_eq hkey k
    rw [hx] at hk
    obtain ⟨x2, hx2, hname⟩ : ∃ x2, (filter_wants_loop env odb tagspec tagopt
        ((List.range k).map (shift k)) e1 a).2.heads[k]? = some x2 ∧ x2.name = x.name := by
      cases hg : (filter_wants_loop env odb tagspec tagopt
          ((List.range k).map (shift k)) e1 a).2.heads[k]? with
      | none => simp [hg] at hk
      | some x2 =>
        rw [hg] at hk
        simp only [Option.map_some', Option.some.injEq, head_key, Prod.mk.injEq] at hk
        exact ⟨x2, rfl, hk.1⟩
    have hinv2 : env.git_reference_is_valid_name x2.name = false := by rw [hname]; exact hinv
    have hstep : ∀ l : List Nat,
        filter_wants_loop env odb tagspec tagopt (k :: l)
          (filter_wants_loop env odb tagspec tagopt ((List.range k).map (shift k)) e1 a).1
          (filter_wants_loop env odb tagspec tagopt ((List.range k).map (shift k)) e1 a).2
        = filter_wants_loop env odb tagspec tagopt l 0
          ((filter_wants_loop env odb tagspec tagopt ((List.range k).map (shift k)) e1 a).2.record
            (Event.reference_is_valid_name x2.name)) := by
      intro l
      rw [filter_wants_loop, maybe_want_invalid env _ k odb tagspec tagopt x2 hx2 hinv2]
      simp
    rw [hstep]
    exact filter_wants_loop_sim env k odb tagspec tagopt _ 0 _ _ _
      (by
        obtain ⟨t1, t2, t3, t4, t5, t6⟩ := s1
        refine ⟨t1, t2, t3, t4, t5, ?_⟩
        simp [git_remote.record, List.filter_append, is_consult, t6])
      (le_refl 0) (not_lt.mp hpos2)

theorem filter_wants_tail_skip_sim (env : Env) (k m : Nat) (tagspec : git_refspec)
    (tagopt : git_remote_autotag_option_t) (x : git_remote_head)
    (hinv : env.git_reference_is_valid_name x.name = false)
    (e1 e2 : Int) (b a : git_remote) (hs : sim k b a) (hx : a.heads[k]? = some x)
    (hla : a.heads.length = k + 1 + m) (hlb : b.heads.length = k + m)
    (he1 : 0 ≤ e1) (he2 : 0 ≤ e2) :
    ((filter_wants_tail env a e1 tagspec tagopt).1
        = (filter_wants_tail (env.without k) b e2 tagspec tagopt).1 ∨
      (0 ≤ (filter_wants_tail env a e1 tagspec tagopt).1 ∧
        0 ≤ (filter_wants_tail (env.without k) b e2 tagspec tagopt).1)) ∧
    sim k (filter_wants_tail (env.without k) b e2 tagspec tagopt).2
      (filter_wants_tail env a e1 tagspec tagopt).2 := by
  have hrepo : a.repo = b.repo := hs.2.2.2.1
  have hodb : (env.without k).git_repository_odb__weakptr b.repo
      = env.git_repository_odb__weakptr a.repo := by
    rw [hrepo]
    rfl
  have hls : (env.without k).git_remote_ls = env.git_remote_ls := rfl
  have hs1 := sim_record k b a (Event.repository_odb a.repo) (Event.repository_odb b.repo)
    hs rfl rfl
  have hs2 := sim_record k _ _ Event.remote_ls Event.remote_ls hs1 rfl rfl
  unfold filter_wants_tail
  rw [hodb, hls]
  by_cases ho : (env.git_repository_odb__weakptr a.repo).1 < 0
  · simp only [ho, if_true]
    exact ⟨Or.inr ⟨he1, he2⟩, hs1⟩
  · by_cases hl : env.git_remote_ls < 0
    · simp only [ho, hl, if_true, if_false]
      exact ⟨Or.inr ⟨he1, he2⟩, hs2⟩
    · simp only [ho, hl, if_false]
      have hla2 : ((a.record (Event.repository_odb a.repo)).record Event.remote_ls).heads.length
          = k + 1 + m := hla
      have hlb2 : ((b.record (Event.repository_odb b.repo)).record Event.remote_ls).heads.length
          = k + m := hlb
      rw [hla2, hlb2]
      exact filter_wants_loop_skip_sim env k m _ tagspec tagopt x hinv e1 e2 _ _ hs2 hx he1 he2

theorem filter_wants_loop_nonpos (env : Env) (odb : git_odb) (tagspec : git_refspec)
    (tagopt : git_remote_autotag_option_t)
    (hins : ∀ (v : List Nat) (p : Nat), env.vector_insert_code v p ≤ 0) (ps : List Nat) :
    ∀ (e : Int) (remote : git_remote), e ≤ 0 →
      (filter_wants_loop env odb tagspec tagopt ps e remote).1 ≤ 0 := by
  induction ps with
  | nil => intro e remote he; simpa [filter_wants_loop] using he
  | cons p rest ih =>
    intro e remote _
    have hm : (maybe_want env remote p odb tagspec tagopt).1 ≤ 0 := by
      cases hw : wanted_ptr env tagspec tagopt remote.active_refspecs remote.heads p with
      | false => rw [(maybe_want_skip env remote p odb tagspec tagopt hw).1]
      | true =>
        rw [(maybe_want_take env remote p odb tagspec tagopt hw).1]
        exact hins _ _
    unfold filter_wants_loop
    by_cases hneg : (maybe_want env remote p odb tagspec tagopt).1 < 0
    · simp only [hneg, if_true]
      exact hm
    · simp only [hneg, if_false]
      exact ih _ _ hm

/-- With collaborators that answer 0 when they succeed, the build returns 0
or a negative code. -/
theorem filter_wants_nonpos (env : Env) (st : git_remote) (opts : Option git_fetch_options)
    (hz : zero_on_success env) : (filter_wants env st opts).1 ≤ 0 := by
  obtain ⟨z1, z2, z3⟩ := hz
  have key : ∀ (r : git_remote) (e : Int) (ts : git_refspec)
      (pol : git_remote_autotag_option_t), e ≤ 0 → (filter_wants_tail env r e ts pol).1 ≤ 0 := by
    intro r e ts pol he
    unfold filter_wants_tail
    by_cases ho : (env.git_repository_odb__weakptr r.repo).1 < 0
    · simpa [ho] using he
    · by_cases hl : env.git_remote_ls < 0
      · simpa [ho, hl] using he
      · simp only [ho, hl, if_false]
        exact filter_wants_loop_nonpos env _ ts pol z3 _ _ _ he
  by_cases ht : (env.git_refspec__parse GIT_REFSPEC_TAGS true).1 < 0
  · rw [filter_wants_tags_fail env st opts ht]
    exact le_of_lt ht
  · have ht0 := not_lt.mp ht
    by_cases hR : st.active_refspecs = []
    · by_cases hh : (env.git_refspec__parse "HEAD" true).1 < 0
      · rw [filter_wants_head_fail env st opts ht0 hR hh]
        exact le_of_lt hh
      · have hh0 := not_lt.mp hh
        by_cases hd : env.dwim_code (env.git_refspec__parse "HEAD" true).2 [] < 0
        · rw [filter_wants_dwim_fail env st opts ht0 hR hh0 hd]
          exact le_of_lt hd
        · rw [filter_wants_dwim_ok env st opts ht0 hR hh0 (not_lt.mp hd)]
          exact key _ _ _ _ (z2 _ _)
    · rw [filter_wants_active env st opts ht0 hR]
      exact key _ _ _ _ (z1 _ _)

/-- The build on a buffer that holds, at position `pre.length`, a head whose
name is not valid, against the build on the buffer without that head. -/
theorem filter_wants_skip_sim (env : Env) (st : git_remote) (opts : Option git_fetch_options)
    (pre post : List git_remote_head) (x : git_remote_head)
    (hheads : st.heads = pre ++ x :: post)
    (hinv : env.git_reference_is_valid_name x.name = false) :
    ((filter_wants env st opts).1
        = (filter_wants (env.without pre.length) { st with heads := pre ++ post } opts).1 ∨
      (0 ≤ (filter_wants env st opts).1 ∧
        0 ≤ (filter_wants (env.without pre.length) { st with heads := pre ++ post } opts).1)) ∧
    sim pre.length
      (filter_wants (env.without pre.length) { st with heads := pre ++ post } opts).2
      (filter_wants env st opts).2 := by
  have hrel : ∀ q : Nat, (pre ++ post)[q]? = st.heads[shift pre.length q]? := by
    intro q
    rw [hheads]
    exact getElem?_without pre post x q
  have hx : st.heads[pre.length]? = some x := by
    rw [hheads, List.getElem?_append_right (le_refl _)]
    simp
  have hla : st.heads.length = pre.length + 1 + post.length := by
    rw [hheads]
    simp only [List.length_append, List.length_cons]
    omega
  have hlb : (pre ++ post).length = pre.length + post.length := List.length_append _ _
  by_cases ht : (env.git_refspec__parse GIT_REFSPEC_TAGS true).1 < 0
  · have ht2 : ((env.without pre.length).git_refspec__parse GIT_REFSPEC_TAGS true).1 < 0 := ht
    rw [filter_wants_tags_fail env st opts ht, filter_wants_tags_fail _ _ opts ht2]
    exact ⟨Or.inl rfl, rfl, rfl, rfl, rfl, hrel, rfl⟩
  · have ht0 := not_lt.mp ht
    have ht02 : 0 ≤ ((env.without pre.length).git_refspec__parse GIT_REFSPEC_TAGS true).1 := ht0
    by_cases hR : st.active_refspecs = []
    · have hR2 : ({ st with heads := pre ++ post } : git_remote).active_refspecs = [] := hR
      by_cases hh : (env.git_refspec__parse "HEAD" true).1 < 0
      · have hh2 : ((env.without pre.length).git_refspec__parse "HEAD" true).1 < 0 := hh
        rw [filter_wants_head_fail env st opts ht0 hR hh,
          filter_wants_head_fail _ _ opts ht02 hR2 hh2]
        exact ⟨Or.inl rfl, rfl, rfl, rfl, rfl, hrel, rfl⟩
      · have hh0 := not_lt.mp hh
        have hh02 : 0 ≤ ((env.without pre.length).git_refspec__parse "HEAD" true).1 := hh0
        by_cases hd : env.dwim_code (env.git_refspec__parse "HEAD" true).2 [] < 0
        · have hd2 : (env.without pre.length).dwim_code
              ((env.without pre.length).git_refspec__parse "HEAD" true).2 [] < 0 := hd
          rw [filter_wants_dwim_fail env st opts ht0 hR hh0 hd,
            filter_wants_dwim_fail _ _ opts ht02 hR2 hh02 hd2]
          exact ⟨Or.inl rfl, rfl, rfl, rfl, rfl, hrel, rfl⟩
        · have hd0 := not_lt.mp hd
          have hd02 : 0 ≤ (env.without pre.length).dwim_code
              ((env.without pre.length).git_refspec__parse "HEAD" true).2 [] := hd0
          rw [filter_wants_dwim_ok env st opts ht0 hR hh0 hd0,
            filter_wants_dwim_ok _ _ opts ht02 hR2 hh02 hd02]
          exact filter_wants_tail_skip_sim env pre.length post.length _ _ x hinv _ _
            (after_dwim (env.without pre.length) { st with heads := pre ++ post })
            (after_dwim env st) ⟨rfl, rfl, rfl, rfl, hrel, rfl⟩ hx hla hlb hd0 hd0
    · have hR2 : ({ st with heads := pre ++ post } : git_remote).active_refspecs ≠ [] := hR
      rw [filter_wants_active env st opts ht0 hR, filter_wants_active _ _ opts ht02 hR2]
      exact filter_wants_tail_skip_sim env pre.length post.length _ _ x hinv _ _
        (after_tags { st with heads := pre ++ post }) (after_tags st)
        ⟨rfl, rfl, rfl, rfl, hrel, rfl⟩ hx hla hlb ht0 ht0

/-- C11. An advertised head `x` whose name is not valid is never in the want
list and cannot make the build fail. The build on the advertisement list
`pre ++ x :: post` and the build on `pre ++ post` (the collaborators answering
about the same heads, renumbered) end alike: the same negative code, or
success for both, and the same code when the collaborators answer 0 on
success; the want lists hold the same heads in the same order; `need_pack` is
the same; `x` is left as it was; and the queries made to the matcher and to
the object store are the same, none being made for `x`. -/
theorem invalid_name_is_skipped (env : Env) (st : git_remote)
    (opts : Option git_fetch_options) (pre post : List git_remote_head) (x : git_remote_head)
    (hheads : st.heads = pre ++ x :: post)
    (hinv : env.git_reference_is_valid_name x.name = false) :
    ((filter_wants env st opts).1
        = (filter_wants (env.without pre.length) { st with heads := pre ++ post } opts).1 ∨
      (0 ≤ (filter_wants env st opts).1 ∧
        0 ≤ (filter_wants (env.without pre.length) { st with heads := pre ++ post } opts).1)) ∧
    (zero_on_success env →
      (filter_wants env st opts).1
        = (filter_wants (env.without pre.length) { st with heads := pre ++ post } opts).1) ∧
    pre.length ∉ (filter_wants env st opts).2.refs ∧
    (filter_wants env st opts).2.refs
      = (filter_wants (env.without pre.length)
          { st with heads := pre ++ post } opts).2.refs.map (shift pre.length) ∧
    (filter_wants env st opts).2.deref (filter_wants env st opts).2.refs
      = (filter_wants (env.without pre.length) { st with heads := pre ++ post } opts).2.deref
          (filter_wants (env.without pre.length) { st with heads := pre ++ post } opts).2.refs ∧
    (filter_wants env st opts).2.need_pack
      = (filter_wants (env.without pre.length)
          { st with heads := pre ++ post } opts).2.need_pack ∧
    (filter_wants env st opts).2.heads[pre.length]? = some x ∧
    (filter_wants env st opts).2.trace.filter is_consult
      = (filter_wants (env.without pre.length)
          { st with heads := pre ++ post } opts).2.trace.filter is_consult := by
  obtain ⟨ho, s1, _, s3, _, s5, s6⟩ := filter_wants_skip_sim env st opts pre post x hheads hinv
  have hx : st.heads[pre.length]? = some x := by
    rw [hheads, List.getElem?_append_right (le_refl _)]
    simp
  refine ⟨ho, ?_, ?_, s1, ?_, s3, ?_, s6⟩
  · intro hz
    have hz2 : zero_on_success (env.without pre.length) :=
      ⟨hz.1, hz.2.1, fun v p => hz.2.2 _ _⟩
    have h1 := filter_wants_nonpos env st opts hz
    have h2 := filter_wants_nonpos (env.without pre.length)
      { st with heads := pre ++ post } opts hz2
    rcases ho with h | ⟨h3, h4⟩
    · exact h
    · exact (le_antisymm h1 h3).trans (le_antisymm h2 h4).symm
  · rw [s1]
    intro hmem
    obtain ⟨q, _, hq⟩ := List.mem_map.mp hmem
    exact shift_ne _ _ hq
  · unfold git_remote.deref
    rw [s1, List.filterMap_map]
    apply List.filterMap_congr
    intro q _
    exact (s5 q).symm
  · rcases (filter_wants_heads env st opts).1 pre.length x hx with h | h
    · exact h
    · rw [h]
      simp [marked, wanted, hinv]

/-- C11, witness: the third head advertised to `demo_remote` has an empty
name, which `demo_env` does not hold valid. -/
theorem invalid_name_is_skipped_witness :
    (demo_remote.heads
        = [{ «local» := 0, oid := oid_of 1, name := "refs/heads/main" },
            { «local» := 0, oid := oid_of 0, name := "refs/tags/v1" }] ++
          { «local» := 0, oid := oid_of 2, name := "" } :: [] ∧
      demo_env.git_reference_is_valid_name "" = false) ∧
    (((filter_wants demo_env demo_remote none).1
        = (filter_wants (demo_env.without 2)
            { demo_remote with heads := demo_remote.heads.take 2 } none).1 ∨
      (0 ≤ (filter_wants demo_env demo_remote none).1 ∧
        0 ≤ (filter_wants (demo_env.without 2)
            { demo_remote with heads := demo_remote.heads.take 2 } none).1)) ∧
    (zero_on_success demo_env →
      (filter_wants demo_env demo_remote none).1
        = (filter_wants (demo_env.without 2)
            { demo_remote with heads := demo_remote.heads.take 2 } none).1) ∧
    2 ∉ (filter_wants demo_env demo_remote none).2.refs ∧
    (filter_wants demo_env demo_remote none).2.refs
      = (filter_wants (demo_env.without 2)
          { demo_remote with heads := demo_remote.heads.take 2 } none).2.refs.map (shift 2) ∧
    (filter_wants demo_env demo_remote none).2.deref
        (filter_wants demo_env demo_remote none).2.refs
      = (filter_wants (demo_env.without 2)
          { demo_remote with heads := demo_remote.heads.take 2 } none).2.deref
          (filter_wants (demo_env.without 2)
            { demo_remote with heads := demo_remote.heads.take 2 } none).2.refs ∧
    (filter_wants demo_env demo_remote none).2.need_pack
      = (filter_wants (demo_env.without 2)
          { demo_remote with heads := demo_remote.heads.take 2 } none).2.need_pack ∧
    (filter_wants demo_env demo_remote none).2.heads[2]?
      = some { «local» := 0, oid := oid_of 2, name := "" } ∧
    (filter_wants demo_env demo_remote none).2.trace.filter is_consult
      = (filter_wants (demo_env.without 2)
          { demo_remote with heads := demo_remote.heads.take 2 } none).2.trace.filter
            is_consult) :=
  ⟨⟨rfl, rfl⟩,
    invalid_name_is_skipped demo_env demo_remote none
      [{ «local» := 0, oid := oid_of 1, name := "refs/heads/main" },
        { «local» := 0, oid := oid_of 0, name := "refs/tags/v1" }] []
      { «local» := 0, oid := oid_of 2, name := "" } rfl rfl⟩

/-! ## What a build has looked at -/

/-- Whatever its result, the loop has looked at a prefix `done` of the
pointers it was given: the heads behind them are marked, `need_pack` is set
when a wanted one among them is absent from the store, and the wanted ones
are what was appended to the want list, but for the last when its insertion
failed. -/
theorem filter_wants_loop_examined (env : Env) (odb : git_odb) (tagspec : git_refspec)
    (tagopt : git_remote_autotag_option_t) (ps : List Nat) :
    ∀ (e : Int) (remote : git_remote),
      ∃ done s : List Nat, done <+: ps ∧
        (∀ q : Nat, (filter_wants_loop env odb tagspec tagopt ps e remote).2.heads[q]?
          = (remote.heads[q]?).map (fun h =>
              if q ∈ done then marked env tagspec tagopt remote.active_refspecs odb h else h)) ∧
        (filter_wants_loop env odb tagspec tagopt ps e remote).2.need_pack
          = (if (done.filter (wanted_ptr env tagspec tagopt remote.active_refspecs
                remote.heads)).any (absent_ptr odb remote.heads) then 1 else remote.need_pack) ∧
        (filter_wants_loop env odb tagspec tagopt ps e remote).2.refs = remote.refs ++ s ∧
        (done.filter (wanted_ptr env tagspec tagopt remote.active_refspecs remote.heads) = s ∨
          ∃ q, done.filter (wanted_ptr env tagspec tagopt remote.active_refspecs remote.heads)
            = s ++ [q]) ∧
        (0 ≤ e → (filter_wants_loop env odb tagspec tagopt ps e remote).1 < 0 →
          ∃ q, done.filter (wanted_ptr env tagspec tagopt remote.active_refspecs remote.heads)
            = s ++ [q]) := by
  induction ps with
  | nil =>
    intro e remote
    refine ⟨[], [], List.prefix_refl _, fun q => ?_, by simp [filter_wants_loop],
      by simp [filter_wants_loop], Or.inl rfl, ?_⟩
    · simp [filter_wants_loop]
    · intro he hneg
      simp only [filter_wants_loop] at hneg
      exact absurd hneg (not_lt.mpr he)
  | cons p rest ih =>
    intro e remote
    obtain ⟨h1, h2, h3⟩ := maybe_want_step env remote p odb tagspec tagopt
    have hwp : wanted_ptr env tagspec tagopt
        (maybe_want env remote p odb tagspec tagopt).2.active_refspecs
        (maybe_want env remote p odb tagspec tagopt).2.heads
          = wanted_ptr env tagspec tagopt remote.active_refspecs remote.heads := by
      funext q
      rw [h1]
      exact wanted_ptr_congr env tagspec tagopt _ h2.2.2.2.2.1 q
    have hab : absent_ptr odb (maybe_want env remote p odb tagspec tagopt).2.heads
        = absent_ptr odb remote.heads := by
      funext q
      exact absent_ptr_congr odb h2.2.2.2.2.1 q
    unfold filter_wants_loop
    by_cases hc : (maybe_want env remote p odb tagspec tagopt).1 < 0
    · simp only [hc, if_true]
      cases hw : wanted_ptr env tagspec tagopt remote.active_refspecs remote.heads p with
      | false =>
        obtain ⟨x1, _⟩ := maybe_want_skip env remote p odb tagspec tagopt hw
        rw [x1] at hc
        exact absurd hc (by decide)
      | true =>
        obtain ⟨x1, x2, x3, _, _⟩ := maybe_want_take env remote p odb tagspec tagopt hw
        have hc2 : env.vector_insert_code remote.refs p < 0 := x1 ▸ hc
        refine ⟨[p], [], by simp, fun q => ?_, ?_, ?_, Or.inr ⟨p, ?_⟩, fun _ _ => ⟨p, ?_⟩⟩
        · rw [maybe_want_heads]
          simp
        · rw [x3]
          simp [List.filter_cons, hw]
        · rw [x2]
          simp [hc2]
        · simp [List.filter_cons, hw]
        · simp [List.filter_cons, hw]
    · simp only [hc, if_false]
      obtain ⟨y1, y2⟩ := h3 (not_lt.mp hc)
      obtain ⟨done, s, d1, d2, d3, d4, d5, d6⟩ :=
        ih (maybe_want env remote p odb tagspec tagopt).1
          (maybe_want env remote p odb tagspec tagopt).2
      rw [hwp] at d3 d5 d6
      rw [hab] at d3
      have hf : (p :: done).filter
            (wanted_ptr env tagspec tagopt remote.active_refspecs remote.heads)
          = [p].filter (wanted_ptr env tagspec tagopt remote.active_refspecs remote.heads) ++
            done.filter (wanted_ptr env tagspec tagopt remote.active_refspecs remote.heads) := by
        rw [← List.filter_append]
        rfl
      refine ⟨p :: done,
        [p].filter (wanted_ptr env tagspec tagopt remote.active_refspecs remote.heads) ++ s,
        (List.prefix_cons_inj p).mpr d1, fun q => ?_, ?_, ?_, ?_, ?_⟩
      · rw [d2 q, h1, maybe_want_heads, Option.map_map]
        congr 1
        funext h
        by_cases hq : q = p
        · subst hq
          by_cases hd : q ∈ done
          · simp [hd, marked_idem]
          · simp [hd]
        · by_cases hd : q ∈ done
          · simp [hq, hd]
          · simp [hq, hd]
      · rw [d3, y2, hf, List.any_append]
        cases ([p].filter (wanted_ptr env tagspec tagopt remote.active_refspecs
            remote.heads)).any (absent_ptr odb remote.heads) <;> simp
      · rw [d4, y1, List.append_assoc]
      · rw [hf]
        rcases d5 with d5 | ⟨q, d5⟩
        · exact Or.inl (by rw [d5])
        · exact Or.inr ⟨q, by rw [d5, List.append_assoc]⟩
      · intro _ hneg
        obtain ⟨q, hq⟩ := d6 (not_lt.mp hc) hneg
        exact ⟨q, by rw [hf, hq, List.append_assoc]⟩

theorem filter_wants_tail_examined (env : Env) (remote : git_remote) (error : Int)
    (tagspec : git_refspec) (tagopt : git_remote_autotag_option_t) :
    ∃ done s : List Nat, done <+: List.range remote.heads.length ∧
      (∀ q : Nat, (filter_wants_tail env remote error tagspec tagopt).2.heads[q]?
        = (remote.heads[q]?).map (fun h =>
            if q ∈ done then
              marked env tagspec tagopt remote.active_refspecs
                (env.git_repository_odb__weakptr remote.repo).2 h
            else h)) ∧
      (filter_wants_tail env remote error tagspec tagopt).2.need_pack
        = (if (done.filter (wanted_ptr env tagspec tagopt remote.active_refspecs
              remote.heads)).any
              (absent_ptr (env.git_repository_odb__weakptr remote.repo).2 remote.heads)
            then 1 else remote.need_pack) ∧
      (filter_wants_tail env remote error tagspec tagopt).2.refs = remote.refs ++ s ∧
      (done.filter (wanted_ptr env tagspec tagopt remote.active_refspecs remote.heads) = s ∨
        ∃ q, done.filter (wanted_ptr env tagspec tagopt remote.active_refspecs remote.heads)
          = s ++ [q]) ∧
      (0 ≤ error → (filter_wants_tail env remote error tagspec tagopt).1 < 0 →
        ∃ q, done.filter (wanted_ptr env tagspec tagopt remote.active_refspecs remote.heads)
          = s ++ [q]) ∧
      (listing_ok env remote.repo = false → done = []) := by
  have idle : ∀ q : Nat, remote.heads[q]?
      = (remote.heads[q]?).map (fun h =>
          if q ∈ ([] : List Nat) then
            marked env tagspec tagopt remote.active_refspecs
              (env.git_repository_odb__weakptr remote.repo).2 h
          else h) := by
    intro q
    cases remote.heads[q]? <;> simp
  unfold filter_wants_tail
  by_cases ho : (env.git_repository_odb__weakptr remote.repo).1 < 0
  · simp only [ho, if_true, git_remote.record]
    refine ⟨[], [], List.nil_prefix, idle, by simp, by simp, Or.inl rfl, ?_, fun _ => rfl⟩
    intro he hneg
    exact absurd hneg (not_lt.mpr he)
  · by_cases hl : env.git_remote_ls < 0
    · simp only [ho, hl, if_true, if_false, git_remote.record]
      refine ⟨[], [], List.nil_prefix, idle, by simp, by simp, Or.inl rfl, ?_, fun _ => rfl⟩
      intro he hneg
      exact absurd hneg (not_lt.mpr he)
    · have hok : listing_ok env remote.repo = true := by
        simp [listing_ok, not_lt.mp ho, not_lt.mp hl]
      simp only [ho, hl, if_false]
      obtain ⟨done, s, l1, l2, l3, l4, l5, l6⟩ :=
        filter_wants_loop_examined env (env.git_repository_odb__weakptr remote.repo).2
          tagspec tagopt (List.range remote.heads.length) error
          ((remote.record (Event.repository_odb remote.repo)).record Event.remote_ls)
      exact ⟨done, s, l1, l2, l3, l4, l5, l6, fun hno => by rw [hok] at hno; cases hno⟩

/-- Every build, successful or not, leaves the state `build_trail` describes
for some prefix of the listing. -/
theorem filter_wants_examined (env : Env) (st : git_remote) (opts : Option git_fetch_options) :
    ∃ done : List Nat, build_trail env st opts (filter_wants env st opts) done := by
  have idle : ∀ (R : List git_refspec) (q : Nat), st.heads[q]?
      = (st.heads[q]?).map (fun h =>
          if q ∈ ([] : List Nat) then
            marked env (env.git_refspec__parse GIT_REFSPEC_TAGS true).2
              (effective_autotag st.download_tags opts) R
              (env.git_repository_odb__weakptr st.repo).2 h
          else h) := by
    intro R q
    cases st.heads[q]? <;> simp
  have early : ∀ (c : Int) (r0 : git_remote), setup_fails env st → r0.heads = st.heads →
      r0.refs = [] → r0.need_pack = st.need_pack →
      ∃ done : List Nat, build_trail env st opts (c, r0) done := by
    intro c r0 hs hheads hrefs hneed
    refine ⟨[], List.nil_prefix, ?_, ?_, Or.inl ?_, fun _ hns => absurd hs hns, fun _ => rfl⟩
    · intro q
      show r0.heads[q]? = _
      rw [hheads]
      exact idle _ q
    · show r0.need_pack = _
      rw [hneed]
      simp
    · show _ = r0.refs
      rw [hrefs]
      rfl
  have key : ∀ (r0 : git_remote) (e : Int), r0.repo = st.repo → r0.heads = st.heads →
      r0.refs = [] → r0.need_pack = st.need_pack → 0 ≤ e →
      ∃ done : List Nat, build_trail env st opts
        (filter_wants_tail env r0 e (env.git_refspec__parse GIT_REFSPEC_TAGS true).2
          (effective_autotag st.download_tags opts)) done := by
    intro r0 e hrepo hheads hrefs hneed he
    obtain ⟨done, s, t1, t2, t3, t4, t5, t6, t7⟩ := filter_wants_tail_examined env r0 e
      (env.git_refspec__parse GIT_REFSPEC_TAGS true).2 (effective_autotag st.download_tags opts)
    have hact := (filter_wants_tail_frame env r0 e
      (env.git_refspec__parse GIT_REFSPEC_TAGS true).2
      (effective_autotag st.download_tags opts)).1
    rw [hrefs, List.nil_append] at t4
    rw [hrepo, hheads] at t2 t3
    rw [hheads] at t1 t5 t6
    rw [hneed] at t3
    rw [hrepo] at t7
    refine ⟨done, t1, ?_, ?_, ?_, ?_, t7⟩
    · rw [hact]
      exact t2
    · rw [hact]
      exact t3
    · rw [hact, t4]
      exact t5
    · intro hneg _
      rw [hact, t4]
      exact t6 he hneg
  by_cases ht : (env.git_refspec__parse GIT_REFSPEC_TAGS true).1 < 0
  · rw [filter_wants_tags_fail env st opts ht]
    exact early _ (after_tags st) (Or.inl ht) rfl rfl rfl
  · have ht0 := not_lt.mp ht
    by_cases hR : st.active_refspecs = []
    · by_cases hh : (env.git_refspec__parse "HEAD" true).1 < 0
      · rw [filter_wants_head_fail env st opts ht0 hR hh]
        exact early _ (after_head st) (Or.inr ⟨hR, Or.inl hh⟩) rfl rfl rfl
      · have hh0 := not_lt.mp hh
        by_cases hd : env.dwim_code (env.git_refspec__parse "HEAD" true).2 [] < 0
        · rw [filter_wants_dwim_fail env st opts ht0 hR hh0 hd]
          exact early _ (after_dwim env st) (Or.inr ⟨hR, Or.inr hd⟩) rfl rfl rfl
        · rw [filter_wants_dwim_ok env st opts ht0 hR hh0 (not_lt.mp hd)]
          exact key (after_dwim env st) _ rfl rfl rfl rfl (not_lt.mp hd)
    · rw [filter_wants_active env st opts ht0 hR]
      exact key (after_tags st) _ rfl rfl rfl rfl ht0

/-! ## The state a failed build leaves, in full -/

/-- C15, as amended. When the want-set build fails, `git_fetch_negotiate`
returns -1 and the want list is a prefix of the fully rebuilt list. After a
failed set-up step (tags refspec, default refspec parse or expansion) the
state is the reset one: want list empty, `need_pack` not set. After a failed
insertion the want list is a proper prefix of the fully rebuilt list, the
entries inserted before the failure, and `need_pack` is set exactly when the
store lacks the object of one of these entries or of the next entry of the
fully rebuilt list, the one whose insertion failed. -/
theorem failed_build_state (env : Env) (st : git_remote) (opts : Option git_fetch_options)
    (hfail : (filter_wants env { st with need_pack := 0 } opts).1 < 0) :
    (git_fetch_negotiate env st opts).1 = -1 ∧
    (git_fetch_negotiate env st opts).2.refs
      <+: want_ptrs env (env.git_refspec__parse GIT_REFSPEC_TAGS true).2
        (effective_autotag st.download_tags opts)
        (git_fetch_negotiate env st opts).2.active_refspecs st.heads ∧
    (setup_fails env st →
      (git_fetch_negotiate env st opts).2.refs = [] ∧
      (git_fetch_negotiate env st opts).2.need_pack = 0) ∧
    (¬ setup_fails env st →
      (git_fetch_negotiate env st opts).2.refs.length
        < (want_ptrs env (env.git_refspec__parse GIT_REFSPEC_TAGS true).2
            (effective_autotag st.download_tags opts)
            (git_fetch_negotiate env st opts).2.active_refspecs st.heads).length ∧
      (git_fetch_negotiate env st opts).2.need_pack
        = (if ((want_ptrs env (env.git_refspec__parse GIT_REFSPEC_TAGS true).2
                (effective_autotag st.download_tags opts)
                (git_fetch_negotiate env st opts).2.active_refspecs st.heads).take
                  ((git_fetch_negotiate env st opts).2.refs.length + 1)).any
              (absent_ptr (env.git_repository_odb__weakptr st.repo).2 st.heads)
            then 1 else 0)) := by
  obtain ⟨n1, n2, _, n4⟩ := negotiate_state env st opts
  obtain ⟨q1, q2⟩ := filter_wants_initial env { st with need_pack := 0 } opts
  obtain ⟨done, e1, _, e3, _, e5, _⟩ := filter_wants_examined env { st with need_pack := 0 } opts
  have hret : (git_fetch_negotiate env st opts).1 = -1 := by
    unfold git_fetch_negotiate
    simp only [hfail, if_true]
  rw [n1, n2, n4]
  refine ⟨hret, q1, ?_, fun hns => ⟨q2 hfail hns, ?_⟩⟩
  · intro hs
    have hs0 : setup_fails env { st with need_pack := 0 } := hs
    obtain ⟨_, _, b3, _, b5, _⟩ :=
      filter_wants_setup_fails env { st with need_pack := 0 } opts hs0
    exact ⟨b3, b5⟩
  · obtain ⟨q, hq⟩ := e5 hfail hns
    have hpre : (filter_wants env { st with need_pack := 0 } opts).2.refs ++ [q]
        <+: want_ptrs env (env.git_refspec__parse GIT_REFSPEC_TAGS true).2
          (effective_autotag st.download_tags opts)
          (filter_wants env { st with need_pack := 0 } opts).2.active_refspecs st.heads := by
      rw [← hq]
      exact e1.filter _
    have htake := List.prefix_iff_eq_take.mp hpre
    rw [List.length_append, List.length_singleton] at htake
    rw [← htake, ← hq]
    exact e3

/-- C15, witness: the build of the counter-example fails. -/
theorem failed_build_state_witness :
    (filter_wants tight_env { demo_remote with need_pack := 0 } all_tags).1 < 0 ∧
    ((git_fetch_negotiate tight_env demo_remote all_tags).1 = -1 ∧
    (git_fetch_negotiate tight_env demo_remote all_tags).2.refs
      <+: want_ptrs tight_env (tight_env.git_refspec__parse GIT_REFSPEC_TAGS true).2
        (effective_autotag demo_remote.download_tags all_tags)
        (git_fetch_negotiate tight_env demo_remote all_tags).2.active_refspecs
        demo_remote.heads ∧
    (setup_fails tight_env demo_remote →
      (git_fetch_negotiate tight_env demo_remote all_tags).2.refs = [] ∧
      (git_fetch_negotiate tight_env demo_remote all_tags).2.need_pack = 0) ∧
    (¬ setup_fails tight_env demo_remote →
      (git_fetch_negotiate tight_env demo_remote all_tags).2.refs.length
        < (want_ptrs tight_env (tight_env.git_refspec__parse GIT_REFSPEC_TAGS true).2
            (effective_autotag demo_remote.download_tags all_tags)
            (git_fetch_negotiate tight_env demo_remote all_tags).2.active_refspecs
            demo_remote.heads).length ∧
      (git_fetch_negotiate tight_env demo_remote all_tags).2.need_pack
        = (if ((want_ptrs tight_env (tight_env.git_refspec__parse GIT_REFSPEC_TAGS true).2
                (effective_autotag demo_remote.download_tags all_tags)
                (git_fetch_negotiate tight_env demo_remote all_tags).2.active_refspecs
                demo_remote.heads).take
                  ((git_fetch_negotiate tight_env demo_remote all_tags).2.refs.length + 1)).any
              (absent_ptr (tight_env.git_repository_odb__weakptr demo_remote.repo).2
                demo_remote.heads)
            then 1 else 0))) :=
  ⟨by decide, failed_build_state tight_env demo_remote all_tags (by decide)⟩

/-! ## The policy `All` against the others, the other build failing or not -/

/-- C17, as amended. When the build under the effective policy `All`
succeeds, the want list left by the build from the same state under other
options, successful or not, is a sub-list, in the same order, of the want
list under `All`, and `need_pack` set after the other build implies
`need_pack` set after the build under `All`. -/
theorem all_policy_contains_others (env : Env) (st : git_remote)
    (optsA optsB : Option git_fetch_options)
    (hall : effective_autotag st.download_tags optsA = GIT_REMOTE_DOWNLOAD_TAGS_ALL)
    (hA : 0 ≤ (filter_wants env { st with need_pack := 0 } optsA).1) :
    List.Sublist (git_fetch_negotiate env st optsB).2.refs
        (git_fetch_negotiate env st optsA).2.refs ∧
      ((git_fetch_negotiate env st optsB).2.need_pack ≠ 0 →
        (git_fetch_negotiate env st optsA).2.need_pack ≠ 0) := by
  obtain ⟨a1, a2, _, _⟩ := negotiate_state env st optsA
  obtain ⟨b1, b2, _, _⟩ := negotiate_state env st optsB
  obtain ⟨pa1, pa2⟩ := filter_wants_ok env { st with need_pack := 0 } optsA hA
  obtain ⟨qb, _⟩ := filter_wants_initial env { st with need_pack := 0 } optsB
  obtain ⟨done, e1, _, e3, e4, _, e6⟩ :=
    filter_wants_examined env { st with need_pack := 0 } optsB
  have hact : (filter_wants env { st with need_pack := 0 } optsB).2.active_refspecs
      = (filter_wants env { st with need_pack := 0 } optsA).2.active_refspecs := by
    rw [filter_wants_active_refspecs, filter_wants_active_refspecs]
  have hrepo : ({ st with need_pack := 0 } : git_remote).repo = st.repo := rfl
  have hheads : ({ st with need_pack := 0 } : git_remote).heads = st.heads := rfl
  have htags : ({ st with need_pack := 0 } : git_remote).download_tags = st.download_tags := rfl
  have hneed : ({ st with need_pack := 0 } : git_remote).need_pack = 0 := rfl
  rw [hrepo, hheads, htags] at pa1 pa2 e3
  rw [hheads, htags] at qb e4
  rw [hheads] at e1
  rw [hrepo] at e6
  rw [hneed] at e3
  rw [hall] at pa1 pa2
  rw [hact] at qb e3 e4
  have hsub : List.Sublist
      (want_ptrs env (env.git_refspec__parse GIT_REFSPEC_TAGS true).2
        (effective_autotag st.download_tags optsB)
        (filter_wants env { st with need_pack := 0 } optsA).2.active_refspecs st.heads)
      (want_ptrs env (env.git_refspec__parse GIT_REFSPEC_TAGS true).2
        GIT_REMOTE_DOWNLOAD_TAGS_ALL
        (filter_wants env { st with need_pack := 0 } optsA).2.active_refspecs st.heads) := by
    unfold want_ptrs
    apply List.monotone_filter_right
    intro p hp
    obtain ⟨h, hg, hw⟩ := (wanted_ptr_iff _ _ _ _ _ _).mp hp
    exact (wanted_ptr_iff _ _ _ _ _ _).mpr ⟨h, hg, wanted_all_of_wanted _ _ _ _ _ hw⟩
  have hdone : (done.filter (wanted_ptr env (env.git_refspec__parse GIT_REFSPEC_TAGS true).2
        (effective_autotag st.download_tags optsB)
        (filter_wants env { st with need_pack := 0 } optsA).2.active_refspecs st.heads))
      <+: want_ptrs env (env.git_refspec__parse GIT_REFSPEC_TAGS true).2
        (effective_autotag st.download_tags optsB)
        (filter_wants env { st with need_pack := 0 } optsA).2.active_refspecs st.heads :=
    e1.filter _
  rw [a1, a2, b1, b2, pa1, pa2]
  cases hok : listing_ok env st.repo with
  | false =>
    have hnil := e6 hok
    rw [hnil] at e3 e4
    simp only [List.filter_nil, List.any_nil, Bool.false_eq_true, if_false] at e3 e4
    have hrefs : (filter_wants env { st with need_pack := 0 } optsB).2.refs = [] := by
      rcases e4 with h | ⟨q, h⟩
      · exact h.symm
      · exact absurd h (by simp)
    rw [hrefs, e3]
    simp
  | true =>
    simp only [if_true, Bool.true_and]
    refine ⟨qb.sublist.trans hsub, ?_⟩
    intro hb
    by_cases hany : (done.filter (wanted_ptr env (env.git_refspec__parse GIT_REFSPEC_TAGS true).2
        (effective_autotag st.download_tags optsB)
        (filter_wants env { st with need_pack := 0 } optsA).2.active_refspecs st.heads)).any
        (absent_ptr (env.git_repository_odb__weakptr st.repo).2 st.heads) = true
    · obtain ⟨p, hp, hab⟩ := List.any_eq_true.mp hany
      have : (want_ptrs env (env.git_refspec__parse GIT_REFSPEC_TAGS true).2
          GIT_REMOTE_DOWNLOAD_TAGS_ALL
          (filter_wants env { st with need_pack := 0 } optsA).2.active_refspecs st.heads).any
          (absent_ptr (env.git_repository_odb__weakptr st.repo).2 st.heads) = true :=
        List.any_eq_true.mpr ⟨p, hsub.subset (hdone.subset hp), hab⟩
      simp [this]
    · rw [e3] at hb
      simp [hany] at hb

/-- C17, witness: on `demo_remote` the build under `All` succeeds. -/
theorem all_policy_contains_others_witness :
    (effective_autotag demo_remote.download_tags all_tags = GIT_REMOTE_DOWNLOAD_TAGS_ALL ∧
      0 ≤ (filter_wants demo_env { demo_remote with need_pack := 0 } all_tags).1) ∧
    (List.Sublist (git_fetch_negotiate demo_env demo_remote none).2.refs
        (git_fetch_negotiate demo_env demo_remote all_tags).2.refs ∧
      ((git_fetch_negotiate demo_env demo_remote none).2.need_pack ≠ 0 →
        (git_fetch_negotiate demo_env demo_remote all_tags).2.need_pack ≠ 0)) :=
  ⟨⟨rfl, by decide⟩,
    all_policy_contains_others demo_env demo_remote all_tags none rfl (by decide)⟩

/-! ## The marks a build leaves, successful or not -/

end Fetch
